import Mathlib

/-!
# Reset of staged-sync stages (`core/rawdb/rawdbreset/reset_stages.go`)

A shallow embedding of the reset operations of the staged-sync pipeline.
Go functions that receive a `kv.RwTx` become functions `Tx → Tx × Option Err`:
the transaction is a mutable object that survives a failed call, and the Go
`error` result is an `Option Err` (`none` is `nil`).  `db.Update` runs such a
function on a fresh transaction and commits or rolls back.

Every primitive store operation consults a fault oracle so that storage
failures, which the Go code must handle, are part of the model.

Two further sections embed the SSZ encoding of `BLSToExecutionChange`
(`cl/cltypes/bls_to_execution_change.go`) and the JSON marshalling of
`DynamicFeeTransaction` (`core/types/transaction_marshalling.go`).
-/

namespace Erigon

/-- Byte strings (`[]byte`), one natural number below 256 per byte. -/
abbrev Bytes := List Nat

/-- Modelled from the spec: the table-name constants of package `kv`
(erigon-lib), which the source only refers to by identifier.  Each Go
identifier used by `reset_stages.go` is one constructor, together with the
canonical tables the spec names (headers, canonical-hash markers, total
difficulty, head-header pointer).  Distinct identifiers are distinct tables. -/
inductive kv.Table where
  | PlainState | HashedAccounts | HashedStorage | TrieOfAccounts | TrieOfStorage
  | Epoch | PendingEpoch | BorReceipts
  | Code | PlainContractCode | ContractCode | IncarnationMap
  | AccountChangeSet | StorageChangeSet | Receipts | Log | CallTraceSet
  | AccountHistoryKeys | AccountIdx | AccountHistoryVals
  | StorageKeys | StorageVals | StorageHistoryKeys | StorageHistoryVals | StorageIdx
  | CodeKeys | CodeVals | CodeHistoryKeys | CodeHistoryVals | CodeIdx
  | LogAddressKeys | LogAddressIdx | LogTopicsKeys | LogTopicsIdx
  | TracesFromKeys | TracesFromIdx | TracesToKeys | TracesToIdx
  | AccountKeys | CommitmentKeys | CommitmentVals
  | CommitmentHistoryKeys | CommitmentHistoryVals | CommitmentIdx
  | CallFromIndex | CallToIndex | LogAddressIndex | LogTopicIndex
  | AccountsHistory | StorageHistory
  | TxLookup | Senders
  | BlockBody | NonCanonicalTxs | EthTx | EthTxV3 | MaxTxNum
  | Headers | HeaderCanonical | HeaderTD | HeadHeaderKey | Sequence
  deriving DecidableEq, Repr

/-- Modelled from the spec: the stage identifiers of package `stages`
(`eth/stagedsync/stages`), one constructor per identifier that
`reset_stages.go` mentions. -/
inductive stages.SyncStage where
  | Snapshots | Headers | Bodies | Senders | Execution
  | HashState | IntermediateHashes
  | AccountHistoryIndex | StorageHistoryIndex
  | LogIndex | CallTraces | TxLookup | Finish
  deriving DecidableEq, Repr

/-- Modelled from the spec: the persisted feature flags of package `kvcfg`
(the SchemaVersionResolver of the spec). -/
inductive kvcfg.ConfigKey where
  | HistoryV3 | TransactionsV3
  deriving DecidableEq, Repr

open stages (SyncStage)

/-- Modelled from the spec: the shared transactional key-value store.  A table
is a list of key/value records; the ProgressTracker of the spec keeps, per
stage, a forward watermark and a prune watermark; the feature flags are the
persisted configuration read by `kvcfg`. -/
@[ext]
structure Store where
  tables : kv.Table → List (Bytes × Bytes)
  progress : SyncStage → Nat
  pruneProgress : SyncStage → Nat
  config : kvcfg.ConfigKey → Bool

/-- Primitive store operations that can fail. -/
inductive Op where
  | ClearBucket (t : kv.Table)
  | SaveStageProgress (s : SyncStage) (v : Nat)
  | SaveStagePruneProgress (s : SyncStage) (v : Nat)
  | WriteGenesisState
  | Commit
  | Put (t : kv.Table) (k : Bytes)
  | Delete (t : kv.Table) (k : Bytes)
  | GetOne (t : kv.Table) (k : Bytes)
  | Cursor (t : kv.Table)
  | ReadConfig (k : kvcfg.ConfigKey)
  | TruncateBlocks
  | FillDBFromSnapshots
  deriving DecidableEq, Repr

/-- Go `error` values: a storage failure names the failing operation. -/
inductive Err where
  | storage (op : Op)
  | other (msg : String)
  | wrap (msg : String) (err : Err)
  deriving DecidableEq, Repr

/-- Modelled from the spec: a read-write transaction (`kv.RwTx`).  `store` is
the transaction's view, `tick` counts the primitive operations attempted so
far, and `faults` records the operations that failed, in order. -/
structure Tx where
  store : Store
  tick : Nat
  faults : List Op

/-- The environment of a call: the fault oracle of the store (does the
operation attempted as number `tick` of the transaction fail?) and the two
functions of package `core` that `ResetExec` calls, which are not part of the
source under study and are taken as parameters. -/
structure Env where
  fails : Nat → Op → Bool
  Genesis : Type
  GenesisBlockByChainName : String → Genesis
  WriteGenesisState : Genesis → Tx → String → Tx × Option Err

/-- The table `t` emptied. -/
def Store.clear (s : Store) (t : kv.Table) : Store :=
  { s with tables := fun u => if u = t then [] else s.tables u }

/-- The forward watermark of `st` set to `v`. -/
def Store.setProgress (s : Store) (st : SyncStage) (v : Nat) : Store :=
  { s with progress := fun u => if u = st then v else s.progress u }

/-- The prune watermark of `st` set to `v`. -/
def Store.setPruneProgress (s : Store) (st : SyncStage) (v : Nat) : Store :=
  { s with pruneProgress := fun u => if u = st then v else s.pruneProgress u }

/-- One primitive operation: it fails, leaving the view as it was, when the
oracle says so, and otherwise applies its effect. -/
def Tx.exec (env : Env) (op : Op) (eff : Store → Store) (tx : Tx) : Tx × Option Err :=
  if env.fails tx.tick op then
    ({ tx with tick := tx.tick + 1, faults := tx.faults ++ [op] }, some (Err.storage op))
  else
    ({ tx with store := eff tx.store, tick := tx.tick + 1 }, none)

/-- Modelled from the spec: `tx.ClearBucket(table)` drops and recreates the
table. -/
def Tx.ClearBucket (env : Env) (t : kv.Table) (tx : Tx) : Tx × Option Err :=
  Tx.exec env (Op.ClearBucket t) (fun s => s.clear t) tx

/-- Modelled from the spec: `stages.SaveStageProgress(tx, stage, v)`. -/
def stages.SaveStageProgress (env : Env) (tx : Tx) (st : SyncStage) (v : Nat) :
    Tx × Option Err :=
  Tx.exec env (Op.SaveStageProgress st v) (fun s => s.setProgress st v) tx

/-- Modelled from the spec: `stages.SaveStagePruneProgress(tx, stage, v)`. -/
def stages.SaveStagePruneProgress (env : Env) (tx : Tx) (st : SyncStage) (v : Nat) :
    Tx × Option Err :=
  Tx.exec env (Op.SaveStagePruneProgress st v) (fun s => s.setPruneProgress st v) tx

/-- Modelled from the spec: `backup.ClearTables(ctx, db, tx, tables...)`
(`turbo/backup`) clears the tables in order and returns the first error. -/
def backup.ClearTables (env : Env) (tx : Tx) : List kv.Table → Tx × Option Err
  | [] => (tx, none)
  | t :: ts =>
    match Tx.ClearBucket env t tx with
    | (tx1, some err) => (tx1, some err)
    | (tx1, none) => backup.ClearTables env tx1 ts

/-- Modelled from the spec: `kvcfg.<flag>.FromDB(db)` reads a persisted
feature flag. -/
def kvcfg.FromDB (k : kvcfg.ConfigKey) (db : Store) : Bool :=
  db.config k

/-- The transaction on which `db.Update` starts its callback. -/
def kv.beginRw (db : Store) : Tx :=
  { store := db, tick := 0, faults := [] }

/-- Modelled from the spec: `db.Update(ctx, f)` runs `f` in one exclusive
write transaction; it commits when `f` returns nil and the commit itself
succeeds, and otherwise rolls back, leaving the store as it was. -/
def kv.Update (env : Env) (db : Store) (f : Tx → Tx × Option Err) : Store × Option Err :=
  match f (kv.beginRw db) with
  | (_, some err) => (db, some err)
  | (tx, none) =>
    if env.fails tx.tick Op.Commit then (db, some (Err.storage Op.Commit))
    else (tx.store, none)

/-- The map `Tables` : stage → owned tables (lines 192-200). -/
def Tables : List (SyncStage × List kv.Table) :=
  [ (.HashState, [.HashedAccounts, .HashedStorage, .ContractCode]),
    (.IntermediateHashes, [.TrieOfAccounts, .TrieOfStorage]),
    (.CallTraces, [.CallFromIndex, .CallToIndex]),
    (.LogIndex, [.LogAddressIndex, .LogTopicIndex]),
    (.AccountHistoryIndex, [.AccountsHistory]),
    (.StorageHistoryIndex, [.StorageHistory]),
    (.Finish, []) ]

/-- Go map indexing `Tables[st]`: the owned tables, nil for a stage that is
not a key of the map. -/
def Tables.index (st : SyncStage) : List kv.Table :=
  (Tables.lookup st).getD []

/-- The slice `stateBuckets` (lines 201-205). -/
def stateBuckets : List kv.Table :=
  [ .PlainState, .HashedAccounts, .HashedStorage, .TrieOfAccounts, .TrieOfStorage,
    .Epoch, .PendingEpoch, .BorReceipts,
    .Code, .PlainContractCode, .ContractCode, .IncarnationMap ]

/-- The initial value of the package variable `stateHistoryBuckets`
(lines 206-212). -/
def stateHistoryBuckets : List kv.Table :=
  [ .AccountChangeSet, .StorageChangeSet, .Receipts, .Log, .CallTraceSet ]

/-- The slice `stateHistoryV3Buckets` (lines 213-224). -/
def stateHistoryV3Buckets : List kv.Table :=
  [ .AccountHistoryKeys, .AccountIdx, .AccountHistoryVals,
    .StorageKeys, .StorageVals, .StorageHistoryKeys, .StorageHistoryVals, .StorageIdx,
    .CodeKeys, .CodeVals, .CodeHistoryKeys, .CodeHistoryVals, .CodeIdx,
    .AccountHistoryKeys, .AccountIdx, .AccountHistoryVals,
    .StorageHistoryKeys, .StorageIdx, .StorageHistoryVals,
    .CodeHistoryKeys, .CodeIdx, .CodeHistoryVals,
    .LogAddressKeys, .LogAddressIdx,
    .LogTopicsKeys, .LogTopicsIdx,
    .TracesFromKeys, .TracesFromIdx,
    .TracesToKeys, .TracesToIdx ]

/-- The slice `stateHistoryV4Buckets` (lines 225-228). -/
def stateHistoryV4Buckets : List kv.Table :=
  [ .AccountKeys, .StorageKeys, .CodeKeys,
    .CommitmentKeys, .CommitmentVals, .CommitmentHistoryKeys, .CommitmentHistoryVals,
    .CommitmentIdx ]

/-- The mutable package-level state of `rawdbreset`: the current value of the
variable `stateHistoryBuckets`, which `ResetExec` appends to. -/
structure Globals where
  stateHistoryBuckets : List kv.Table
  deriving DecidableEq, Repr

/-- The package state at program start. -/
def Globals.init : Globals :=
  { stateHistoryBuckets := Erigon.stateHistoryBuckets }

/-- The function `clearStageProgress` (lines 230-240). -/
def clearStageProgress (env : Env) (tx : Tx) : List SyncStage → Tx × Option Err
  | [] => (tx, none)
  | stage :: rest =>
    match stages.SaveStageProgress env tx stage 0 with
    | (tx1, some err) => (tx1, some err)
    | (tx1, none) =>
      match stages.SaveStagePruneProgress env tx1 stage 0 with
      | (tx2, some err) => (tx2, some err)
      | (tx2, none) => clearStageProgress env tx2 rest

/-- The loop of `Reset` (lines 244-251) over the stages still to visit: clear
the stage's tables, then zero the watermarks of the whole `stagesList`. -/
def Reset.loop (env : Env) (stagesList : List SyncStage) (tx : Tx) :
    List SyncStage → Tx × Option Err
  | [] => (tx, none)
  | st :: rest =>
    match backup.ClearTables env tx (Tables.index st) with
    | (tx1, some err) => (tx1, some err)
    | (tx1, none) =>
      match clearStageProgress env tx1 stagesList with
      | (tx2, some err) => (tx2, some err)
      | (tx2, none) => Reset.loop env stagesList tx2 rest

/-- The callback that `Reset` hands to `db.Update` (lines 243-253). -/
def Reset.body (env : Env) (stagesList : List SyncStage) (tx : Tx) : Tx × Option Err :=
  Reset.loop env stagesList tx stagesList

/-- The function `Reset` (lines 242-254). -/
def Reset (env : Env) (db : Store) (stagesList : List SyncStage) : Store × Option Err :=
  kv.Update env db (Reset.body env stagesList)

/-- The loop `for _, b := range stateBuckets` of `ResetExec` (lines 159-163). -/
def ResetExec.clearLoop (env : Env) (tx : Tx) : List kv.Table → Tx × Option Err
  | [] => (tx, none)
  | b :: bs =>
    match Tx.ClearBucket env b tx with
    | (tx1, some err) => (tx1, some err)
    | (tx1, none) => ResetExec.clearLoop env tx1 bs

/-- The callback that `ResetExec` hands to `db.Update` (lines 151-176);
`historyV3` and `hist` are the flag and the value of the package variable
`stateHistoryBuckets` that the closure captures. -/
def ResetExec.body (env : Env) (historyV3 : Bool) (hist : List kv.Table)
    (chain tmpDir : String) (tx : Tx) : Tx × Option Err :=
  match clearStageProgress env tx [.Execution, .HashState, .IntermediateHashes] with
  | (tx1, some err) => (tx1, some err)
  | (tx1, none) =>
    match backup.ClearTables env tx1 stateBuckets with
    | (tx2, some _) => (tx2, none)
    | (tx2, none) =>
      match ResetExec.clearLoop env tx2 stateBuckets with
      | (tx3, some err) => (tx3, some err)
      | (tx3, none) =>
        match backup.ClearTables env tx3 hist with
        | (tx4, some _) => (tx4, none)
        | (tx4, none) =>
          if !historyV3 then
            match env.WriteGenesisState (env.GenesisBlockByChainName chain) tx4 tmpDir with
            | (tx5, some err) => (tx5, some err)
            | (tx5, none) => (tx5, none)
          else (tx4, none)

/-- The package variable `stateHistoryBuckets` after lines 145-149 of
`ResetExec`. -/
def ResetExec.appendHistory (g : Globals) (historyV3 : Bool) : Globals :=
  if historyV3 then
    { stateHistoryBuckets :=
        (g.stateHistoryBuckets ++ stateHistoryV3Buckets) ++ stateHistoryV4Buckets }
  else g

/-- The function `ResetExec` (lines 144-177): the package state after the
call, the store after the call, and the returned error. -/
def ResetExec (env : Env) (g : Globals) (db : Store) (chain tmpDir : String) :
    Globals × Store × Option Err :=
  let historyV3 := kvcfg.FromDB .HistoryV3 db
  let g1 := ResetExec.appendHistory g historyV3
  let r := kv.Update env db (ResetExec.body env historyV3 g1.stateHistoryBuckets chain tmpDir)
  (g1, r.1, r.2)


/-! ## Block truncation, senders, transaction lookup, warmup -/

/-- Go `bytes.Compare(a, b) <= 0`: the lexicographic order of keys in a table. -/
def Bytes.le : Bytes → Bytes → Bool
  | [], _ => true
  | _ :: _, [] => false
  | a :: as, b :: bs => decide (a < b) || (decide (a = b) && Bytes.le as bs)

/-- Modelled from the spec: `hexutility.EncodeTs(n)`, the 8-byte big-endian
encoding of a block height (`uint64`). -/
def hexutility.EncodeTs (n : Nat) : Bytes :=
  [n / 2 ^ 56 % 256, n / 2 ^ 48 % 256, n / 2 ^ 40 % 256, n / 2 ^ 32 % 256,
   n / 2 ^ 24 % 256, n / 2 ^ 16 % 256, n / 2 ^ 8 % 256, n % 256]

/-- All records of table `t` with key `k` removed. -/
def Store.delete (s : Store) (t : kv.Table) (k : Bytes) : Store :=
  { s with
    tables := fun u =>
      if u = t then (s.tables t).filter (fun r => decide (r.1 ≠ k)) else s.tables u }

/-- The record `k ↦ v` written to table `t`, replacing any record of key `k`. -/
def Store.put (s : Store) (t : kv.Table) (k v : Bytes) : Store :=
  { s with
    tables := fun u =>
      if u = t then (k, v) :: (s.tables t).filter (fun r => decide (r.1 ≠ k))
      else s.tables u }

/-- The value stored under `k` in table `t`, empty when there is none. -/
def Store.getOne (s : Store) (t : kv.Table) (k : Bytes) : Bytes :=
  ((s.tables t).lookup k).getD []

/-- Modelled from the spec: `tx.Delete(table, k)`. -/
def Tx.Delete (env : Env) (t : kv.Table) (k : Bytes) (tx : Tx) : Tx × Option Err :=
  Tx.exec env (Op.Delete t k) (fun s => s.delete t k) tx

/-- Modelled from the spec: `tx.Put(table, k, v)`. -/
def Tx.Put (env : Env) (t : kv.Table) (k v : Bytes) (tx : Tx) : Tx × Option Err :=
  Tx.exec env (Op.Put t k) (fun s => s.put t k v) tx

/-- Modelled from the spec: `tx.GetOne(table, k)`: the value read and the error. -/
def Tx.GetOne (env : Env) (t : kv.Table) (k : Bytes) (tx : Tx) : Tx × Bytes × Option Err :=
  if env.fails tx.tick (Op.GetOne t k) then
    ({ tx with tick := tx.tick + 1, faults := tx.faults ++ [Op.GetOne t k] }, [],
      some (Err.storage (Op.GetOne t k)))
  else ({ tx with tick := tx.tick + 1 }, tx.store.getOne t k, none)

/-- The records of table `t` with key at or after `fromPrefix`, in key order:
what a cursor positioned by `Seek(fromPrefix)` walks over. -/
def Store.seek (s : Store) (t : kv.Table) (fromPrefix : Bytes) : List (Bytes × Bytes) :=
  ((s.tables t).filter (fun r => Bytes.le fromPrefix r.1)).insertionSort
    (fun a b => Bytes.le a.1 b.1 = true)

/-- The loop of `tx.ForEach`: the walker is called on each record in turn and
its first error ends the walk. -/
def Tx.ForEach.loop (walker : Bytes → Bytes → Tx → Tx × Option Err) (tx : Tx) :
    List (Bytes × Bytes) → Tx × Option Err
  | [] => (tx, none)
  | r :: rest =>
    match walker r.1 r.2 tx with
    | (tx1, some err) => (tx1, some err)
    | (tx1, none) => Tx.ForEach.loop walker tx1 rest

/-- Modelled from the spec: `tx.ForEach(table, fromPrefix, walker)` opens a
cursor (which can fail), seeks to `fromPrefix` and calls the walker on every
record from there to the end of the table, in key order.  The records walked
are those present when the cursor is positioned; the walkers of this file only
delete the record they are called on. -/
def Tx.ForEach (env : Env) (t : kv.Table) (fromPrefix : Bytes)
    (walker : Bytes → Bytes → Tx → Tx × Option Err) (tx : Tx) : Tx × Option Err :=
  if env.fails tx.tick (Op.Cursor t) then
    ({ tx with tick := tx.tick + 1, faults := tx.faults ++ [Op.Cursor t] },
      some (Err.storage (Op.Cursor t)))
  else
    Tx.ForEach.loop walker { tx with tick := tx.tick + 1 } (tx.store.seek t fromPrefix)

/-- Modelled from the spec: `rawdb.TruncateCanonicalHash(tx, blockFrom, false)`
deletes every canonical-hash marker at height `blockFrom` or above. -/
def rawdb.TruncateCanonicalHash (env : Env) (tx : Tx) (blockFrom : Nat) : Tx × Option Err :=
  match Tx.ForEach env .HeaderCanonical (hexutility.EncodeTs blockFrom)
      (fun k _ tx1 => Tx.Delete env .HeaderCanonical k tx1) tx with
  | (tx1, some err) => (tx1, some (Err.wrap "TruncateCanonicalHash" err))
  | (tx1, none) => (tx1, none)

/-- Modelled from the spec: `rawdb.TruncateTd(tx, blockFrom)` deletes every
total-difficulty record at height `blockFrom` or above. -/
def rawdb.TruncateTd (env : Env) (tx : Tx) (blockFrom : Nat) : Tx × Option Err :=
  match Tx.ForEach env .HeaderTD (hexutility.EncodeTs blockFrom)
      (fun k _ tx1 => Tx.Delete env .HeaderTD k tx1) tx with
  | (tx1, some err) => (tx1, some (Err.wrap "TruncateTd" err))
  | (tx1, none) => (tx1, none)

/-- Go `common.BytesToHash`: the last 32 bytes, left-padded with zeros. -/
def common.BytesToHash (b : Bytes) : Bytes :=
  List.replicate (32 - b.length) 0 ++ b.drop (b.length - 32)

/-- The hash held under height `number` in the canonical-hash table, the zero
hash when there is none. -/
def Store.canonicalHash (s : Store) (number : Nat) : Bytes :=
  common.BytesToHash (s.getOne .HeaderCanonical (hexutility.EncodeTs number))

/-- Modelled from the spec: `rawdb.ReadCanonicalHash(tx, number)`. -/
def rawdb.ReadCanonicalHash (env : Env) (tx : Tx) (number : Nat) : Tx × Bytes × Option Err :=
  match Tx.GetOne env .HeaderCanonical (hexutility.EncodeTs number) tx with
  | (tx1, _, some err) =>
    (tx1, common.BytesToHash [], some (Err.wrap "failed ReadCanonicalHash" err))
  | (tx1, data, none) => (tx1, common.BytesToHash data, none)

/-- The key of the head-header pointer, the bytes of the Go string
`kv.HeadHeaderKey` ("LastHeader"). -/
def kv.HeadHeaderKeyBytes : Bytes :=
  [76, 97, 115, 116, 72, 101, 97, 100, 101, 114]

/-- Modelled from the spec: `rawdb.WriteHeadHeaderHash(tx, hash)`. -/
def rawdb.WriteHeadHeaderHash (env : Env) (tx : Tx) (hash : Bytes) : Tx × Option Err :=
  match Tx.Put env .HeadHeaderKey kv.HeadHeaderKeyBytes hash tx with
  | (tx1, some err) => (tx1, some (Err.wrap "failed to store last header hash" err))
  | (tx1, none) => (tx1, none)

/-- Modelled from the spec: `rawdb.ReadHeadHeaderHash(db)`, the head-header
pointer of a store. -/
def rawdb.ReadHeadHeaderHash (s : Store) : Bytes :=
  common.BytesToHash (s.getOne .HeadHeaderKey kv.HeadHeaderKeyBytes)

/-- The key under which the sequence counter of a table is kept: the Go code
uses the bytes of the table name, the model the index of the identifier. -/
def kv.Table.sequenceKey (t : kv.Table) : Bytes :=
  [t.toCtorIdx]

/-- Modelled from the spec: `rawdb.ResetSequence(tx, bucket, newValue)` writes
the sequence counter of `bucket`. -/
def rawdb.ResetSequence (env : Env) (tx : Tx) (bucket : kv.Table) (newValue : Nat) :
    Tx × Option Err :=
  Tx.Put env .Sequence bucket.sequenceKey (hexutility.EncodeTs newValue) tx

/-- Modelled from the spec: `kvcfg.<flag>.Enabled(tx)` reads a persisted
feature flag inside a transaction; the read can fail. -/
def kvcfg.Enabled (env : Env) (k : kvcfg.ConfigKey) (tx : Tx) : Tx × Bool × Option Err :=
  if env.fails tx.tick (Op.ReadConfig k) then
    ({ tx with tick := tx.tick + 1, faults := tx.faults ++ [Op.ReadConfig k] }, false,
      some (Err.storage (Op.ReadConfig k)))
  else ({ tx with tick := tx.tick + 1 }, tx.store.config k, none)

/-- Modelled from the spec: the local snapshot archive (`*snapshotsync.RoSnapshots`)
as far as `ResetBlocks` looks at it: `Cfg().Enabled` and `BlocksAvailable()`. -/
structure snapshotsync.RoSnapshots where
  cfgEnabled : Bool
  blocksAvailable : Nat
  deriving DecidableEq, Repr

/-- The two functions of this repository that `ResetBlocks` calls and that are
not part of the source under study, taken as parameters:
`rawdb.TruncateBlocks(ctx, tx, blockFrom)` and
`stagedsync.FillDBFromSnapshots(..., tx, ..., snapshots, ...)`. -/
structure ResetBlocks.Deps where
  TruncateBlocks : Tx → Nat → Tx × Option Err
  FillDBFromSnapshots : Tx → snapshotsync.RoSnapshots → Tx × Option Err

/-- How a Go call ends: it returns its `error` result, or it panics. -/
inductive Outcome where
  | ret (err : Option Err)
  | panicked (err : Err)
  deriving DecidableEq, Repr

/-- The condition of line 112: a snapshot archive is configured, enabled and
has blocks available. -/
def ResetBlocks.usable : Option snapshotsync.RoSnapshots → Bool
  | none => false
  | some snapshots => snapshots.cfgEnabled && decide (snapshots.blocksAvailable > 0)

/-- Lines 112-122 of `ResetBlocks`: the refill from the snapshot archive; the
errors of the four progress saves are discarded (`_ =`). -/
def ResetBlocks.refill (env : Env) (deps : ResetBlocks.Deps) (tx : Tx) :
    Option snapshotsync.RoSnapshots → Tx × Outcome
  | none => (tx, .ret none)
  | some snapshots =>
    if snapshots.cfgEnabled && decide (snapshots.blocksAvailable > 0) then
      match deps.FillDBFromSnapshots tx snapshots with
      | (tx1, some err) => (tx1, .ret (some err))
      | (tx1, none) =>
        let tx2 := (stages.SaveStageProgress env tx1 .Snapshots snapshots.blocksAvailable).1
        let tx3 := (stages.SaveStageProgress env tx2 .Headers snapshots.blocksAvailable).1
        let tx4 := (stages.SaveStageProgress env tx3 .Bodies snapshots.blocksAvailable).1
        let tx5 := (stages.SaveStageProgress env tx4 .Senders snapshots.blocksAvailable).1
        (tx5, .ret none)
    else (tx, .ret none)

/-- Lines 85-122 of `ResetBlocks`: the defensive cleanup of block bodies, the
choice of the transaction table, the clearing of the transaction tables and
sequences, and the refill. -/
def ResetBlocks.cleanup (env : Env) (deps : ResetBlocks.Deps) (tx : Tx)
    (snapshots : Option snapshotsync.RoSnapshots) : Tx × Outcome :=
  match Tx.ForEach env .BlockBody (hexutility.EncodeTs 2)
      (fun k _ tx1 => Tx.Delete env .BlockBody k tx1) tx with
  | (tx1, some err) => (tx1, .ret (some err))
  | (tx1, none) =>
    match kvcfg.Enabled env .TransactionsV3 tx1 with
    | (tx2, _, some err) => (tx2, .panicked err)
    | (tx2, transactionV3, none) =>
      let ethtx := if transactionV3 then kv.Table.EthTxV3 else kv.Table.EthTx
      match backup.ClearTables env tx2 [.NonCanonicalTxs, ethtx, .MaxTxNum] with
      | (tx3, some err) => (tx3, .ret (some err))
      | (tx3, none) =>
        match rawdb.ResetSequence env tx3 ethtx 0 with
        | (tx4, some err) => (tx4, .ret (some err))
        | (tx4, none) =>
          match rawdb.ResetSequence env tx4 .NonCanonicalTxs 0 with
          | (tx5, some err) => (tx5, .ret (some err))
          | (tx5, none) => ResetBlocks.refill env deps tx5 snapshots

/-- Lines 70-83 of `ResetBlocks` and what follows: the canonical markers from
height 1 are removed and the head-header pointer is set to the canonical hash
of height 0. -/
def ResetBlocks.markers (env : Env) (deps : ResetBlocks.Deps) (tx : Tx)
    (snapshots : Option snapshotsync.RoSnapshots) : Tx × Outcome :=
  match rawdb.TruncateCanonicalHash env tx 1 with
  | (tx1, some err) => (tx1, .ret (some err))
  | (tx1, none) =>
    match rawdb.TruncateTd env tx1 1 with
    | (tx2, some err) => (tx2, .ret (some err))
    | (tx2, none) =>
      match rawdb.ReadCanonicalHash env tx2 0 with
      | (tx3, _, some err) => (tx3, .ret (some err))
      | (tx3, hash, none) =>
        match rawdb.WriteHeadHeaderHash env tx3 hash with
        | (tx4, some err) => (tx4, .ret (some err))
        | (tx4, none) => ResetBlocks.cleanup env deps tx4 snapshots

/-- The function `ResetBlocks` (lines 54-123) on the transaction `tx`: the
transaction after the call and how the call ended. -/
def ResetBlocks (env : Env) (deps : ResetBlocks.Deps) (tx : Tx)
    (snapshots : Option snapshotsync.RoSnapshots) : Tx × Outcome :=
  match deps.TruncateBlocks tx 1 with
  | (tx1, some err) => (tx1, .ret (some err))
  | (tx1, none) =>
    match stages.SaveStageProgress env tx1 .Bodies 1 with
    | (tx2, some err) => (tx2, .ret (some (Err.wrap "saving Bodies progress failed" err)))
    | (tx2, none) =>
      match stages.SaveStageProgress env tx2 .Headers 1 with
      | (tx3, some err) => (tx3, .ret (some (Err.wrap "saving Bodies progress failed" err)))
      | (tx3, none) =>
        match stages.SaveStageProgress env tx3 .Snapshots 0 with
        | (tx4, some err) =>
          (tx4, .ret (some (Err.wrap "saving Snapshots progress failed" err)))
        | (tx4, none) => ResetBlocks.markers env deps tx4 snapshots

/-- The function `ResetSenders` (lines 124-129). -/
def ResetSenders (env : Env) (tx : Tx) : Tx × Option Err :=
  match backup.ClearTables env tx [.Senders] with
  | (tx1, some _) => (tx1, none)
  | (tx1, none) => clearStageProgress env tx1 [.Senders]

/-- The function `ResetTxLookup` (lines 179-190). -/
def ResetTxLookup (env : Env) (tx : Tx) : Tx × Option Err :=
  match Tx.ClearBucket env .TxLookup tx with
  | (tx1, some err) => (tx1, some err)
  | (tx1, none) =>
    match stages.SaveStageProgress env tx1 .TxLookup 0 with
    | (tx2, some err) => (tx2, some err)
    | (tx2, none) =>
      match stages.SaveStagePruneProgress env tx2 .TxLookup 0 with
      | (tx3, some err) => (tx3, some err)
      | (tx3, none) => (tx3, none)

/-- The function `WarmupExec` (lines 131-142): the tables handed to
`backup.WarmupTable`, in order, and the returned error.  Warming a table reads
it ahead and changes nothing in the store. -/
def WarmupExec (db : Store) : List kv.Table × Option Err :=
  let warmed := stateBuckets
  let historyV3 := kvcfg.FromDB .HistoryV3 db
  if historyV3 then (warmed ++ stateHistoryV3Buckets, none)
  else (warmed, none)

/-- The function `ResetState` (lines 24-52).  Every `Reset`, the
`db.Update(ctx, ResetTxLookup)` and `ResetExec` is a transaction of its own;
`env k` is the environment (fault oracle) of the transaction number `k`. -/
def ResetState (env : Nat → Env) (g : Globals) (db : Store) (chain tmpDir : String) :
    Globals × Store × Option Err :=
  match Reset (env 0) db [.HashState] with
  | (db1, some err) => (g, db1, some err)
  | (db1, none) =>
  match Reset (env 1) db1 [.IntermediateHashes] with
  | (db2, some err) => (g, db2, some err)
  | (db2, none) =>
  match Reset (env 2) db2 [.AccountHistoryIndex, .StorageHistoryIndex] with
  | (db3, some err) => (g, db3, some err)
  | (db3, none) =>
  match Reset (env 3) db3 [.LogIndex] with
  | (db4, some err) => (g, db4, some err)
  | (db4, none) =>
  match Reset (env 4) db4 [.CallTraces] with
  | (db5, some err) => (g, db5, some err)
  | (db5, none) =>
  match kv.Update (env 5) db5 (ResetTxLookup (env 5)) with
  | (db6, some err) => (g, db6, some err)
  | (db6, none) =>
  match Reset (env 6) db6 [.Finish] with
  | (db7, some err) => (g, db7, some err)
  | (db7, none) =>
  match ResetExec (env 7) g db7 chain tmpDir with
  | (g1, db8, some err) => (g1, db8, some err)
  | (g1, db8, none) => (g1, db8, none)

/-! ## Specification-level store transformers -/

/-- Every table of `ts` emptied at once. -/
def Store.clearTables (s : Store) (ts : List kv.Table) : Store :=
  { s with tables := fun u => if u ∈ ts then [] else s.tables u }

/-- Both watermarks of every stage of `l` set to zero at once. -/
def Store.zeroProgress (s : Store) (l : List SyncStage) : Store :=
  { s with
    progress := fun u => if u ∈ l then 0 else s.progress u
    pruneProgress := fun u => if u ∈ l then 0 else s.pruneProgress u }

/-- The tables owned by the stages of a list: the concatenation of
`Tables[st]` over the list. -/
def ownedTables : List SyncStage → List kv.Table
  | [] => []
  | st :: rest => Tables.index st ++ ownedTables rest

/-- The records of table `t` with key at or after `fromPrefix` removed. -/
def Store.truncateFrom (s : Store) (t : kv.Table) (fromPrefix : Bytes) : Store :=
  { s with
    tables := fun u =>
      if u = t then (s.tables t).filter (fun r => !Bytes.le fromPrefix r.1)
      else s.tables u }

/-- The records of table `t` whose key is in `ks` removed. -/
def Store.deleteKeys (s : Store) (t : kv.Table) (ks : List Bytes) : Store :=
  { s with
    tables := fun u =>
      if u = t then (s.tables t).filter (fun r => decide (r.1 ∉ ks)) else s.tables u }

/-- The transaction table that `ResetBlocks` selects (lines 89-96). -/
def ResetBlocks.ethtx (s : Store) : kv.Table :=
  if s.config .TransactionsV3 then .EthTxV3 else .EthTx

/-- The store that lines 60-110 of `ResetBlocks` produce, when no operation
fails, from the store that `rawdb.TruncateBlocks` left. -/
def ResetBlocks.post (s : Store) : Store :=
  let s1 := ((s.setProgress .Bodies 1).setProgress .Headers 1).setProgress .Snapshots 0
  let s2 := (s1.truncateFrom .HeaderCanonical (hexutility.EncodeTs 1)).truncateFrom
              .HeaderTD (hexutility.EncodeTs 1)
  let s3 := s2.put .HeadHeaderKey kv.HeadHeaderKeyBytes (s2.canonicalHash 0)
  let s4 := s3.truncateFrom .BlockBody (hexutility.EncodeTs 2)
  let s5 := s4.clearTables [.NonCanonicalTxs, ResetBlocks.ethtx s4, .MaxTxNum]
  (s5.put .Sequence (ResetBlocks.ethtx s4).sequenceKey (hexutility.EncodeTs 0)).put
    .Sequence kv.Table.NonCanonicalTxs.sequenceKey (hexutility.EncodeTs 0)

/-- The genesis writer of `env` leaves the tables of `ts` and both watermarks
of the stages of `ss` as they were. -/
def Env.GenesisKeeps (env : Env) (ts : List kv.Table) (ss : List SyncStage) : Prop :=
  ∀ (gen : env.Genesis) (tx : Tx) (tmpDir : String),
    (∀ t ∈ ts, (env.WriteGenesisState gen tx tmpDir).1.store.tables t = tx.store.tables t) ∧
    (∀ s ∈ ss,
      (env.WriteGenesisState gen tx tmpDir).1.store.progress s = tx.store.progress s ∧
      (env.WriteGenesisState gen tx tmpDir).1.store.pruneProgress s
        = tx.store.pruneProgress s)

/-- The stages that `ResetState` resets by name: the keys of `Tables` and
`TxLookup`. -/
def ResetState.stages : List SyncStage :=
  Tables.map Prod.fst ++ [.TxLookup]

/-- The tables that `ResetState` empties through the catalog and
`ResetTxLookup`. -/
def ResetState.tables : List kv.Table :=
  ownedTables (Tables.map Prod.fst) ++ [.TxLookup]

/-- The store `b` comes from `a` by resets only, as far as the tables of `T`
and the stages of `S` are concerned: each such table is as in `a` or is an
emptied table satisfying `P`, each such watermark is as in `a` or is the zeroed
watermark of a stage satisfying `Q`. -/
def Store.Resets (T : List kv.Table) (S : List SyncStage) (P : kv.Table → Prop)
    (Q : SyncStage → Prop) (a b : Store) : Prop :=
  (∀ t ∈ T, b.tables t = a.tables t ∨ (P t ∧ b.tables t = [])) ∧
  (∀ s ∈ S, (b.progress s = a.progress s ∨ (Q s ∧ b.progress s = 0)) ∧
    (b.pruneProgress s = a.pruneProgress s ∨ (Q s ∧ b.pruneProgress s = 0)))

/-- The first seven transactions of `ResetState` (lines 26-46), in order;
`ResetExec` is the eighth. -/
def ResetState.txns (env : Nat → Env) : List (Store → Store × Option Err) :=
  [ fun db => Reset (env 0) db [.HashState],
    fun db => Reset (env 1) db [.IntermediateHashes],
    fun db => Reset (env 2) db [.AccountHistoryIndex, .StorageHistoryIndex],
    fun db => Reset (env 3) db [.LogIndex],
    fun db => Reset (env 4) db [.CallTraces],
    fun db => kv.Update (env 5) db (ResetTxLookup (env 5)),
    fun db => Reset (env 6) db [.Finish] ]

/-- A sequence of transactions run the way `ResetState` runs them: in turn,
each on the store its predecessor left, stopping at the first error. -/
def runTxns : List (Store → Store × Option Err) → Store → Store × Option Err
  | [], db => (db, none)
  | f :: fs, db =>
    match f db with
    | (db1, some err) => (db1, some err)
    | (db1, none) => runTxns fs db1

/-- The store after the first `k` transactions of `ResetState` ran in turn. -/
def ResetState.after (env : Nat → Env) (db : Store) (k : Nat) : Store :=
  ((ResetState.txns env).take k).foldl (fun s f => (f s).1) db

/-- The stages that each of the first seven transactions of `ResetState`
resets (lines 26-46), in order. -/
def ResetState.txnStages : List (List SyncStage) :=
  [[.HashState], [.IntermediateHashes], [.AccountHistoryIndex, .StorageHistoryIndex],
   [.LogIndex], [.CallTraces], [.TxLookup], [.Finish]]

/-- The tables that a transaction of `ResetState` resetting the stages `l`
empties: the tables the catalog gives these stages, and the `TxLookup` table
for the `TxLookup` stage. -/
def ResetState.txnTables (l : List SyncStage) : List kv.Table :=
  ownedTables l ++ (if SyncStage.TxLookup ∈ l then [kv.Table.TxLookup] else [])

/-- The store `db` with the resets of the first `k` transactions of
`ResetState` applied: their tables emptied and their watermarks zeroed,
everything else as in `db`. -/
def ResetState.committed (db : Store) (k : Nat) : Store :=
  (ResetState.txnStages.take k).foldl
    (fun s l => (s.clearTables (ResetState.txnTables l)).zeroProgress l) db

/-- Modelled from the spec: the Canonical tables of the data model (headers,
bodies, canonical-hash markers, total difficulty, head-header pointer). -/
def canonicalTables : List kv.Table :=
  [.Headers, .BlockBody, .HeaderCanonical, .HeaderTD, .HeadHeaderKey]

/-! ## Concrete environments and stores used to evaluate the code -/

/-- An environment with the given fault oracle whose genesis writer writes
nothing. -/
def Env.ofFaults (f : Nat → Op → Bool) : Env :=
  { fails := f
    Genesis := Unit
    GenesisBlockByChainName := fun _ => ()
    WriteGenesisState := fun _ tx _ => (tx, none) }

/-- An environment in which no store operation fails. -/
def Env.noFaults : Env :=
  Env.ofFaults (fun _ _ => false)

/-- An environment in which clearing `HashedStorage` fails, every time. -/
def Env.failHashedStorage : Env :=
  Env.ofFaults (fun _ op => decide (op = Op.ClearBucket .HashedStorage))

/-- A store with records in `HashedAccounts`, `TrieOfAccounts`, `PlainState`,
`Senders`, the canonical `Headers` table, the legacy history table
`AccountChangeSet` and the versioned history table `AccountHistoryKeys`; the
watermarks of `Execution`, `HashState`, `IntermediateHashes` and `Senders` are
at 12345, and both feature flags are off (Legacy). -/
def sampleStore : Store :=
  { tables := fun t =>
      match t with
      | .HashedAccounts => [([1], [10])]
      | .TrieOfAccounts => [([2], [20])]
      | .PlainState => [([3], [30])]
      | .Senders => [([4], [40])]
      | .Headers => [([0], [50])]
      | .AccountChangeSet => [([5], [60])]
      | .AccountHistoryKeys => [([6], [70])]
      | _ => []
    progress := fun s =>
      match s with
      | .Execution => 12345
      | .HashState => 12345
      | .IntermediateHashes => 12345
      | .Senders => 12345
      | _ => 0
    pruneProgress := fun s =>
      match s with
      | .HashState => 12000
      | .IntermediateHashes => 12000
      | _ => 0
    config := fun _ => false }

/-- The sample store with the history flag on (Versioned). -/
def sampleStoreV3 : Store :=
  { sampleStore with config := fun k => decide (k = kvcfg.ConfigKey.HistoryV3) }

/-- The fault oracle under which clearing `PlainState` fails, every time. -/
def failPlainState : Nat → Op → Bool :=
  fun _ op => decide (op = Op.ClearBucket .PlainState)

/-- The fault oracle under which clearing `AccountChangeSet` fails, every
time. -/
def failAccountChangeSet : Nat → Op → Bool :=
  fun _ op => decide (op = Op.ClearBucket .AccountChangeSet)

/-- An environment with the given fault oracle whose genesis is an allocation
of `PlainState` records and whose genesis writer appends the allocation to
`PlainState` (one fallible store operation). -/
def Env.seeding (f : Nat → Op → Bool) (alloc : List (Bytes × Bytes)) : Env :=
  { fails := f
    Genesis := List (Bytes × Bytes)
    GenesisBlockByChainName := fun _ => alloc
    WriteGenesisState := fun g tx _ =>
      if f tx.tick Op.WriteGenesisState then
        ({ tx with tick := tx.tick + 1, faults := tx.faults ++ [Op.WriteGenesisState] },
          some (Err.storage Op.WriteGenesisState))
      else
        ({ tx with
            store :=
              { tx.store with
                tables := fun t =>
                  if t = kv.Table.PlainState then tx.store.tables t ++ g
                  else tx.store.tables t }
            tick := tx.tick + 1 }, none) }

/-- Modelled from the spec: `rawdb.TruncateBlocks(ctx, tx, blockFrom)` walks the
`Headers` table from its last key back to height `blockFrom` (never below 1,
genesis is protected) and deletes each header together with the block body
stored under the same key.  A body without a header is not visited.  The
transaction records of the deleted bodies are left to the clearing of the
transaction tables that follows in `ResetBlocks`. -/
def rawdb.TruncateBlocks.loop (env : Env) (tx : Tx) : List (Bytes × Bytes) → Tx × Option Err
  | [] => (tx, none)
  | r :: rest =>
    match Tx.Delete env .Headers r.1 tx with
    | (tx1, some err) => (tx1, some err)
    | (tx1, none) =>
      match Tx.Delete env .BlockBody r.1 tx1 with
      | (tx2, some err) => (tx2, some err)
      | (tx2, none) => rawdb.TruncateBlocks.loop env tx2 rest

/-- Modelled from the spec: `rawdb.TruncateBlocks(ctx, tx, blockFrom)`, see
`rawdb.TruncateBlocks.loop`. -/
def rawdb.TruncateBlocks (env : Env) (tx : Tx) (blockFrom : Nat) : Tx × Option Err :=
  let blockFrom1 := if blockFrom < 1 then 1 else blockFrom
  rawdb.TruncateBlocks.loop env tx
    (tx.store.seek .Headers (hexutility.EncodeTs blockFrom1)).reverse

/-- A stand-in for `stagedsync.FillDBFromSnapshots`: one fallible operation
that writes nothing. -/
def sampleFill (env : Env) (tx : Tx) (_ : snapshotsync.RoSnapshots) : Tx × Option Err :=
  Tx.exec env Op.FillDBFromSnapshots (fun s => s) tx

/-- The parameters of `ResetBlocks` used to evaluate it. -/
def sampleDeps (env : Env) : ResetBlocks.Deps :=
  { TruncateBlocks := rawdb.TruncateBlocks env
    FillDBFromSnapshots := sampleFill env }

/-- The 32-byte hash given to block `n` in the sample chain. -/
def sampleHash (n : Nat) : Bytes :=
  List.replicate 31 7 ++ [n]

/-- A store populated with blocks 0..100: a header, a body, a canonical-hash
marker and a total-difficulty record per height, the head-header pointer at
block 100, one orphaned body at height 150 (no header), and the watermarks of
`Headers`, `Bodies`, `Snapshots` and `Senders` at 100. -/
def blocksStore : Store :=
  { tables := fun t =>
      match t with
      | .Headers =>
        (List.range 101).map (fun n => (hexutility.EncodeTs n ++ sampleHash n, [n]))
      | .BlockBody =>
        (List.range 101).map (fun n => (hexutility.EncodeTs n ++ sampleHash n, [n])) ++
          [(hexutility.EncodeTs 150 ++ sampleHash 150, [150])]
      | .HeaderCanonical =>
        (List.range 101).map (fun n => (hexutility.EncodeTs n, sampleHash n))
      | .HeaderTD =>
        (List.range 101).map (fun n => (hexutility.EncodeTs n ++ sampleHash n, [n + 1]))
      | .HeadHeaderKey => [(kv.HeadHeaderKeyBytes, sampleHash 100)]
      | _ => []
    progress := fun s =>
      match s with
      | .Headers => 100
      | .Bodies => 100
      | .Snapshots => 100
      | .Senders => 100
      | _ => 0
    pruneProgress := fun _ => 0
    config := fun _ => false }

/-- An inconsistent store: a header and a body at height 0, and orphaned
bodies (no header) at heights 1, 3 and 150; `Headers` and `Bodies` are at 7. -/
def orphanStore : Store :=
  { tables := fun t =>
      match t with
      | .Headers => [(hexutility.EncodeTs 0 ++ sampleHash 0, [0])]
      | .BlockBody =>
        [(hexutility.EncodeTs 3 ++ sampleHash 3, [3]),
         (hexutility.EncodeTs 0 ++ sampleHash 0, [0]),
         (hexutility.EncodeTs 150 ++ sampleHash 150, [150]),
         (hexutility.EncodeTs 1 ++ sampleHash 1, [1])]
      | .HeaderCanonical => [(hexutility.EncodeTs 0, sampleHash 0)]
      | _ => []
    progress := fun s =>
      match s with
      | .Headers => 7
      | .Bodies => 7
      | .Senders => 7
      | _ => 0
    pruneProgress := fun _ => 0
    config := fun _ => false }

/-- The fault oracle under which saving the `Senders` progress 0 fails. -/
def failSendersSave : Nat → Op → Bool :=
  fun _ op => decide (op = Op.SaveStageProgress .Senders 0)

/-- The fault oracle under which clearing `Senders` fails. -/
def failSendersClear : Nat → Op → Bool :=
  fun _ op => decide (op = Op.ClearBucket .Senders)

/-- The fault oracle under which saving the `TxLookup` progress 0 fails. -/
def failTxLookupSave : Nat → Op → Bool :=
  fun _ op => decide (op = Op.SaveStageProgress .TxLookup 0)

/-- The sample store with a record in `TxLookup` and the `TxLookup` watermarks
at 900 and 800. -/
def lookupStore : Store :=
  { sampleStore with
    tables := fun t => if t = kv.Table.TxLookup then [([8], [80])] else sampleStore.tables t
    progress := fun s => if s = SyncStage.TxLookup then 900 else sampleStore.progress s
    pruneProgress := fun s =>
      if s = SyncStage.TxLookup then 800 else sampleStore.pruneProgress s }

/-- The fault oracle under which clearing `TxLookup` fails. -/
def failTxLookupClear : Nat → Op → Bool :=
  fun _ op => decide (op = Op.ClearBucket .TxLookup)

/-- Modelled from the spec: a genesis re-seeder that materialises the
allocation into state tables, plain and hashed ("re-seeds genesis world state
into the now-empty state tables"): it appends the allocation to `PlainState`
and to `HashedAccounts` and never fails. -/
def Env.seedingState (alloc : List (Bytes × Bytes)) : Env :=
  { fails := fun _ _ => false
    Genesis := List (Bytes × Bytes)
    GenesisBlockByChainName := fun _ => alloc
    WriteGenesisState := fun g tx _ =>
      ({ tx with
          store :=
            { tx.store with
              tables := fun t =>
                if t = kv.Table.PlainState ∨ t = kv.Table.HashedAccounts then
                  tx.store.tables t ++ g
                else tx.store.tables t }
          tick := tx.tick + 1 }, none) }

/-! ## SSZ encoding of `BLSToExecutionChange` (`cl/cltypes/bls_to_execution_change.go`) -/

/-- The struct `BLSToExecutionChange` (lines 12-16): a `uint64`, a `[48]byte`
and a 20-byte address. -/
structure cltypes.BLSToExecutionChange where
  ValidatorIndex : Nat
  From : Bytes
  To : Bytes
  deriving DecidableEq, Repr

/-- The values of the Go type: the index fits in 64 bits and the two arrays
have their fixed lengths. -/
def cltypes.BLSToExecutionChange.WellFormed (b : cltypes.BLSToExecutionChange) : Prop :=
  b.ValidatorIndex < 2 ^ 64 ∧ b.From.length = 48 ∧ b.To.length = 20

instance (b : cltypes.BLSToExecutionChange) : Decidable b.WellFormed := by
  unfold cltypes.BLSToExecutionChange.WellFormed
  infer_instance

/-- Modelled from the spec: `ssz.Uint64SSZ(i)` (erigon-lib), the 8-byte
little-endian encoding of a `uint64`. -/
def ssz.Uint64SSZ (i : Nat) : Bytes :=
  [i % 256, i / 2 ^ 8 % 256, i / 2 ^ 16 % 256, i / 2 ^ 24 % 256,
   i / 2 ^ 32 % 256, i / 2 ^ 40 % 256, i / 2 ^ 48 % 256, i / 2 ^ 56 % 256]

/-- Modelled from the spec: `ssz.UnmarshalUint64SSZ(x)` (erigon-lib), the
`uint64` read little-endian from the first 8 bytes of `x`. -/
def ssz.UnmarshalUint64SSZ (x : Bytes) : Nat :=
  (x.getD 0 0 + x.getD 1 0 * 2 ^ 8 + x.getD 2 0 * 2 ^ 16 + x.getD 3 0 * 2 ^ 24 +
    x.getD 4 0 * 2 ^ 32 + x.getD 5 0 * 2 ^ 40 + x.getD 6 0 * 2 ^ 48 +
    x.getD 7 0 * 2 ^ 56) % 2 ^ 64

/-- Modelled from the spec: the sentinel error `ssz.ErrLowBufferSize`
(erigon-lib); its text is not part of the source. -/
def ssz.ErrLowBufferSize : Err :=
  Err.other "ssz.ErrLowBufferSize"

/-- Go `copy(dst, src)`: the first `min(len(dst), len(src))` elements of `src`
overwrite the start of `dst`. -/
def Go.copy (dst src : Bytes) : Bytes :=
  src.take dst.length ++ dst.drop src.length

/-- The method `EncodingSizeSSZ` (lines 48-50). -/
def cltypes.BLSToExecutionChange.EncodingSizeSSZ : Nat := 76

/-- The method `EncodeSSZ` (lines 18-24). -/
def cltypes.BLSToExecutionChange.EncodeSSZ (b : cltypes.BLSToExecutionChange) (buf : Bytes) :
    Bytes × Option Err :=
  let dst := buf
  let dst := dst ++ ssz.Uint64SSZ b.ValidatorIndex
  let dst := dst ++ b.From
  let dst := dst ++ b.To
  (dst, none)

/-- The method `DecodeSSZ` (lines 38-46): the receiver after the call and the
returned error. -/
def cltypes.BLSToExecutionChange.DecodeSSZ (b : cltypes.BLSToExecutionChange) (buf : Bytes)
    (_ : Int) : cltypes.BLSToExecutionChange × Option Err :=
  if buf.length < cltypes.BLSToExecutionChange.EncodingSizeSSZ then
    (b, some (Err.wrap "[BLSToExecutionChange] err" ssz.ErrLowBufferSize))
  else
    ({ ValidatorIndex := ssz.UnmarshalUint64SSZ buf
       From := Go.copy b.From (buf.drop 8)
       To := Go.copy b.To (buf.drop 56) }, none)

/-- A sample change: index `2^40 + 7`, `From` bytes 1..48, `To` bytes 101..120. -/
def sampleChange : cltypes.BLSToExecutionChange :=
  { ValidatorIndex := 2 ^ 40 + 7
    From := (List.range 48).map (fun i => i + 1)
    To := (List.range 20).map (fun i => i + 101) }

/-- The zero value of `BLSToExecutionChange`, the receiver of a decode. -/
def zeroChange : cltypes.BLSToExecutionChange :=
  { ValidatorIndex := 0
    From := List.replicate 48 0
    To := List.replicate 20 0 }

/-! ## JSON marshalling of `DynamicFeeTransaction` (`core/types/transaction_marshalling.go`) -/

/-- Modelled from the spec: `types2.AccessList` (erigon-lib), a list of
addresses each with its storage keys. -/
abbrev types2.AccessList := List (Bytes × List Bytes)

/-- The struct `txJSON` (lines 19-48).  A pointer field is an `Option` whose
`none` is the nil pointer, a `hexutil.Big` is an integer, a `hexutil.Uint64`
a natural number, and addresses, hashes and blobs are byte strings.  The field
`Type` is written `Type_`. -/
structure txJSON where
  Type_ : Nat
  Nonce : Option Nat
  GasPrice : Option Int
  FeeCap : Option Int
  Tip : Option Int
  Gas : Option Nat
  Value : Option Int
  Data : Option Bytes
  V : Option Int
  R : Option Int
  S : Option Int
  To : Option Bytes
  ChainID : Option Int
  AccessList : Option types2.AccessList
  MaxFeePerDataGas : Option Int
  BlobVersionedHashes : List Bytes
  Blobs : List Bytes
  Commitments : List Bytes
  Proofs : List Bytes
  Hash : Bytes
  deriving DecidableEq, Repr

/-- The zero value of `txJSON` (`var enc txJSON`, `var dec txJSON`). -/
def txJSON.zero : txJSON :=
  { Type_ := 0, Nonce := none, GasPrice := none, FeeCap := none, Tip := none, Gas := none
    Value := none, Data := none, V := none, R := none, S := none, To := none
    ChainID := none, AccessList := none, MaxFeePerDataGas := none
    BlobVersionedHashes := [], Blobs := [], Commitments := [], Proofs := []
    Hash := List.replicate 32 0 }

/-- Modelled from the spec: the struct `DynamicFeeTransaction` with its
embedded `CommonTx` (package `types`, declared outside the given files).  The
fields are the ones the marshalling code reads and writes; `ChainID`, `Tip`,
`FeeCap` and `Value` are `*uint256.Int` and `To` is `*libcommon.Address`
(`none` is the nil pointer), `V`, `R`, `S` are `uint256.Int` values. -/
structure DynamicFeeTransaction where
  Nonce : Nat
  Gas : Nat
  To : Option Bytes
  Value : Option Nat
  Data : Bytes
  V : Nat
  R : Nat
  S : Nat
  ChainID : Option Nat
  Tip : Option Nat
  FeeCap : Option Nat
  AccessList : types2.AccessList
  deriving DecidableEq, Repr

/-- Modelled from the spec: `(*uint256.Int).SetFromBig(b)` (holiman/uint256):
the receiver becomes `b` modulo `2^256` and the result reports whether the
magnitude of `b` needs more than 256 bits. -/
def uint256.SetFromBig (b : Int) : Nat × Bool :=
  ((b % 2 ^ 256).toNat, decide (2 ^ 256 ≤ b.natAbs))

/-- Modelled from the spec: `uint256.FromBig(b)` (holiman/uint256): a fresh
value set from `b` with the overflow flag, and `nil, false` for a nil `b`. -/
def uint256.FromBig (b : Option Int) : Option Nat × Bool :=
  match b with
  | none => (none, false)
  | some v => (some (uint256.SetFromBig v).1, (uint256.SetFromBig v).2)

/-- Lines 362-415 of `DynamicFeeTransaction.UnmarshalJSON`: the fields read
after the `gasPrice` check.  `sanityCheckSignature` is defined outside the
given files. -/
def DynamicFeeTransaction.UnmarshalJSON.rest
    (sanityCheckSignature : Nat → Nat → Nat → Bool → Option Err)
    (tx : DynamicFeeTransaction) (dec : txJSON) : DynamicFeeTransaction × Option Err :=
  let tx := { tx with Tip := (uint256.FromBig dec.Tip).1 }
  if (uint256.FromBig dec.Tip).2 then
    (tx, some (Err.other "\x27tip\x27 in transaction does not fit in 256 bits"))
  else
  let tx := { tx with FeeCap := (uint256.FromBig dec.FeeCap).1 }
  if (uint256.FromBig dec.FeeCap).2 then
    (tx, some (Err.other "\x27feeCap\x27 in transaction does not fit in 256 bits"))
  else
  match dec.Gas with
  | none => (tx, some (Err.other "missing required field \x27gas\x27 in transaction"))
  | some gas =>
  let tx := { tx with Gas := gas }
  match dec.Value with
  | none => (tx, some (Err.other "missing required field \x27value\x27 in transaction"))
  | some value =>
  let tx := { tx with Value := (uint256.FromBig (some value)).1 }
  if (uint256.FromBig (some value)).2 then
    (tx, some (Err.other "\x27value\x27 in transaction does not fit in 256 bits"))
  else
  match dec.Data with
  | none => (tx, some (Err.other "missing required field \x27input\x27 in transaction"))
  | some data =>
  let tx := { tx with Data := data }
  match dec.V with
  | none => (tx, some (Err.other "missing required field \x27v\x27 in transaction"))
  | some v =>
  let tx := { tx with V := (uint256.SetFromBig v).1 }
  if (uint256.SetFromBig v).2 then
    (tx, some (Err.other "dec.V higher than 2^256-1"))
  else
  match dec.R with
  | none => (tx, some (Err.other "missing required field \x27r\x27 in transaction"))
  | some r =>
  let tx := { tx with R := (uint256.SetFromBig r).1 }
  if (uint256.SetFromBig r).2 then
    (tx, some (Err.other "dec.R higher than 2^256-1"))
  else
  match dec.S with
  | none => (tx, some (Err.other "missing required field \x27s\x27 in transaction"))
  | some s =>
  let tx := { tx with S := (uint256.SetFromBig s).1 }
  let overflow := (uint256.SetFromBig s).2
  if overflow then
    (tx, some (Err.other "dec.S higher than 2^256-1"))
  else
  if overflow then
    (tx, some (Err.other "\x27s\x27 in transaction does not fit in 256 bits"))
  else
  let withSignature := tx.V != 0 || tx.R != 0 || tx.S != 0
  if withSignature then
    match sanityCheckSignature tx.V tx.R tx.S false with
    | some err => (tx, some err)
    | none => (tx, none)
  else
    (tx, none)

theorem Tx.exec_none {env : Env} {op : Op} {eff : Store → Store} {tx tx1 : Tx}
    (h : Tx.exec env op eff tx = (tx1, none)) :
    tx1.store = eff tx.store ∧ tx1.faults = tx.faults ∧ env.fails tx.tick op = false := by
  unfold Tx.exec at h
  split at h
  · simp at h
  · rename_i hf
    simp only [Prod.mk.injEq, and_true] at h
    subst h
    simp [hf]

theorem Tx.exec_some {env : Env} {op : Op} {eff : Store → Store} {tx tx1 : Tx} {e : Err}
    (h : Tx.exec env op eff tx = (tx1, some e)) :
    tx1.store = tx.store ∧ tx1.faults = tx.faults ++ [op] ∧ env.fails tx.tick op = true := by
  unfold Tx.exec at h
  split at h
  · rename_i hf
    simp only [Prod.mk.injEq] at h
    obtain ⟨h1, _⟩ := h
    subst h1
    simp [hf]
  · simp at h

theorem Store.clearTables_nil (s : Store) : s.clearTables [] = s := by
  ext <;> simp [Store.clearTables]

theorem Store.zeroProgress_nil (s : Store) : s.zeroProgress [] = s := by
  ext <;> simp [Store.zeroProgress]

theorem Store.clear_clearTables (s : Store) (t : kv.Table) (ts : List kv.Table) :
    (s.clear t).clearTables ts = s.clearTables (t :: ts) := by
  ext u <;> simp [Store.clearTables, Store.clear]
  by_cases h1 : u = t <;> by_cases h2 : u ∈ ts <;> simp [h1, h2]

theorem backup.ClearTables_none {env : Env} :
    ∀ (ts : List kv.Table) (tx tx1 : Tx), backup.ClearTables env tx ts = (tx1, none) →
      tx1.store = tx.store.clearTables ts ∧ tx1.faults = tx.faults := by
  intro ts
  induction ts with
  | nil =>
    intro tx tx1 h
    simp only [backup.ClearTables, Prod.mk.injEq, and_true] at h
    subst h
    simp [Store.clearTables_nil]
  | cons t ts ih =>
    intro tx tx1 h
    unfold backup.ClearTables at h
    split at h
    · simp at h
    · rename_i tx2 h2
      obtain ⟨hs, hf, _⟩ := Tx.exec_none h2
      obtain ⟨hs1, hf1⟩ := ih tx2 tx1 h
      rw [hs1, hf1, hs, hf, Store.clear_clearTables]
      simp

theorem backup.ClearTables_some {env : Env} :
    ∀ (ts : List kv.Table) (tx tx1 : Tx) (e : Err),
      backup.ClearTables env tx ts = (tx1, some e) → tx1.faults ≠ [] := by
  intro ts
  induction ts with
  | nil =>
    intro tx tx1 e h
    simp [backup.ClearTables] at h
  | cons t ts ih =>
    intro tx tx1 e h
    unfold backup.ClearTables at h
    split at h
    · rename_i tx2 e2 h2
      simp only [Prod.mk.injEq] at h
      obtain ⟨h3, _⟩ := h
      subst h3
      obtain ⟨_, hf, _⟩ := Tx.exec_some h2
      simp [hf]
    · rename_i tx2 h2
      exact ih tx2 tx1 e h

theorem Store.setProgress_zeroProgress (s : Store) (st : SyncStage) (l : List SyncStage) :
    ((s.setProgress st 0).setPruneProgress st 0).zeroProgress l = s.zeroProgress (st :: l) := by
  ext u <;> simp [Store.zeroProgress, Store.setProgress, Store.setPruneProgress]
  · by_cases h1 : u = st <;> by_cases h2 : u ∈ l <;> simp [h1, h2]
  · by_cases h1 : u = st <;> by_cases h2 : u ∈ l <;> simp [h1, h2]

theorem clearStageProgress_none {env : Env} :
    ∀ (l : List SyncStage) (tx tx1 : Tx), clearStageProgress env tx l = (tx1, none) →
      tx1.store = tx.store.zeroProgress l ∧ tx1.faults = tx.faults := by
  intro l
  induction l with
  | nil =>
    intro tx tx1 h
    simp only [clearStageProgress, Prod.mk.injEq, and_true] at h
    subst h
    simp [Store.zeroProgress_nil]
  | cons st l ih =>
    intro tx tx1 h
    unfold clearStageProgress at h
    split at h
    · simp at h
    · rename_i tx2 h2
      split at h
      · simp at h
      · rename_i tx3 h3
        obtain ⟨hs2, hf2, _⟩ := Tx.exec_none h2
        obtain ⟨hs3, hf3, _⟩ := Tx.exec_none h3
        obtain ⟨hs, hf⟩ := ih tx3 tx1 h
        rw [hs, hf, hs3, hf3, hs2, hf2, Store.setProgress_zeroProgress]
        simp

theorem clearStageProgress_some {env : Env} :
    ∀ (l : List SyncStage) (tx tx1 : Tx) (e : Err),
      clearStageProgress env tx l = (tx1, some e) → tx1.faults ≠ [] := by
  intro l
  induction l with
  | nil =>
    intro tx tx1 e h
    simp [clearStageProgress] at h
  | cons st l ih =>
    intro tx tx1 e h
    unfold clearStageProgress at h
    split at h
    · rename_i tx2 e2 h2
      simp only [Prod.mk.injEq] at h
      obtain ⟨h3, _⟩ := h
      subst h3
      obtain ⟨_, hf, _⟩ := Tx.exec_some h2
      simp [hf]
    · rename_i tx2 h2
      split at h
      · rename_i tx3 e3 h3
        simp only [Prod.mk.injEq] at h
        obtain ⟨h4, _⟩ := h
        subst h4
        obtain ⟨_, hf, _⟩ := Tx.exec_some h3
        simp [hf]
      · rename_i tx3 h3
        exact ih tx3 tx1 e h

theorem mem_ownedTables (t : kv.Table) :
    ∀ l : List SyncStage, t ∈ ownedTables l ↔ ∃ s ∈ l, t ∈ Tables.index s := by
  intro l
  induction l with
  | nil => simp [ownedTables]
  | cons st l ih => simp [ownedTables, ih]

theorem Store.reset_step (s : Store) (a b : List kv.Table) (l m : List SyncStage)
    (hm : m = [] ∨ m = l) :
    (((s.clearTables a).zeroProgress l).clearTables b).zeroProgress m
      = (s.clearTables (a ++ b)).zeroProgress l := by
  rcases hm with hm | hm <;> subst hm
  · ext u <;> simp [Store.zeroProgress, Store.clearTables]
    by_cases h1 : u ∈ a <;> by_cases h2 : u ∈ b <;> simp [h1, h2]
  · ext u <;> simp [Store.zeroProgress, Store.clearTables]
    · by_cases h1 : u ∈ a <;> by_cases h2 : u ∈ b <;> simp [h1, h2]
    · by_cases h1 : u ∈ m <;> simp [h1]
    · by_cases h1 : u ∈ m <;> simp [h1]

theorem Reset.loop_none {env : Env} (l : List SyncStage) :
    ∀ (rest : List SyncStage) (tx tx1 : Tx), Reset.loop env l tx rest = (tx1, none) →
      tx1.store = (tx.store.clearTables (ownedTables rest)).zeroProgress
          (if rest = [] then [] else l) ∧ tx1.faults = tx.faults := by
  intro rest
  induction rest with
  | nil =>
    intro tx tx1 h
    simp only [Reset.loop, Prod.mk.injEq, and_true] at h
    subst h
    simp [ownedTables, Store.zeroProgress_nil, Store.clearTables_nil]
  | cons st rest ih =>
    intro tx tx1 h
    unfold Reset.loop at h
    split at h
    · simp at h
    · rename_i tx2 h2
      split at h
      · simp at h
      · rename_i tx3 h3
        obtain ⟨hs2, hf2⟩ := backup.ClearTables_none _ _ _ h2
        obtain ⟨hs3, hf3⟩ := clearStageProgress_none _ _ _ h3
        obtain ⟨hs, hf⟩ := ih tx3 tx1 h
        refine ⟨?_, by rw [hf, hf3, hf2]⟩
        rw [hs, hs3, hs2]
        simp only [ownedTables, reduceCtorEq, if_false]
        apply Store.reset_step
        by_cases hr : rest = [] <;> simp [hr]

theorem Reset.loop_some {env : Env} (l : List SyncStage) :
    ∀ (rest : List SyncStage) (tx tx1 : Tx) (e : Err),
      Reset.loop env l tx rest = (tx1, some e) → tx1.faults ≠ [] := by
  intro rest
  induction rest with
  | nil =>
    intro tx tx1 e h
    simp [Reset.loop] at h
  | cons st rest ih =>
    intro tx tx1 e h
    unfold Reset.loop at h
    split at h
    · rename_i tx2 e2 h2
      simp only [Prod.mk.injEq] at h
      obtain ⟨h3, _⟩ := h
      subst h3
      exact backup.ClearTables_some _ _ _ _ h2
    · rename_i tx2 h2
      split at h
      · rename_i tx3 e3 h3
        simp only [Prod.mk.injEq] at h
        obtain ⟨h4, _⟩ := h
        subst h4
        exact clearStageProgress_some _ _ _ _ h3
      · rename_i tx3 h3
        exact ih tx3 tx1 e h

/-- A committed `db.Update` returns the view its callback ended with. -/
theorem kv.Update_none {env : Env} {db db1 : Store} {f : Tx → Tx × Option Err}
    (h : kv.Update env db f = (db1, none)) :
    ∃ tx1, f (kv.beginRw db) = (tx1, none) ∧ db1 = tx1.store := by
  unfold kv.Update at h
  split at h
  · simp at h
  · rename_i tx1 h1
    split at h
    · simp at h
    · simp only [Prod.mk.injEq, and_true] at h
      exact ⟨tx1, h1, h.symm⟩

/-- A `db.Update` that returns an error leaves the store as it was. -/
theorem kv.Update_some {env : Env} {db : Store} {f : Tx → Tx × Option Err}
    (h : (kv.Update env db f).2 ≠ none) : (kv.Update env db f).1 = db := by
  unfold kv.Update at h ⊢
  split
  · rfl
  · rename_i tx1 h1
    rw [h1] at h
    simp only at h
    split
    · rfl
    · rename_i hc
      simp [hc] at h

/-- A successful `Reset` computes exactly: owned tables emptied, watermarks of
the listed stages zeroed, everything else as before. -/
theorem Reset_none {env : Env} {db db1 : Store} {l : List SyncStage}
    (h : Reset env db l = (db1, none)) :
    db1 = (db.clearTables (ownedTables l)).zeroProgress l := by
  obtain ⟨tx1, h1, h2⟩ := kv.Update_none h
  obtain ⟨hs, _⟩ := Reset.loop_none l l _ _ h1
  rw [h2, hs]
  by_cases hl : l = []
  · subst hl
    simp [kv.beginRw, Store.zeroProgress_nil]
  · simp [hl, kv.beginRw]

/-- A `Reset` that returns an error leaves the store as it was. -/
theorem Reset_some {env : Env} {db : Store} {l : List SyncStage}
    (h : (Reset env db l).2 ≠ none) : (Reset env db l).1 = db :=
  kv.Update_some h

/-- The callback of `Reset` returns nil only when none of its store operations
failed. -/
theorem Reset.body_faults {env : Env} (l : List SyncStage) (tx : Tx) :
    ((Reset.body env l tx).2 = none → (Reset.body env l tx).1.faults = tx.faults) ∧
    ((Reset.body env l tx).2 ≠ none → (Reset.body env l tx).1.faults ≠ []) := by
  unfold Reset.body
  cases h : Reset.loop env l tx l with
  | mk tx1 e =>
    cases e with
    | none => exact ⟨fun _ => (Reset.loop_none l l tx tx1 h).2, fun h1 => absurd rfl h1⟩
    | some e =>
      exact ⟨fun h1 => by simp at h1, fun _ => Reset.loop_some l l tx tx1 e h⟩

theorem canonical_not_owned (t : kv.Table) (ht : t ∈ canonicalTables) (s : SyncStage) :
    t ∉ Tables.index s := by
  simp only [canonicalTables, List.mem_cons, List.mem_singleton, List.not_mem_nil,
    or_false] at ht
  rcases ht with h | h | h | h | h <;> subst h <;> cases s <;> decide

theorem Tables.index_disjoint (A B : SyncStage) (h : A ≠ B) :
    ∀ t, t ∈ Tables.index A → t ∉ Tables.index B := by
  cases A <;> cases B <;> first | exact absurd rfl h | decide

/-! ## Reset -/

/-- C1: when `Reset(L)` succeeds, every table listed in `Tables[s]` for a stage
`s` of `L` is empty, and `Progress(s) = 0` and `PruneProgress(s) = 0` for every
stage `s` of `L`. -/
theorem Reset_clears_tables_and_watermarks (env : Env) (db : Store) (l : List SyncStage)
    (h : (Reset env db l).2 = none) :
    (∀ s ∈ l, ∀ t ∈ Tables.index s, (Reset env db l).1.tables t = []) ∧
    (∀ s ∈ l, (Reset env db l).1.progress s = 0 ∧ (Reset env db l).1.pruneProgress s = 0) := by
  have h1 : Reset env db l = ((Reset env db l).1, none) := by rw [← h]
  have h2 := Reset_none h1
  rw [h2]
  constructor
  · intro s hs t ht
    have : t ∈ ownedTables l := (mem_ownedTables t l).2 ⟨s, hs, ht⟩
    simp [Store.zeroProgress, Store.clearTables, this]
  · intro s hs
    simp [Store.zeroProgress, hs]

/-- C1 at the grouped-reset scenario: `HashedAccounts` and `TrieOfAccounts`
non-empty, both stages at 12345, `Reset(HashState, IntermediateHashes)`. -/
theorem Reset_clears_tables_and_watermarks_witness :
    (sampleStore.tables .HashedAccounts ≠ [] ∧ sampleStore.tables .TrieOfAccounts ≠ [] ∧
      sampleStore.progress .HashState = 12345 ∧
      sampleStore.progress .IntermediateHashes = 12345) ∧
    (Reset Env.noFaults sampleStore [.HashState, .IntermediateHashes]).2 = none ∧
    ((∀ s ∈ [SyncStage.HashState, SyncStage.IntermediateHashes], ∀ t ∈ Tables.index s,
        (Reset Env.noFaults sampleStore [.HashState, .IntermediateHashes]).1.tables t = []) ∧
     (∀ s ∈ [SyncStage.HashState, SyncStage.IntermediateHashes],
        (Reset Env.noFaults sampleStore [.HashState, .IntermediateHashes]).1.progress s = 0 ∧
        (Reset Env.noFaults sampleStore
          [.HashState, .IntermediateHashes]).1.pruneProgress s = 0)) :=
  ⟨by decide, rfl,
    Reset_clears_tables_and_watermarks Env.noFaults sampleStore
      [.HashState, .IntermediateHashes] rfl⟩

/-- C2: if a table clear or a watermark write inside `Reset(L)` fails (also
after some of the owned tables were already cleared in the transaction), or the
commit fails, `Reset` returns an error; and whenever `Reset` returns an error
the store after the call equals the store before the call. -/
theorem Reset_failure_atomic (env : Env) (db : Store) (l : List SyncStage) :
    ((Reset.body env l (kv.beginRw db)).1.faults ≠ [] → (Reset env db l).2 ≠ none) ∧
    (env.fails (Reset.body env l (kv.beginRw db)).1.tick Op.Commit = true →
      (Reset env db l).2 ≠ none) ∧
    ((Reset env db l).2 ≠ none → (Reset env db l).1 = db) := by
  refine ⟨?_, ?_, Reset_some⟩
  · intro hf
    have hb := (@Reset.body_faults env l (kv.beginRw db)).1
    unfold Reset kv.Update
    cases hr : Reset.body env l (kv.beginRw db) with
    | mk tx1 e =>
      cases e with
      | some e => simp
      | none =>
        rw [hr] at hf hb
        exact absurd (hb rfl) (by simpa [kv.beginRw] using hf)
  · intro hc
    unfold Reset kv.Update
    cases hr : Reset.body env l (kv.beginRw db) with
    | mk tx1 e =>
      rw [hr] at hc
      cases e with
      | some e => simp
      | none => simp [hc]

/-- C2 at a failure after a partial clear: `HashedAccounts` is already cleared
in the transaction when clearing `HashedStorage` fails; `Reset(HashState)`
returns an error and the store is as before. -/
theorem Reset_failure_atomic_witness :
    (Reset.body Env.failHashedStorage [.HashState] (kv.beginRw sampleStore)).1.faults
      = [Op.ClearBucket .HashedStorage] ∧
    (Reset.body Env.failHashedStorage [.HashState]
      (kv.beginRw sampleStore)).1.store.tables .HashedAccounts = [] ∧
    sampleStore.tables .HashedAccounts ≠ [] ∧
    (Reset Env.failHashedStorage sampleStore [.HashState]).2 ≠ none ∧
    (Reset Env.failHashedStorage sampleStore [.HashState]).1 = sampleStore :=
  ⟨rfl, rfl, by decide,
    (Reset_failure_atomic Env.failHashedStorage sampleStore [.HashState]).1 (by decide),
    (Reset_failure_atomic Env.failHashedStorage sampleStore [.HashState]).2.2 (by decide)⟩

theorem Store.reset_idem (s : Store) (ts : List kv.Table) (l : List SyncStage) :
    (((s.clearTables ts).zeroProgress l).clearTables ts).zeroProgress l
      = (s.clearTables ts).zeroProgress l := by
  apply Store.ext
  · funext u
    simp only [Store.zeroProgress, Store.clearTables]
    split_ifs <;> rfl
  · funext u
    simp only [Store.zeroProgress, Store.clearTables]
    split_ifs <;> rfl
  · funext u
    simp only [Store.zeroProgress, Store.clearTables]
    split_ifs <;> rfl
  · rfl

/-- Resetting again a store on which the same `Reset` has just succeeded
changes nothing, whether the second call succeeds or fails. -/
theorem Reset_twice (env1 env2 : Env) (db : Store) (l : List SyncStage)
    (h : (Reset env1 db l).2 = none) :
    (Reset env2 (Reset env1 db l).1 l).1 = (Reset env1 db l).1 := by
  have h1 : Reset env1 db l = ((Reset env1 db l).1, none) := by rw [← h]
  have h2 := Reset_none h1
  cases hr : Reset env2 (Reset env1 db l).1 l with
  | mk db2 e =>
    cases e with
    | some e =>
      have : (Reset env2 (Reset env1 db l).1 l).2 ≠ none := by rw [hr]; simp
      have h3 := Reset_some this
      rw [hr] at h3
      exact h3
    | none =>
      have h3 := Reset_none hr
      simp only
      rw [h3, h2, Store.reset_idem]

/-- C3: for every stage `S`, once `Reset(S)` has succeeded, applying
`Reset(S)` a second time leaves the store exactly as the first call left it:
all tables of `Tables[S]` empty and `Progress(S) = PruneProgress(S) = 0`. -/
theorem Reset_idempotent (env1 env2 : Env) (db : Store) (S : SyncStage)
    (h : (Reset env1 db [S]).2 = none) :
    (Reset env2 (Reset env1 db [S]).1 [S]).1 = (Reset env1 db [S]).1 ∧
    (∀ t ∈ Tables.index S, (Reset env2 (Reset env1 db [S]).1 [S]).1.tables t = []) ∧
    (Reset env2 (Reset env1 db [S]).1 [S]).1.progress S = 0 ∧
    (Reset env2 (Reset env1 db [S]).1 [S]).1.pruneProgress S = 0 := by
  have h1 : Reset env1 db [S] = ((Reset env1 db [S]).1, none) := by rw [← h]
  have h2 := Reset_none h1
  rw [Reset_twice env1 env2 db [S] h]
  refine ⟨rfl, ?_, ?_, ?_⟩
  · intro t ht
    have : t ∈ ownedTables [S] := (mem_ownedTables t [S]).2 ⟨S, by simp, ht⟩
    rw [h2]
    simp [Store.zeroProgress, Store.clearTables, this]
  · rw [h2]
    simp [Store.zeroProgress]
  · rw [h2]
    simp [Store.zeroProgress]

/-- C3 at `Reset(HashState)` on the sample store, both calls succeeding. -/
theorem Reset_idempotent_witness :
    (Reset Env.noFaults sampleStore [.HashState]).2 = none ∧
    (Reset Env.noFaults (Reset Env.noFaults sampleStore [.HashState]).1 [.HashState]).2
      = none ∧
    ((Reset Env.noFaults (Reset Env.noFaults sampleStore [.HashState]).1 [.HashState]).1
        = (Reset Env.noFaults sampleStore [.HashState]).1 ∧
     (∀ t ∈ Tables.index .HashState,
        (Reset Env.noFaults (Reset Env.noFaults sampleStore [.HashState]).1
          [.HashState]).1.tables t = []) ∧
     (Reset Env.noFaults (Reset Env.noFaults sampleStore [.HashState]).1
        [.HashState]).1.progress .HashState = 0 ∧
     (Reset Env.noFaults (Reset Env.noFaults sampleStore [.HashState]).1
        [.HashState]).1.pruneProgress .HashState = 0) :=
  ⟨rfl, rfl, Reset_idempotent Env.noFaults Env.noFaults sampleStore .HashState rfl⟩

/-- C4: for every pair of distinct stages `A` and `B`, the table lists
`Tables[A]` and `Tables[B]` have no table in common. -/
theorem Tables_disjoint (A B : SyncStage) (h : A ≠ B) :
    List.Disjoint (Tables.index A) (Tables.index B) := by
  exact fun t h1 h2 => Tables.index_disjoint A B h t h1 h2

/-- C4 at `HashState` and `IntermediateHashes`, both keys of the catalog with
non-empty table lists. -/
theorem Tables_disjoint_witness :
    (SyncStage.HashState ∈ Tables.map Prod.fst ∧
      SyncStage.IntermediateHashes ∈ Tables.map Prod.fst ∧
      Tables.index .HashState = [.HashedAccounts, .HashedStorage, .ContractCode] ∧
      Tables.index .IntermediateHashes = [.TrieOfAccounts, .TrieOfStorage]) ∧
    List.Disjoint (Tables.index .HashState) (Tables.index .IntermediateHashes) :=
  ⟨by decide, Tables_disjoint .HashState .IntermediateHashes (by decide)⟩

/-- C5: `Reset(L)` leaves unchanged every table that is in no `Tables[s]` for
`s` in `L`, in particular every canonical table and every table owned by a
stage outside `L`, leaves unchanged the Progress and PruneProgress of every
stage not in `L`, and leaves the feature flags unchanged. -/
theorem Reset_frame (env : Env) (db : Store) (l : List SyncStage) :
    (∀ t, (∀ s ∈ l, t ∉ Tables.index s) → (Reset env db l).1.tables t = db.tables t) ∧
    (∀ t ∈ canonicalTables, (Reset env db l).1.tables t = db.tables t) ∧
    (∀ s, s ∉ l → ∀ t ∈ Tables.index s, (Reset env db l).1.tables t = db.tables t) ∧
    (∀ s, s ∉ l → (Reset env db l).1.progress s = db.progress s ∧
      (Reset env db l).1.pruneProgress s = db.pruneProgress s) ∧
    (Reset env db l).1.config = db.config := by
  have key : (Reset env db l).1 = db ∨
      (Reset env db l).1 = (db.clearTables (ownedTables l)).zeroProgress l := by
    cases hr : Reset env db l with
    | mk db1 e =>
      cases e with
      | some e =>
        have : (Reset env db l).2 ≠ none := by rw [hr]; simp
        have h3 := Reset_some this
        rw [hr] at h3
        exact Or.inl h3
      | none => exact Or.inr (Reset_none hr)
  have frame : ∀ t, (∀ s ∈ l, t ∉ Tables.index s) →
      (Reset env db l).1.tables t = db.tables t := by
    intro t ht
    rcases key with hk | hk <;> rw [hk]
    have : t ∉ ownedTables l := by
      rw [mem_ownedTables]
      rintro ⟨s, hs, hts⟩
      exact ht s hs hts
    simp [Store.zeroProgress, Store.clearTables, this]
  refine ⟨frame, ?_, ?_, ?_, ?_⟩
  · intro t ht
    exact frame t (fun s _ => canonical_not_owned t ht s)
  · intro s hs t ht
    apply frame
    intro s1 hs1
    have hne : s ≠ s1 := fun h => hs (h ▸ hs1)
    exact Tables.index_disjoint s s1 hne t ht
  · intro s hs
    rcases key with hk | hk <;> rw [hk]
    · exact ⟨rfl, rfl⟩
    · simp [Store.zeroProgress, Store.clearTables, hs]
  · rcases key with hk | hk <;> rw [hk]
    simp [Store.zeroProgress, Store.clearTables]

/-- C5 at a successful `Reset(HashState)` on the sample store: the canonical
`Headers` table, the `TrieOfAccounts` table of `IntermediateHashes` and the
watermark of `IntermediateHashes` are as before, while `HashedAccounts` was
emptied. -/
theorem Reset_frame_witness :
    (Reset Env.noFaults sampleStore [.HashState]).2 = none ∧
    (Reset Env.noFaults sampleStore [.HashState]).1.tables .HashedAccounts = [] ∧
    (Reset Env.noFaults sampleStore [.HashState]).1.tables .Headers = [([0], [50])] ∧
    (Reset Env.noFaults sampleStore [.HashState]).1.tables .TrieOfAccounts = [([2], [20])] ∧
    (Reset Env.noFaults sampleStore [.HashState]).1.progress .IntermediateHashes = 12345 :=
  ⟨rfl, rfl,
    (Reset_frame Env.noFaults sampleStore [.HashState]).2.1 .Headers (by decide),
    (Reset_frame Env.noFaults sampleStore [.HashState]).2.2.1 .IntermediateHashes
      (by decide) .TrieOfAccounts (by decide),
    ((Reset_frame Env.noFaults sampleStore [.HashState]).2.2.2.1 .IntermediateHashes
      (by decide)).1⟩

/-! ## ResetExec -/

/-- The loop of lines 159-163 is `backup.ClearTables` written out. -/
theorem ResetExec.clearLoop_eq (env : Env) :
    ∀ (ts : List kv.Table) (tx : Tx),
      ResetExec.clearLoop env tx ts = backup.ClearTables env tx ts := by
  intro ts
  induction ts with
  | nil => intro tx; rfl
  | cons t ts ih =>
    intro tx
    unfold ResetExec.clearLoop backup.ClearTables
    split <;> simp_all

/-- When no `ClearBucket` can fail, `backup.ClearTables` returns nil. -/
theorem backup.ClearTables_ok {env : Env}
    (hc : ∀ n t, env.fails n (Op.ClearBucket t) = false) :
    ∀ (ts : List kv.Table) (tx : Tx), (backup.ClearTables env tx ts).2 = none := by
  intro ts
  induction ts with
  | nil => intro tx; rfl
  | cons t ts ih =>
    intro tx
    unfold backup.ClearTables
    split
    · rename_i tx2 e h2
      obtain ⟨_, _, hf⟩ := Tx.exec_some h2
      rw [hc] at hf
      exact absurd hf (by simp)
    · rename_i tx2 h2
      exact ih tx2

/-- The store after the clearing steps of `ResetExec`: the three watermarks
zeroed, the state group and the given history list emptied. -/
theorem ResetExec.body_cleared {env : Env}
    (hc : ∀ n t, env.fails n (Op.ClearBucket t) = false)
    (historyV3 : Bool) (hist : List kv.Table) (chain tmpDir : String) (tx tx1 : Tx)
    (h : ResetExec.body env historyV3 hist chain tmpDir tx = (tx1, none)) :
    ∃ tx4 : Tx,
      tx4.store = ((tx.store.zeroProgress
          [.Execution, .HashState, .IntermediateHashes]).clearTables stateBuckets).clearTables
          hist ∧
      tx4.faults = tx.faults ∧
      ((historyV3 = true ∧ tx1 = tx4) ∨
       (historyV3 = false ∧
        env.WriteGenesisState (env.GenesisBlockByChainName chain) tx4 tmpDir = (tx1, none))) := by
  unfold ResetExec.body at h
  split at h
  · simp at h
  · rename_i tx2 h2
    obtain ⟨hs2, hf2⟩ := clearStageProgress_none _ _ _ h2
    split at h
    · rename_i tx3 e h3
      have := backup.ClearTables_ok hc stateBuckets tx2
      rw [h3] at this
      simp at this
    · rename_i tx3 h3
      obtain ⟨hs3, hf3⟩ := backup.ClearTables_none _ _ _ h3
      rw [ResetExec.clearLoop_eq] at h
      split at h
      · simp at h
      · rename_i tx5 h5
        obtain ⟨hs5, hf5⟩ := backup.ClearTables_none _ _ _ h5
        split at h
        · rename_i tx6 e h6
          have := backup.ClearTables_ok hc hist tx5
          rw [h6] at this
          simp at this
        · rename_i tx6 h6
          obtain ⟨hs6, hf6⟩ := backup.ClearTables_none _ _ _ h6
          refine ⟨tx6, ?_, by rw [hf6, hf5, hf3, hf2], ?_⟩
          · rw [hs6, hs5, hs3, hs2]
            apply Store.ext
            · funext u
              simp only [Store.zeroProgress, Store.clearTables]
              split_ifs <;> rfl
            · rfl
            · rfl
            · rfl
          · cases historyV3 with
            | true =>
              simp only [Bool.not_true, Bool.false_eq_true, if_false, Prod.mk.injEq,
                and_true] at h
              exact Or.inl ⟨rfl, h.symm⟩
            | false =>
              simp only [Bool.not_false, if_true] at h
              split at h
              · simp at h
              · rename_i tx7 h7
                simp only [Prod.mk.injEq, and_true] at h
                subst h
                exact Or.inr ⟨rfl, h7⟩


/-- C6: evaluation of `ResetExec` on a Legacy store when clearing `PlainState`
fails inside `backup.ClearTables(stateBuckets...)` (line 156).  Whatever the
genesis resolver and writer are, `ResetExec` returns nil, the transaction
commits, and the state tables keep their earlier records: the writer is not
reached.  With a writer that seeds one account the fault-free call leaves
exactly that account in `PlainState`, the faulty one leaves the old record. -/
theorem ResetExec_legacy_state_clear_failure_swallowed :
    (∀ (G : Type) (gb : String → G) (w : G → Tx → String → Tx × Option Err),
      (ResetExec { fails := failPlainState, Genesis := G, GenesisBlockByChainName := gb,
                   WriteGenesisState := w } Globals.init sampleStore "mainnet" "tmp").2.2 = none ∧
      (ResetExec { fails := failPlainState, Genesis := G, GenesisBlockByChainName := gb,
                   WriteGenesisState := w }
          Globals.init sampleStore "mainnet" "tmp").2.1.tables .PlainState = [([3], [30])] ∧
      (ResetExec { fails := failPlainState, Genesis := G, GenesisBlockByChainName := gb,
                   WriteGenesisState := w }
          Globals.init sampleStore "mainnet" "tmp").2.1.tables .HashedAccounts
        = [([1], [10])]) ∧
    (ResetExec (Env.seeding (fun _ _ => false) [([9], [90])])
        Globals.init sampleStore "mainnet" "tmp").2.2 = none ∧
    (ResetExec (Env.seeding (fun _ _ => false) [([9], [90])])
        Globals.init sampleStore "mainnet" "tmp").2.1.tables .PlainState = [([9], [90])] ∧
    (ResetExec (Env.seeding failPlainState [([9], [90])])
        Globals.init sampleStore "mainnet" "tmp").2.2 = none ∧
    (ResetExec (Env.seeding failPlainState [([9], [90])])
        Globals.init sampleStore "mainnet" "tmp").2.1.tables .PlainState = [([3], [30])] :=
  ⟨fun _ _ _ => ⟨rfl, rfl, rfl⟩, rfl, rfl, rfl, rfl⟩

/-- C7: evaluation of `ResetExec` on a Versioned store when clearing
`PlainState` fails inside `backup.ClearTables(stateBuckets...)` (line 156):
`ResetExec` returns nil and commits, yet `PlainState` and `HashedAccounts`,
both in `stateBuckets`, are not empty. -/
theorem ResetExec_versioned_state_clear_failure_swallowed :
    kvcfg.FromDB .HistoryV3 sampleStoreV3 = true ∧
    kv.Table.PlainState ∈ stateBuckets ∧ kv.Table.HashedAccounts ∈ stateBuckets ∧
    (ResetExec (Env.ofFaults failPlainState) Globals.init sampleStoreV3 "mainnet" "tmp").2.2
      = none ∧
    (ResetExec (Env.ofFaults failPlainState) Globals.init sampleStoreV3
      "mainnet" "tmp").2.1.tables .PlainState = [([3], [30])] ∧
    (ResetExec (Env.ofFaults failPlainState) Globals.init sampleStoreV3
      "mainnet" "tmp").2.1.tables .HashedAccounts = [([1], [10])] :=
  ⟨rfl, by decide, by decide, rfl, rfl, rfl⟩

/-- C8: evaluation of `ResetExec` on a Versioned store when clearing
`AccountChangeSet` fails inside `backup.ClearTables(stateHistoryBuckets...)`
(line 165): `ResetExec` returns nil and commits with the three watermarks at
zero, yet the legacy history table `AccountChangeSet` and the versioned
history table `AccountHistoryKeys` are not empty. -/
theorem ResetExec_history_clear_failure_swallowed :
    kv.Table.AccountChangeSet ∈ stateHistoryBuckets ∧
    kv.Table.AccountHistoryKeys ∈ stateHistoryV3Buckets ∧
    (ResetExec (Env.ofFaults failAccountChangeSet) Globals.init sampleStoreV3
      "mainnet" "tmp").2.2 = none ∧
    (ResetExec (Env.ofFaults failAccountChangeSet) Globals.init sampleStoreV3
      "mainnet" "tmp").2.1.progress .Execution = 0 ∧
    (ResetExec (Env.ofFaults failAccountChangeSet) Globals.init sampleStoreV3
      "mainnet" "tmp").2.1.tables .AccountChangeSet = [([5], [60])] ∧
    (ResetExec (Env.ofFaults failAccountChangeSet) Globals.init sampleStoreV3
      "mainnet" "tmp").2.1.tables .AccountHistoryKeys = [([6], [70])] :=
  ⟨by decide, by decide, rfl, rfl, rfl, rfl⟩

/-- C9: evaluation of `ResetExec` when the clearing of the state tables fails:
the callback records the failed operation, `ResetExec` nevertheless returns
nil, the transaction commits, and the store differs from the store before the
call (the `Execution` watermark went from 12345 to 0 while `PlainState` kept
its record). -/
theorem ResetExec_failure_not_reported :
    (ResetExec.body (Env.ofFaults failPlainState) false Globals.init.stateHistoryBuckets
      "mainnet" "tmp" (kv.beginRw sampleStore)).1.faults = [Op.ClearBucket .PlainState] ∧
    (ResetExec (Env.ofFaults failPlainState) Globals.init sampleStore "mainnet" "tmp").2.2
      = none ∧
    sampleStore.progress .Execution = 12345 ∧
    (ResetExec (Env.ofFaults failPlainState) Globals.init sampleStore
      "mainnet" "tmp").2.1.progress .Execution = 0 ∧
    (ResetExec (Env.ofFaults failPlainState) Globals.init sampleStore "mainnet" "tmp").2.1
      ≠ sampleStore :=
  ⟨rfl, rfl, rfl, rfl, fun h => absurd (congrArg (fun s => s.progress .Execution) h)
    (by decide)⟩

/-- C10: the package variable `stateHistoryBuckets` grows with every
`ResetExec` call that reads the flag on.  After one such call from program
start, a call with the flag off clears 43 history tables instead of the five
legacy ones (it empties `AccountHistoryKeys` of a Legacy store, which a first
call leaves alone), and a second call with the flag on clears a list of 81
entries in which the V3 and V4 tables are repeated. -/
theorem ResetExec_history_list_accumulates :
    (∀ (env : Env) (g : Globals) (db : Store) (chain tmpDir : String),
      (ResetExec env g db chain tmpDir).1.stateHistoryBuckets
        = if kvcfg.FromDB .HistoryV3 db then
            (g.stateHistoryBuckets ++ stateHistoryV3Buckets) ++ stateHistoryV4Buckets
          else g.stateHistoryBuckets) ∧
    (ResetExec.appendHistory
        (ResetExec Env.noFaults Globals.init sampleStoreV3 "mainnet" "tmp").1
        (kvcfg.FromDB .HistoryV3 sampleStore)).stateHistoryBuckets
      = (stateHistoryBuckets ++ stateHistoryV3Buckets) ++ stateHistoryV4Buckets ∧
    (ResetExec Env.noFaults Globals.init sampleStore "mainnet" "tmp").2.1.tables
      .AccountHistoryKeys = [([6], [70])] ∧
    (ResetExec Env.noFaults
      (ResetExec Env.noFaults Globals.init sampleStoreV3 "mainnet" "tmp").1
      sampleStore "mainnet" "tmp").2.1.tables .AccountHistoryKeys = [] ∧
    (ResetExec Env.noFaults
      (ResetExec Env.noFaults Globals.init sampleStoreV3 "mainnet" "tmp").1
      sampleStoreV3 "mainnet" "tmp").1.stateHistoryBuckets
      = ((((stateHistoryBuckets ++ stateHistoryV3Buckets) ++ stateHistoryV4Buckets)
          ++ stateHistoryV3Buckets) ++ stateHistoryV4Buckets) ∧
    (ResetExec Env.noFaults
      (ResetExec Env.noFaults Globals.init sampleStoreV3 "mainnet" "tmp").1
      sampleStoreV3 "mainnet" "tmp").1.stateHistoryBuckets.length = 81 := by
  refine ⟨?_, rfl, rfl, rfl, rfl, rfl⟩
  intro env g db chain tmpDir
  cases h : kvcfg.FromDB .HistoryV3 db <;> simp [ResetExec, ResetExec.appendHistory, h]

/-! ## Lemmas on cursors, deletions and the block helpers -/

theorem Store.deleteKeys_nil (s : Store) (t : kv.Table) : s.deleteKeys t [] = s := by
  apply Store.ext
  · funext u
    by_cases h : u = t
    · subst h
      simp [Store.deleteKeys]
    · simp [Store.deleteKeys, h]
  · rfl
  · rfl
  · rfl

theorem Store.delete_deleteKeys (s : Store) (t : kv.Table) (k : Bytes) (ks : List Bytes) :
    (s.delete t k).deleteKeys t ks = s.deleteKeys t (k :: ks) := by
  apply Store.ext
  · funext u
    by_cases h : u = t
    · subst h
      simp only [Store.deleteKeys, Store.delete, if_true, List.filter_filter]
      apply List.filter_congr
      intro r _
      by_cases h1 : r.1 = k <;> by_cases h2 : r.1 ∈ ks <;> simp [h1, h2]
    · simp [Store.deleteKeys, Store.delete, h]
  · rfl
  · rfl
  · rfl

theorem Tx.ForEach.loop_delete_none {env : Env} {t : kv.Table} :
    ∀ (rs : List (Bytes × Bytes)) (tx tx1 : Tx),
      Tx.ForEach.loop (fun k _ tx2 => Tx.Delete env t k tx2) tx rs = (tx1, none) →
      tx1.store = tx.store.deleteKeys t (rs.map Prod.fst) ∧ tx1.faults = tx.faults := by
  intro rs
  induction rs with
  | nil =>
    intro tx tx1 h
    simp only [Tx.ForEach.loop, Prod.mk.injEq, and_true] at h
    subst h
    simp [Store.deleteKeys_nil]
  | cons r rs ih =>
    intro tx tx1 h
    unfold Tx.ForEach.loop at h
    split at h
    · simp at h
    · rename_i tx2 h2
      obtain ⟨hs, hf, _⟩ := Tx.exec_none h2
      obtain ⟨hs1, hf1⟩ := ih tx2 tx1 h
      rw [hs1, hf1, hs, hf, Store.delete_deleteKeys]
      simp

theorem Store.mem_seek (s : Store) (t : kv.Table) (fromPrefix : Bytes) (r : Bytes × Bytes) :
    r ∈ s.seek t fromPrefix ↔ r ∈ s.tables t ∧ Bytes.le fromPrefix r.1 = true := by
  unfold Store.seek
  rw [(List.perm_insertionSort _ _).mem_iff]
  simp

theorem Store.deleteKeys_seek (s : Store) (t : kv.Table) (fromPrefix : Bytes) :
    s.deleteKeys t ((s.seek t fromPrefix).map Prod.fst) = s.truncateFrom t fromPrefix := by
  apply Store.ext
  · funext u
    by_cases h : u = t
    · subst h
      simp only [Store.deleteKeys, Store.truncateFrom, if_true]
      apply List.filter_congr
      intro r hr
      by_cases hle : Bytes.le fromPrefix r.1 = true
      · have : r.1 ∈ (s.seek u fromPrefix).map Prod.fst :=
          List.mem_map.2 ⟨r, (Store.mem_seek s u fromPrefix r).2 ⟨hr, hle⟩, rfl⟩
        simp [this, hle]
      · have : r.1 ∉ (s.seek u fromPrefix).map Prod.fst := by
          intro hm
          obtain ⟨r1, hr1, he⟩ := List.mem_map.1 hm
          have := ((Store.mem_seek s u fromPrefix r1).1 hr1).2
          rw [he] at this
          exact hle this
        simp [this, hle]
    · simp [Store.deleteKeys, Store.truncateFrom, h]
  · rfl
  · rfl
  · rfl

/-- A `ForEach` whose walker deletes the record it is called on, when it
returns nil, has removed exactly the records at or after `fromPrefix`. -/
theorem Tx.ForEach_delete_none {env : Env} {t : kv.Table} {fromPrefix : Bytes} {tx tx1 : Tx}
    (h : Tx.ForEach env t fromPrefix (fun k _ tx2 => Tx.Delete env t k tx2) tx = (tx1, none)) :
    tx1.store = tx.store.truncateFrom t fromPrefix ∧ tx1.faults = tx.faults := by
  unfold Tx.ForEach at h
  split at h
  · simp at h
  · obtain ⟨hs, hf⟩ := Tx.ForEach.loop_delete_none _ _ _ h
    rw [hs, hf]
    simp [Store.deleteKeys_seek]

theorem rawdb.TruncateCanonicalHash_none {env : Env} {tx tx1 : Tx} {n : Nat}
    (h : rawdb.TruncateCanonicalHash env tx n = (tx1, none)) :
    tx1.store = tx.store.truncateFrom .HeaderCanonical (hexutility.EncodeTs n) ∧
    tx1.faults = tx.faults := by
  unfold rawdb.TruncateCanonicalHash at h
  split at h
  · simp at h
  · rename_i tx2 h2
    simp only [Prod.mk.injEq, and_true] at h
    subst h
    exact Tx.ForEach_delete_none h2

theorem rawdb.TruncateTd_none {env : Env} {tx tx1 : Tx} {n : Nat}
    (h : rawdb.TruncateTd env tx n = (tx1, none)) :
    tx1.store = tx.store.truncateFrom .HeaderTD (hexutility.EncodeTs n) ∧
    tx1.faults = tx.faults := by
  unfold rawdb.TruncateTd at h
  split at h
  · simp at h
  · rename_i tx2 h2
    simp only [Prod.mk.injEq, and_true] at h
    subst h
    exact Tx.ForEach_delete_none h2

theorem Tx.GetOne_none {env : Env} {t : kv.Table} {k : Bytes} {tx tx1 : Tx} {v : Bytes}
    (h : Tx.GetOne env t k tx = (tx1, v, none)) :
    tx1.store = tx.store ∧ tx1.faults = tx.faults ∧ v = tx.store.getOne t k := by
  unfold Tx.GetOne at h
  split at h
  · simp at h
  · simp only [Prod.mk.injEq, and_true] at h
    obtain ⟨h1, h2⟩ := h
    subst h1
    exact ⟨rfl, rfl, h2.symm⟩

theorem rawdb.ReadCanonicalHash_none {env : Env} {tx tx1 : Tx} {n : Nat} {hash : Bytes}
    (h : rawdb.ReadCanonicalHash env tx n = (tx1, hash, none)) :
    tx1.store = tx.store ∧ tx1.faults = tx.faults ∧ hash = tx.store.canonicalHash n := by
  unfold rawdb.ReadCanonicalHash at h
  split at h
  · simp at h
  · rename_i tx2 data h2
    simp only [Prod.mk.injEq, and_true] at h
    obtain ⟨h3, h4⟩ := h
    subst h3
    obtain ⟨hs, hf, hv⟩ := Tx.GetOne_none h2
    refine ⟨hs, hf, ?_⟩
    rw [← h4, hv]
    rfl

theorem rawdb.WriteHeadHeaderHash_none {env : Env} {tx tx1 : Tx} {hash : Bytes}
    (h : rawdb.WriteHeadHeaderHash env tx hash = (tx1, none)) :
    tx1.store = tx.store.put .HeadHeaderKey kv.HeadHeaderKeyBytes hash ∧
    tx1.faults = tx.faults := by
  unfold rawdb.WriteHeadHeaderHash at h
  split at h
  · simp at h
  · rename_i tx2 h2
    simp only [Prod.mk.injEq, and_true] at h
    subst h
    obtain ⟨hs, hf, _⟩ := Tx.exec_none h2
    exact ⟨hs, hf⟩

theorem kvcfg.Enabled_none {env : Env} {k : kvcfg.ConfigKey} {tx tx1 : Tx} {b : Bool}
    (h : kvcfg.Enabled env k tx = (tx1, b, none)) :
    tx1.store = tx.store ∧ tx1.faults = tx.faults ∧ b = tx.store.config k := by
  unfold kvcfg.Enabled at h
  split at h
  · simp at h
  · simp only [Prod.mk.injEq, and_true] at h
    obtain ⟨h1, h2⟩ := h
    subst h1
    exact ⟨rfl, rfl, h2.symm⟩

theorem rawdb.ResetSequence_none {env : Env} {tx tx1 : Tx} {bucket : kv.Table} {v : Nat}
    (h : rawdb.ResetSequence env tx bucket v = (tx1, none)) :
    tx1.store = tx.store.put .Sequence bucket.sequenceKey (hexutility.EncodeTs v) ∧
    tx1.faults = tx.faults := by
  unfold rawdb.ResetSequence Tx.Put at h
  obtain ⟨hs, hf, _⟩ := Tx.exec_none h
  exact ⟨hs, hf⟩

/-- Lines 85-110 of `ResetBlocks`, when they end without error or panic. -/
theorem ResetBlocks.cleanup_none {env : Env} {deps : ResetBlocks.Deps} {tx txf : Tx}
    {snapshots : Option snapshotsync.RoSnapshots}
    (h : ResetBlocks.cleanup env deps tx snapshots = (txf, .ret none)) :
    ∃ tx5 : Tx,
      tx5.store =
        (((tx.store.truncateFrom .BlockBody (hexutility.EncodeTs 2)).clearTables
            [.NonCanonicalTxs,
              ResetBlocks.ethtx (tx.store.truncateFrom .BlockBody (hexutility.EncodeTs 2)),
              .MaxTxNum]).put .Sequence
            (ResetBlocks.ethtx
              (tx.store.truncateFrom .BlockBody (hexutility.EncodeTs 2))).sequenceKey
            (hexutility.EncodeTs 0)).put
          .Sequence kv.Table.NonCanonicalTxs.sequenceKey (hexutility.EncodeTs 0) ∧
      tx5.faults = tx.faults ∧
      ResetBlocks.refill env deps tx5 snapshots = (txf, .ret none) := by
  unfold ResetBlocks.cleanup at h
  split at h
  · simp at h
  · rename_i tx1 h1
    obtain ⟨hs1, hf1⟩ := Tx.ForEach_delete_none h1
    split at h
    · simp at h
    · rename_i tx2 b h2
      obtain ⟨hs2, hf2, hb⟩ := kvcfg.Enabled_none h2
      simp only at h
      split at h
      · simp at h
      · rename_i tx3 h3
        obtain ⟨hs3, hf3⟩ := backup.ClearTables_none _ _ _ h3
        split at h
        · simp at h
        · rename_i tx4 h4
          obtain ⟨hs4, hf4⟩ := rawdb.ResetSequence_none h4
          split at h
          · simp at h
          · rename_i tx5 h5
            obtain ⟨hs5, hf5⟩ := rawdb.ResetSequence_none h5
            refine ⟨tx5, ?_, by rw [hf5, hf4, hf3, hf2, hf1], h⟩
            rw [hs5, hs4, hs3, hs2, hb, hs1]
            rfl

/-- Lines 54-110 of `ResetBlocks`, when the call ends without error or panic:
`rawdb.TruncateBlocks` returned nil, the store before the refill is
`ResetBlocks.post` of the store it left, and no failure was recorded. -/
theorem ResetBlocks_ret_none {env : Env} {deps : ResetBlocks.Deps} {tx txf : Tx}
    {snapshots : Option snapshotsync.RoSnapshots}
    (h : ResetBlocks env deps tx snapshots = (txf, .ret none)) :
    ∃ tx0 tx6 : Tx,
      deps.TruncateBlocks tx 1 = (tx0, none) ∧
      tx6.store = ResetBlocks.post tx0.store ∧
      tx6.faults = tx0.faults ∧
      ResetBlocks.refill env deps tx6 snapshots = (txf, .ret none) := by
  unfold ResetBlocks at h
  split at h
  · simp at h
  · rename_i tx0 h0
    split at h
    · simp at h
    · rename_i tx1 h1
      obtain ⟨hs1, hf1, _⟩ := Tx.exec_none h1
      split at h
      · simp at h
      · rename_i tx2 h2
        obtain ⟨hs2, hf2, _⟩ := Tx.exec_none h2
        split at h
        · simp at h
        · rename_i tx3 h3
          obtain ⟨hs3, hf3, _⟩ := Tx.exec_none h3
          unfold ResetBlocks.markers at h
          split at h
          · simp at h
          · rename_i tx4 h4
            obtain ⟨hs4, hf4⟩ := rawdb.TruncateCanonicalHash_none h4
            split at h
            · simp at h
            · rename_i tx5 h5
              obtain ⟨hs5, hf5⟩ := rawdb.TruncateTd_none h5
              split at h
              · simp at h
              · rename_i tx6 hash h6
                obtain ⟨hs6, hf6, hh⟩ := rawdb.ReadCanonicalHash_none h6
                split at h
                · simp at h
                · rename_i tx7 h7
                  obtain ⟨hs7, hf7⟩ := rawdb.WriteHeadHeaderHash_none h7
                  obtain ⟨tx8, hs8, hf8, h8⟩ := ResetBlocks.cleanup_none h
                  refine ⟨tx0, tx8, h0, ?_, ?_, h8⟩
                  · rw [hs8, hs7, hh, hs6, hs5, hs4, hs3, hs2, hs1]
                    rfl
                  · rw [hf8, hf7, hf6, hf5, hf4, hf3, hf2, hf1]

theorem ResetBlocks.refill_unusable {env : Env} {deps : ResetBlocks.Deps} {tx : Tx}
    {snapshots : Option snapshotsync.RoSnapshots}
    (hu : ResetBlocks.usable snapshots = false) :
    ResetBlocks.refill env deps tx snapshots = (tx, .ret none) := by
  cases snapshots with
  | none => rfl
  | some sn =>
    simp only [ResetBlocks.usable] at hu
    simp [ResetBlocks.refill, hu]

theorem common.BytesToHash_length (b : Bytes) : (common.BytesToHash b).length = 32 := by
  simp only [common.BytesToHash, List.length_append, List.length_replicate, List.length_drop]
  omega

theorem common.BytesToHash_of_length (x : Bytes) (h : x.length = 32) :
    common.BytesToHash x = x := by
  unfold common.BytesToHash
  rw [h]
  simp

theorem common.BytesToHash_idem (b : Bytes) :
    common.BytesToHash (common.BytesToHash b) = common.BytesToHash b := by
  exact common.BytesToHash_of_length _ (common.BytesToHash_length b)

theorem List.lookup_filter_key (p : Bytes → Bool) (k : Bytes) (hp : p k = true) :
    ∀ l : List (Bytes × Bytes), (l.filter (fun r => p r.1)).lookup k = l.lookup k := by
  intro l
  induction l with
  | nil => rfl
  | cons r l ih =>
    obtain ⟨a, b⟩ := r
    by_cases ha : p a = true
    · simp only [List.filter_cons, ha, if_true, List.lookup_cons]
      rw [ih]
    · have hne : (k == a) = false := by
        apply beq_false_of_ne
        intro hk
        rw [hk] at hp
        exact ha hp
      simp only [List.filter_cons, ha, List.lookup_cons, hne]
      simpa using ih

theorem hexutility.EncodeTs_one_not_le_zero :
    Bytes.le (hexutility.EncodeTs 1) (hexutility.EncodeTs 0) = false := by
  decide

theorem hexutility.EncodeTs_two_not_le_height_zero (h : Bytes) :
    Bytes.le (hexutility.EncodeTs 2) (hexutility.EncodeTs 0 ++ h) = false := by
  simp [hexutility.EncodeTs, Bytes.le]

theorem ResetBlocks.post_progress (s : Store) :
    (ResetBlocks.post s).progress .Bodies = 1 ∧ (ResetBlocks.post s).progress .Headers = 1 ∧
    (ResetBlocks.post s).progress .Snapshots = 0 := by
  simp [ResetBlocks.post, Store.put, Store.clearTables, Store.truncateFrom, Store.setProgress]

theorem ResetBlocks.post_BlockBody (s : Store) :
    (ResetBlocks.post s).tables .BlockBody =
      (s.tables .BlockBody).filter (fun r => !Bytes.le (hexutility.EncodeTs 2) r.1) := by
  unfold ResetBlocks.post ResetBlocks.ethtx
  simp only [Store.put, Store.clearTables, Store.truncateFrom, Store.setProgress]
  split_ifs <;> simp_all

theorem ResetBlocks.post_head (s : Store) :
    rawdb.ReadHeadHeaderHash (ResetBlocks.post s) = (ResetBlocks.post s).canonicalHash 0 ∧
    rawdb.ReadHeadHeaderHash (ResetBlocks.post s) = s.canonicalHash 0 := by
  have hc : (ResetBlocks.post s).tables .HeaderCanonical =
      (s.tables .HeaderCanonical).filter
        (fun r => !Bytes.le (hexutility.EncodeTs 1) r.1) := by
    unfold ResetBlocks.post ResetBlocks.ethtx
    simp only [Store.put, Store.clearTables, Store.truncateFrom, Store.setProgress]
    split_ifs <;> simp_all
  have hk : (ResetBlocks.post s).canonicalHash 0 = s.canonicalHash 0 := by
    unfold Store.canonicalHash Store.getOne
    rw [hc, List.lookup_filter_key (fun k => !Bytes.le (hexutility.EncodeTs 1) k)]
    simp [hexutility.EncodeTs_one_not_le_zero]
  have hh : rawdb.ReadHeadHeaderHash (ResetBlocks.post s) = s.canonicalHash 0 := by
    have ht : (ResetBlocks.post s).getOne .HeadHeaderKey kv.HeadHeaderKeyBytes =
        common.BytesToHash
          ((((s.tables .HeaderCanonical).filter
            (fun r => !Bytes.le (hexutility.EncodeTs 1) r.1)).lookup
              (hexutility.EncodeTs 0)).getD []) := by
      unfold ResetBlocks.post ResetBlocks.ethtx Store.getOne Store.canonicalHash Store.getOne
      simp only [Store.put, Store.clearTables, Store.truncateFrom, Store.setProgress]
      split_ifs <;> simp_all
    unfold rawdb.ReadHeadHeaderHash
    rw [ht, common.BytesToHash_idem,
      List.lookup_filter_key (fun k => !Bytes.le (hexutility.EncodeTs 1) k)]
    · rfl
    · simp [hexutility.EncodeTs_one_not_le_zero]
  exact ⟨hh.trans hk.symm, hh⟩

/-! ## ResetBlocks -/

/-- C11: with no usable snapshot archive (nil, disabled, or zero blocks
available), after a `ResetBlocks` that returns nil the `Bodies` progress is 1,
the `Headers` progress is 1, the `Snapshots` progress is 0, and the head-header
hash equals the canonical hash stored at height 0 (in the store after the call,
which is the one `rawdb.TruncateBlocks` left at height 0). -/
theorem ResetBlocks_without_snapshots (env : Env) (deps : ResetBlocks.Deps) (tx : Tx)
    (snapshots : Option snapshotsync.RoSnapshots)
    (hu : ResetBlocks.usable snapshots = false)
    (h : (ResetBlocks env deps tx snapshots).2 = .ret none) :
    (ResetBlocks env deps tx snapshots).1.store.progress .Bodies = 1 ∧
    (ResetBlocks env deps tx snapshots).1.store.progress .Headers = 1 ∧
    (ResetBlocks env deps tx snapshots).1.store.progress .Snapshots = 0 ∧
    rawdb.ReadHeadHeaderHash (ResetBlocks env deps tx snapshots).1.store
      = (ResetBlocks env deps tx snapshots).1.store.canonicalHash 0 ∧
    rawdb.ReadHeadHeaderHash (ResetBlocks env deps tx snapshots).1.store
      = (deps.TruncateBlocks tx 1).1.store.canonicalHash 0 := by
  have h1 : ResetBlocks env deps tx snapshots
      = ((ResetBlocks env deps tx snapshots).1, .ret none) := by rw [← h]
  obtain ⟨tx0, tx6, h0, hs, _, hr⟩ := ResetBlocks_ret_none h1
  rw [ResetBlocks.refill_unusable hu] at hr
  simp only [Prod.mk.injEq, and_true] at hr
  rw [← hr, hs, h0]
  obtain ⟨hb, hh, hsn⟩ := ResetBlocks.post_progress tx0.store
  obtain ⟨hd1, hd2⟩ := ResetBlocks.post_head tx0.store
  exact ⟨hb, hh, hsn, hd1, hd2⟩

set_option maxRecDepth 100000 in
/-- C11 on a store populated with blocks 0..100, watermarks at 100 and the
head-header pointer at block 100, with no snapshot archive. -/
theorem ResetBlocks_without_snapshots_witness :
    (blocksStore.progress .Bodies = 100 ∧ blocksStore.progress .Headers = 100 ∧
      blocksStore.progress .Snapshots = 100 ∧
      (blocksStore.tables .Headers).length = 101) ∧
    (ResetBlocks Env.noFaults (sampleDeps Env.noFaults) (kv.beginRw blocksStore) none).2
      = .ret none ∧
    ((ResetBlocks Env.noFaults (sampleDeps Env.noFaults)
        (kv.beginRw blocksStore) none).1.store.progress .Bodies = 1 ∧
     (ResetBlocks Env.noFaults (sampleDeps Env.noFaults)
        (kv.beginRw blocksStore) none).1.store.progress .Headers = 1 ∧
     (ResetBlocks Env.noFaults (sampleDeps Env.noFaults)
        (kv.beginRw blocksStore) none).1.store.progress .Snapshots = 0 ∧
     rawdb.ReadHeadHeaderHash (ResetBlocks Env.noFaults (sampleDeps Env.noFaults)
        (kv.beginRw blocksStore) none).1.store
       = (ResetBlocks Env.noFaults (sampleDeps Env.noFaults)
          (kv.beginRw blocksStore) none).1.store.canonicalHash 0 ∧
     rawdb.ReadHeadHeaderHash (ResetBlocks Env.noFaults (sampleDeps Env.noFaults)
        (kv.beginRw blocksStore) none).1.store
       = ((sampleDeps Env.noFaults).TruncateBlocks
          (kv.beginRw blocksStore) 1).1.store.canonicalHash 0) :=
  ⟨⟨rfl, rfl, rfl, rfl⟩, rfl,
    ResetBlocks_without_snapshots Env.noFaults (sampleDeps Env.noFaults)
      (kv.beginRw blocksStore) none rfl rfl⟩

/-- C12: with no usable snapshot archive, after a `ResetBlocks` that returns
nil the `BlockBody` table holds no key at or after the 8-byte big-endian
encoding of height 2; it is exactly the table that `rawdb.TruncateBlocks` left
with those keys removed, so the cleanup deletes no key below the bound, and
every record of height 0 is kept. -/
theorem ResetBlocks_body_cleanup (env : Env) (deps : ResetBlocks.Deps) (tx : Tx)
    (snapshots : Option snapshotsync.RoSnapshots)
    (hu : ResetBlocks.usable snapshots = false)
    (h : (ResetBlocks env deps tx snapshots).2 = .ret none) :
    (∀ r ∈ (ResetBlocks env deps tx snapshots).1.store.tables .BlockBody,
      Bytes.le (hexutility.EncodeTs 2) r.1 = false) ∧
    (ResetBlocks env deps tx snapshots).1.store.tables .BlockBody
      = ((deps.TruncateBlocks tx 1).1.store.tables .BlockBody).filter
          (fun r => !Bytes.le (hexutility.EncodeTs 2) r.1) ∧
    (∀ (hash v : Bytes),
      (hexutility.EncodeTs 0 ++ hash, v) ∈ (deps.TruncateBlocks tx 1).1.store.tables .BlockBody →
      (hexutility.EncodeTs 0 ++ hash, v)
        ∈ (ResetBlocks env deps tx snapshots).1.store.tables .BlockBody) := by
  have h1 : ResetBlocks env deps tx snapshots
      = ((ResetBlocks env deps tx snapshots).1, .ret none) := by rw [← h]
  obtain ⟨tx0, tx6, h0, hs, _, hr⟩ := ResetBlocks_ret_none h1
  rw [ResetBlocks.refill_unusable hu] at hr
  simp only [Prod.mk.injEq, and_true] at hr
  rw [← hr, hs, h0, ResetBlocks.post_BlockBody]
  refine ⟨?_, rfl, ?_⟩
  · intro r hr1
    have := (List.mem_filter.1 hr1).2
    simpa using this
  · intro hash v hm
    apply List.mem_filter.2
    refine ⟨hm, ?_⟩
    simp [hexutility.EncodeTs_two_not_le_height_zero]

/-- C12 on an inconsistent store with orphaned bodies at heights 1, 3 and
150: the orphans at 3 and 150 are deleted, the bodies at heights 0 and 1 stay. -/
theorem ResetBlocks_body_cleanup_witness :
    (orphanStore.tables .BlockBody).length = 4 ∧
    (ResetBlocks Env.noFaults (sampleDeps Env.noFaults) (kv.beginRw orphanStore) none).2
      = .ret none ∧
    (ResetBlocks Env.noFaults (sampleDeps Env.noFaults)
        (kv.beginRw orphanStore) none).1.store.tables .BlockBody
      = [(hexutility.EncodeTs 0 ++ sampleHash 0, [0]),
         (hexutility.EncodeTs 1 ++ sampleHash 1, [1])] ∧
    ((∀ r ∈ (ResetBlocks Env.noFaults (sampleDeps Env.noFaults)
        (kv.beginRw orphanStore) none).1.store.tables .BlockBody,
      Bytes.le (hexutility.EncodeTs 2) r.1 = false) ∧
    (ResetBlocks Env.noFaults (sampleDeps Env.noFaults)
        (kv.beginRw orphanStore) none).1.store.tables .BlockBody
      = (((sampleDeps Env.noFaults).TruncateBlocks
            (kv.beginRw orphanStore) 1).1.store.tables .BlockBody).filter
          (fun r => !Bytes.le (hexutility.EncodeTs 2) r.1) ∧
    (∀ (hash v : Bytes),
      (hexutility.EncodeTs 0 ++ hash, v)
        ∈ ((sampleDeps Env.noFaults).TruncateBlocks
            (kv.beginRw orphanStore) 1).1.store.tables .BlockBody →
      (hexutility.EncodeTs 0 ++ hash, v)
        ∈ (ResetBlocks Env.noFaults (sampleDeps Env.noFaults)
            (kv.beginRw orphanStore) none).1.store.tables .BlockBody)) :=
  ⟨rfl, rfl, rfl,
    ResetBlocks_body_cleanup Env.noFaults (sampleDeps Env.noFaults)
      (kv.beginRw orphanStore) none rfl rfl⟩

/-- C15, as stated, fails: clearing `Senders` succeeds (the table is empty in
the transaction) but the save of the `Senders` progress fails; `ResetSenders`
returns that error and the `Senders` watermark is still 12345, not 0. -/
theorem ResetSenders_watermark_counterexample :
    (Env.ofFaults failSendersSave).fails 0 (Op.ClearBucket .Senders) = false ∧
    (ResetSenders (Env.ofFaults failSendersSave) (kv.beginRw sampleStore)).1.store.tables
      .Senders = [] ∧
    (ResetSenders (Env.ofFaults failSendersSave) (kv.beginRw sampleStore)).2
      = some (Err.storage (Op.SaveStageProgress .Senders 0)) ∧
    (ResetSenders (Env.ofFaults failSendersSave) (kv.beginRw sampleStore)).1.store.progress
      .Senders = 12345 :=
  ⟨rfl, rfl, rfl, rfl⟩

/-- C15, amended: if clearing the `Senders` table succeeds, `ResetSenders`
leaves the `Senders` table empty and changes no other table and no other
stage's watermark; when it then returns nil both `Senders` watermarks are 0,
and when it returns an error a watermark write has failed.  If clearing the
`Senders` table fails, `ResetSenders` returns nil and changes nothing in the
store. -/
theorem ResetSenders_spec (env : Env) (tx : Tx) :
    (env.fails tx.tick (Op.ClearBucket .Senders) = false →
      (ResetSenders env tx).1.store.tables .Senders = [] ∧
      (∀ t, t ≠ kv.Table.Senders →
        (ResetSenders env tx).1.store.tables t = tx.store.tables t) ∧
      (∀ s, s ≠ SyncStage.Senders →
        (ResetSenders env tx).1.store.progress s = tx.store.progress s ∧
        (ResetSenders env tx).1.store.pruneProgress s = tx.store.pruneProgress s) ∧
      ((ResetSenders env tx).2 = none →
        (ResetSenders env tx).1.store.progress .Senders = 0 ∧
        (ResetSenders env tx).1.store.pruneProgress .Senders = 0) ∧
      ((ResetSenders env tx).2 ≠ none →
        env.fails (tx.tick + 1) (Op.SaveStageProgress .Senders 0) = true ∨
        env.fails (tx.tick + 2) (Op.SaveStagePruneProgress .Senders 0) = true)) ∧
    (env.fails tx.tick (Op.ClearBucket .Senders) = true →
      (ResetSenders env tx).2 = none ∧ (ResetSenders env tx).1.store = tx.store) := by
  constructor
  · intro h1
    by_cases h2 : env.fails (tx.tick + 1) (Op.SaveStageProgress .Senders 0) = true
    · simp [ResetSenders, backup.ClearTables, clearStageProgress, Tx.ClearBucket,
        stages.SaveStageProgress, Tx.exec, h1, h2, Store.clear]
      intro t ht
      simp [ht]
    · by_cases h3 : env.fails (tx.tick + 2) (Op.SaveStagePruneProgress .Senders 0) = true
      · simp [ResetSenders, backup.ClearTables, clearStageProgress, Tx.ClearBucket,
          stages.SaveStageProgress, stages.SaveStagePruneProgress, Tx.exec, h1, h2, h3,
          Store.clear, Store.setProgress]
        refine ⟨?_, ?_⟩
        · intro t ht
          simp [ht]
        · intro s hs
          simp [hs]
      · simp [ResetSenders, backup.ClearTables, clearStageProgress, Tx.ClearBucket,
          stages.SaveStageProgress, stages.SaveStagePruneProgress, Tx.exec, h1, h2, h3,
          Store.clear, Store.setProgress, Store.setPruneProgress]
        refine ⟨?_, ?_⟩
        · intro t ht
          simp [ht]
        · intro s hs
          simp [hs]
  · intro h1
    simp [ResetSenders, backup.ClearTables, Tx.ClearBucket, Tx.exec, h1]

/-- C15, amended, on the sample store: with no failure the `Senders` table is
emptied and its watermark goes from 12345 to 0; when the clear fails the call
returns nil and the watermark stays at 12345. -/
theorem ResetSenders_spec_witness :
    sampleStore.tables .Senders ≠ [] ∧ sampleStore.progress .Senders = 12345 ∧
    (ResetSenders Env.noFaults (kv.beginRw sampleStore)).1.store.tables .Senders = [] ∧
    ((ResetSenders Env.noFaults (kv.beginRw sampleStore)).1.store.progress .Senders = 0 ∧
     (ResetSenders Env.noFaults (kv.beginRw sampleStore)).1.store.pruneProgress .Senders
       = 0) ∧
    ((ResetSenders (Env.ofFaults failSendersClear) (kv.beginRw sampleStore)).2 = none ∧
     (ResetSenders (Env.ofFaults failSendersClear) (kv.beginRw sampleStore)).1.store
       = sampleStore) :=
  ⟨by decide, rfl,
    ((ResetSenders_spec Env.noFaults (kv.beginRw sampleStore)).1 rfl).1,
    ((ResetSenders_spec Env.noFaults (kv.beginRw sampleStore)).1 rfl).2.2.2.1 rfl,
    (ResetSenders_spec (Env.ofFaults failSendersClear) (kv.beginRw sampleStore)).2 rfl⟩

/-- C16: a `ResetTxLookup` that returns nil leaves the `TxLookup` table empty
and the `TxLookup` Progress and PruneProgress at 0 and changes no other table
and no other stage's watermarks; when a step fails (the clear, the progress
save, the prune-progress save) the error of the first failing step is returned
and the later steps are not performed. -/
theorem ResetTxLookup_spec (env : Env) (tx : Tx) :
    ((ResetTxLookup env tx).2 = none →
      (ResetTxLookup env tx).1.store.tables .TxLookup = [] ∧
      (ResetTxLookup env tx).1.store.progress .TxLookup = 0 ∧
      (ResetTxLookup env tx).1.store.pruneProgress .TxLookup = 0 ∧
      (∀ t, t ≠ kv.Table.TxLookup →
        (ResetTxLookup env tx).1.store.tables t = tx.store.tables t) ∧
      (∀ s, s ≠ SyncStage.TxLookup →
        (ResetTxLookup env tx).1.store.progress s = tx.store.progress s ∧
        (ResetTxLookup env tx).1.store.pruneProgress s = tx.store.pruneProgress s)) ∧
    (env.fails tx.tick (Op.ClearBucket .TxLookup) = true →
      (ResetTxLookup env tx).2 = some (Err.storage (Op.ClearBucket .TxLookup)) ∧
      (ResetTxLookup env tx).1.store = tx.store ∧
      (ResetTxLookup env tx).1.tick = tx.tick + 1) ∧
    (env.fails tx.tick (Op.ClearBucket .TxLookup) = false →
     env.fails (tx.tick + 1) (Op.SaveStageProgress .TxLookup 0) = true →
      (ResetTxLookup env tx).2 = some (Err.storage (Op.SaveStageProgress .TxLookup 0)) ∧
      (ResetTxLookup env tx).1.store = tx.store.clear .TxLookup ∧
      (ResetTxLookup env tx).1.tick = tx.tick + 2) ∧
    (env.fails tx.tick (Op.ClearBucket .TxLookup) = false →
     env.fails (tx.tick + 1) (Op.SaveStageProgress .TxLookup 0) = false →
     env.fails (tx.tick + 2) (Op.SaveStagePruneProgress .TxLookup 0) = true →
      (ResetTxLookup env tx).2
        = some (Err.storage (Op.SaveStagePruneProgress .TxLookup 0)) ∧
      (ResetTxLookup env tx).1.store = (tx.store.clear .TxLookup).setProgress .TxLookup 0 ∧
      (ResetTxLookup env tx).1.tick = tx.tick + 3) := by
  refine ⟨?_, ?_, ?_, ?_⟩
  · intro h
    by_cases h1 : env.fails tx.tick (Op.ClearBucket .TxLookup) = true
    · simp [ResetTxLookup, Tx.ClearBucket, Tx.exec, h1] at h
    · by_cases h2 : env.fails (tx.tick + 1) (Op.SaveStageProgress .TxLookup 0) = true
      · simp [ResetTxLookup, Tx.ClearBucket, stages.SaveStageProgress, Tx.exec, h1, h2] at h
      · by_cases h3 : env.fails (tx.tick + 2) (Op.SaveStagePruneProgress .TxLookup 0) = true
        · simp [ResetTxLookup, Tx.ClearBucket, stages.SaveStageProgress,
            stages.SaveStagePruneProgress, Tx.exec, h1, h2, h3] at h
        · simp [ResetTxLookup, Tx.ClearBucket, stages.SaveStageProgress,
            stages.SaveStagePruneProgress, Tx.exec, h1, h2, h3,
            Store.clear, Store.setProgress, Store.setPruneProgress]
          refine ⟨?_, ?_⟩
          · intro t ht
            simp [ht]
          · intro s hs
            simp [hs]
  · intro h1
    simp [ResetTxLookup, Tx.ClearBucket, Tx.exec, h1]
  · intro h1 h2
    simp [ResetTxLookup, Tx.ClearBucket, stages.SaveStageProgress, Tx.exec, h1, h2]
  · intro h1 h2 h3
    simp [ResetTxLookup, Tx.ClearBucket, stages.SaveStageProgress,
      stages.SaveStagePruneProgress, Tx.exec, h1, h2, h3]

/-- C16 on a store with a `TxLookup` record and watermarks 900/800: without
failure the table is emptied and both watermarks are 0; when the progress save
fails its error is returned after two operations, with the prune watermark
untouched. -/
theorem ResetTxLookup_spec_witness :
    (lookupStore.tables .TxLookup ≠ [] ∧ lookupStore.progress .TxLookup = 900 ∧
      lookupStore.pruneProgress .TxLookup = 800) ∧
    (ResetTxLookup Env.noFaults (kv.beginRw lookupStore)).2 = none ∧
    ((ResetTxLookup Env.noFaults (kv.beginRw lookupStore)).1.store.tables .TxLookup = [] ∧
     (ResetTxLookup Env.noFaults (kv.beginRw lookupStore)).1.store.progress .TxLookup = 0 ∧
     (ResetTxLookup Env.noFaults (kv.beginRw lookupStore)).1.store.pruneProgress .TxLookup
       = 0) ∧
    ((ResetTxLookup (Env.ofFaults failTxLookupSave) (kv.beginRw lookupStore)).2
        = some (Err.storage (Op.SaveStageProgress .TxLookup 0)) ∧
     (ResetTxLookup (Env.ofFaults failTxLookupSave) (kv.beginRw lookupStore)).1.store
        = (kv.beginRw lookupStore).store.clear .TxLookup ∧
     (ResetTxLookup (Env.ofFaults failTxLookupSave) (kv.beginRw lookupStore)).1.tick
        = (kv.beginRw lookupStore).tick + 2) ∧
    (ResetTxLookup (Env.ofFaults failTxLookupSave)
      (kv.beginRw lookupStore)).1.store.pruneProgress .TxLookup = 800 :=
  ⟨by decide, rfl,
    ⟨((ResetTxLookup_spec Env.noFaults (kv.beginRw lookupStore)).1 rfl).1,
     ((ResetTxLookup_spec Env.noFaults (kv.beginRw lookupStore)).1 rfl).2.1,
     ((ResetTxLookup_spec Env.noFaults (kv.beginRw lookupStore)).1 rfl).2.2.1⟩,
    (ResetTxLookup_spec (Env.ofFaults failTxLookupSave) (kv.beginRw lookupStore)).2.2.1
      rfl rfl,
    rfl⟩

/-- C19, as stated, fails: under Legacy `WarmupExec` warms the state group
only, and with the history flag on it adds the V3 tables only; the legacy
history table `AccountChangeSet` is warmed in neither case, and the V4 table
`CommitmentKeys` is not warmed with the flag on. -/
theorem WarmupExec_history_counterexample :
    kvcfg.FromDB .HistoryV3 sampleStore = false ∧
    kvcfg.FromDB .HistoryV3 sampleStoreV3 = true ∧
    kv.Table.AccountChangeSet ∈ stateHistoryBuckets ∧
    kv.Table.AccountChangeSet ∉ (WarmupExec sampleStore).1 ∧
    kv.Table.AccountChangeSet ∉ (WarmupExec sampleStoreV3).1 ∧
    kv.Table.CommitmentKeys ∈ stateHistoryV4Buckets ∧
    kv.Table.CommitmentKeys ∉ (WarmupExec sampleStoreV3).1 :=
  ⟨rfl, rfl, by decide, by decide, by decide, by decide, by decide⟩

/-- C19, amended: `WarmupExec` warms every table of the state group and, when
the history flag is on, every table of `stateHistoryV3Buckets`, and nothing
else; it warms no legacy history table under either schema version; and it
always returns nil. -/
theorem WarmupExec_spec (db : Store) :
    (WarmupExec db).2 = none ∧
    (WarmupExec db).1
      = stateBuckets ++ (if kvcfg.FromDB .HistoryV3 db then stateHistoryV3Buckets else []) ∧
    (∀ t ∈ stateBuckets, t ∈ (WarmupExec db).1) ∧
    (kvcfg.FromDB .HistoryV3 db = true →
      ∀ t ∈ stateHistoryV3Buckets, t ∈ (WarmupExec db).1) ∧
    (∀ t ∈ stateHistoryBuckets, t ∉ (WarmupExec db).1) := by
  cases h : kvcfg.FromDB .HistoryV3 db
  · simp only [WarmupExec, h, Bool.false_eq_true, if_false, List.append_nil, true_and]
    refine ⟨fun t ht => ht, fun h1 => by simp at h1, ?_⟩
    decide
  · simp only [WarmupExec, h, if_true, true_and]
    refine ⟨fun t ht => List.mem_append_left _ ht,
      fun _ t ht => List.mem_append_right _ ht, ?_⟩
    decide

/-- C19, amended, on the Versioned sample store: the state group and the V3
tables are warmed, `AccountChangeSet` is not. -/
theorem WarmupExec_spec_witness :
    kvcfg.FromDB .HistoryV3 sampleStoreV3 = true ∧
    (WarmupExec sampleStoreV3).2 = none ∧
    (WarmupExec sampleStoreV3).1 = stateBuckets ++ stateHistoryV3Buckets ∧
    (∀ t ∈ stateHistoryV3Buckets, t ∈ (WarmupExec sampleStoreV3).1) ∧
    (∀ t ∈ stateHistoryBuckets, t ∉ (WarmupExec sampleStoreV3).1) :=
  ⟨rfl, (WarmupExec_spec sampleStoreV3).1, rfl,
    (WarmupExec_spec sampleStoreV3).2.2.2.1 rfl,
    (WarmupExec_spec sampleStoreV3).2.2.2.2⟩

/-- C20: two successive `ResetExec` calls that return nil on a store with the
history flag on (unchanged by the calls) do not leave the state of a single
call: the package variable `stateHistoryBuckets`, the list the next call
clears, has 43 entries after one call and 81 after two. -/
theorem ResetExec_twice_grows_history_list :
    (ResetExec Env.noFaults Globals.init sampleStoreV3 "mainnet" "tmp").2.2 = none ∧
    kvcfg.FromDB .HistoryV3
      (ResetExec Env.noFaults Globals.init sampleStoreV3 "mainnet" "tmp").2.1 = true ∧
    (ResetExec Env.noFaults
      (ResetExec Env.noFaults Globals.init sampleStoreV3 "mainnet" "tmp").1
      (ResetExec Env.noFaults Globals.init sampleStoreV3 "mainnet" "tmp").2.1
      "mainnet" "tmp").2.2 = none ∧
    (ResetExec Env.noFaults Globals.init sampleStoreV3
      "mainnet" "tmp").1.stateHistoryBuckets.length = 43 ∧
    (ResetExec Env.noFaults
      (ResetExec Env.noFaults Globals.init sampleStoreV3 "mainnet" "tmp").1
      (ResetExec Env.noFaults Globals.init sampleStoreV3 "mainnet" "tmp").2.1
      "mainnet" "tmp").1.stateHistoryBuckets.length = 81 ∧
    (ResetExec Env.noFaults
      (ResetExec Env.noFaults Globals.init sampleStoreV3 "mainnet" "tmp").1
      (ResetExec Env.noFaults Globals.init sampleStoreV3 "mainnet" "tmp").2.1
      "mainnet" "tmp").1
      ≠ (ResetExec Env.noFaults Globals.init sampleStoreV3 "mainnet" "tmp").1 :=
  ⟨rfl, rfl, rfl, rfl, rfl, by decide⟩

/-! ## Lemmas for ResetState: what a reset can change -/

theorem Store.Resets.refl {T : List kv.Table} {S : List SyncStage} {P : kv.Table → Prop}
    {Q : SyncStage → Prop} (a : Store) : Store.Resets T S P Q a a :=
  ⟨fun _ _ => Or.inl rfl, fun _ _ => ⟨Or.inl rfl, Or.inl rfl⟩⟩

theorem Store.Resets.trans {T : List kv.Table} {S : List SyncStage} {P : kv.Table → Prop}
    {Q : SyncStage → Prop} {a b c : Store}
    (h1 : Store.Resets T S P Q a b) (h2 : Store.Resets T S P Q b c) :
    Store.Resets T S P Q a c := by
  refine ⟨fun t ht => ?_, fun s hs => ⟨?_, ?_⟩⟩
  · rcases h2.1 t ht with h | ⟨hp, h⟩
    · rcases h1.1 t ht with h3 | ⟨hp, h3⟩
      · exact Or.inl (h.trans h3)
      · exact Or.inr ⟨hp, h.trans h3⟩
    · exact Or.inr ⟨hp, h⟩
  · rcases (h2.2 s hs).1 with h | ⟨hq, h⟩
    · rcases (h1.2 s hs).1 with h3 | ⟨hq, h3⟩
      · exact Or.inl (h.trans h3)
      · exact Or.inr ⟨hq, h.trans h3⟩
    · exact Or.inr ⟨hq, h⟩
  · rcases (h2.2 s hs).2 with h | ⟨hq, h⟩
    · rcases (h1.2 s hs).2 with h3 | ⟨hq, h3⟩
      · exact Or.inl (h.trans h3)
      · exact Or.inr ⟨hq, h.trans h3⟩
    · exact Or.inr ⟨hq, h⟩

theorem Tx.exec_cases (env : Env) (op : Op) (eff : Store → Store) (tx : Tx) :
    (Tx.exec env op eff tx).1.store = tx.store ∨
    (Tx.exec env op eff tx).1.store = eff tx.store := by
  unfold Tx.exec
  split <;> simp

theorem Tx.ClearBucket_resets {T : List kv.Table} {S : List SyncStage} {P : kv.Table → Prop}
    {Q : SyncStage → Prop} (env : Env) (t : kv.Table) (hP : P t) (tx : Tx) :
    Store.Resets T S P Q tx.store (Tx.ClearBucket env t tx).1.store := by
  rcases Tx.exec_cases env (Op.ClearBucket t) (fun s => s.clear t) tx with h | h
  · unfold Tx.ClearBucket
    rw [h]
    exact Store.Resets.refl _
  · unfold Tx.ClearBucket
    rw [h]
    refine ⟨fun u _ => ?_, fun s _ => ⟨Or.inl rfl, Or.inl rfl⟩⟩
    by_cases hu : u = t
    · subst hu
      exact Or.inr ⟨hP, by simp [Store.clear]⟩
    · exact Or.inl (by simp [Store.clear, hu])

theorem stages.SaveStageProgress_resets {T : List kv.Table} {S : List SyncStage}
    {P : kv.Table → Prop} {Q : SyncStage → Prop} (env : Env) (st : SyncStage) (hQ : Q st)
    (tx : Tx) :
    Store.Resets T S P Q tx.store (stages.SaveStageProgress env tx st 0).1.store := by
  rcases Tx.exec_cases env (Op.SaveStageProgress st 0) (fun s => s.setProgress st 0) tx
    with h | h
  · unfold stages.SaveStageProgress
    rw [h]
    exact Store.Resets.refl _
  · unfold stages.SaveStageProgress
    rw [h]
    refine ⟨fun u _ => Or.inl rfl, fun s _ => ⟨?_, Or.inl rfl⟩⟩
    by_cases hs : s = st
    · subst hs
      exact Or.inr ⟨hQ, by simp [Store.setProgress]⟩
    · exact Or.inl (by simp [Store.setProgress, hs])

theorem stages.SaveStagePruneProgress_resets {T : List kv.Table} {S : List SyncStage}
    {P : kv.Table → Prop} {Q : SyncStage → Prop} (env : Env) (st : SyncStage) (hQ : Q st)
    (tx : Tx) :
    Store.Resets T S P Q tx.store (stages.SaveStagePruneProgress env tx st 0).1.store := by
  rcases Tx.exec_cases env (Op.SaveStagePruneProgress st 0)
    (fun s => s.setPruneProgress st 0) tx with h | h
  · unfold stages.SaveStagePruneProgress
    rw [h]
    exact Store.Resets.refl _
  · unfold stages.SaveStagePruneProgress
    rw [h]
    refine ⟨fun u _ => Or.inl rfl, fun s _ => ⟨Or.inl rfl, ?_⟩⟩
    by_cases hs : s = st
    · subst hs
      exact Or.inr ⟨hQ, by simp [Store.setPruneProgress]⟩
    · exact Or.inl (by simp [Store.setPruneProgress, hs])

theorem backup.ClearTables_resets {T : List kv.Table} {S : List SyncStage}
    {P : kv.Table → Prop} {Q : SyncStage → Prop} (env : Env) :
    ∀ (ts : List kv.Table), (∀ t ∈ ts, P t) → ∀ tx : Tx,
      Store.Resets T S P Q tx.store (backup.ClearTables env tx ts).1.store := by
  intro ts
  induction ts with
  | nil =>
    intro _ tx
    exact Store.Resets.refl _
  | cons t ts ih =>
    intro hP tx
    have h1 : Store.Resets T S P Q tx.store (Tx.ClearBucket env t tx).1.store :=
      Tx.ClearBucket_resets env t (hP t (List.mem_cons_self _ _)) tx
    unfold backup.ClearTables
    split
    · rename_i tx1 e h2
      rw [h2] at h1
      exact h1
    · rename_i tx1 h2
      rw [h2] at h1
      exact h1.trans (ih (fun u hu => hP u (List.mem_cons_of_mem _ hu)) tx1)

theorem clearStageProgress_resets {T : List kv.Table} {S : List SyncStage}
    {P : kv.Table → Prop} {Q : SyncStage → Prop} (env : Env) :
    ∀ (l : List SyncStage), (∀ s ∈ l, Q s) → ∀ tx : Tx,
      Store.Resets T S P Q tx.store (clearStageProgress env tx l).1.store := by
  intro l
  induction l with
  | nil =>
    intro _ tx
    exact Store.Resets.refl _
  | cons st l ih =>
    intro hQ tx
    have h1 : Store.Resets T S P Q tx.store (stages.SaveStageProgress env tx st 0).1.store :=
      stages.SaveStageProgress_resets env st (hQ st (List.mem_cons_self _ _)) tx
    unfold clearStageProgress
    split
    · rename_i tx1 e h2
      rw [h2] at h1
      exact h1
    · rename_i tx1 h2
      rw [h2] at h1
      have h3 : Store.Resets T S P Q tx1.store
          (stages.SaveStagePruneProgress env tx1 st 0).1.store :=
        stages.SaveStagePruneProgress_resets env st (hQ st (List.mem_cons_self _ _)) tx1
      split
      · rename_i tx2 e h4
        rw [h4] at h3
        exact h1.trans h3
      · rename_i tx2 h4
        rw [h4] at h3
        exact (h1.trans h3).trans (ih (fun u hu => hQ u (List.mem_cons_of_mem _ hu)) tx2)

theorem kv.Update_resets {T : List kv.Table} {S : List SyncStage} {P : kv.Table → Prop}
    {Q : SyncStage → Prop} (env : Env) (db : Store) (f : Tx → Tx × Option Err)
    (hf : ∀ tx, Store.Resets T S P Q tx.store (f tx).1.store) :
    Store.Resets T S P Q db (kv.Update env db f).1 := by
  have h1 := hf (kv.beginRw db)
  unfold kv.Update
  split
  · exact Store.Resets.refl _
  · rename_i tx1 h2
    rw [h2] at h1
    split
    · exact Store.Resets.refl _
    · exact h1

theorem Reset.loop_resets {T : List kv.Table} {S : List SyncStage} {P : kv.Table → Prop}
    {Q : SyncStage → Prop} (env : Env) (l : List SyncStage) (hQ : ∀ s ∈ l, Q s) :
    ∀ (rest : List SyncStage), (∀ s ∈ rest, ∀ t ∈ Tables.index s, P t) → ∀ tx : Tx,
      Store.Resets T S P Q tx.store (Reset.loop env l tx rest).1.store := by
  intro rest
  induction rest with
  | nil =>
    intro _ tx
    exact Store.Resets.refl _
  | cons st rest ih =>
    intro hP tx
    have h1 : Store.Resets T S P Q tx.store
        (backup.ClearTables env tx (Tables.index st)).1.store :=
      backup.ClearTables_resets env _ (hP st (List.mem_cons_self _ _)) tx
    unfold Reset.loop
    split
    · rename_i tx1 e h2
      rw [h2] at h1
      exact h1
    · rename_i tx1 h2
      rw [h2] at h1
      have h3 : Store.Resets T S P Q tx1.store (clearStageProgress env tx1 l).1.store :=
        clearStageProgress_resets env l hQ tx1
      split
      · rename_i tx2 e h4
        rw [h4] at h3
        exact h1.trans h3
      · rename_i tx2 h4
        rw [h4] at h3
        exact (h1.trans h3).trans
          (ih (fun u hu => hP u (List.mem_cons_of_mem _ hu)) tx2)

/-- Whatever its outcome, `Reset(l)` only empties tables owned by stages of
`l` and only zeroes watermarks of stages of `l`. -/
theorem Reset_resets {T : List kv.Table} {S : List SyncStage} {P : kv.Table → Prop}
    {Q : SyncStage → Prop} (env : Env) (db : Store) (l : List SyncStage)
    (hP : ∀ s ∈ l, ∀ t ∈ Tables.index s, P t) (hQ : ∀ s ∈ l, Q s) :
    Store.Resets T S P Q db (Reset env db l).1 :=
  kv.Update_resets env db _ (fun tx => Reset.loop_resets env l hQ l hP tx)

theorem ResetTxLookup_resets {T : List kv.Table} {S : List SyncStage} {P : kv.Table → Prop}
    {Q : SyncStage → Prop} (env : Env) (hP : P .TxLookup) (hQ : Q .TxLookup) (tx : Tx) :
    Store.Resets T S P Q tx.store (ResetTxLookup env tx).1.store := by
  have h1 : Store.Resets T S P Q tx.store (Tx.ClearBucket env .TxLookup tx).1.store :=
    Tx.ClearBucket_resets env _ hP tx
  unfold ResetTxLookup
  split
  · rename_i tx1 e h2
    rw [h2] at h1
    exact h1
  · rename_i tx1 h2
    rw [h2] at h1
    have h3 : Store.Resets T S P Q tx1.store
        (stages.SaveStageProgress env tx1 .TxLookup 0).1.store :=
      stages.SaveStageProgress_resets env _ hQ tx1
    split
    · rename_i tx2 e h4
      rw [h4] at h3
      exact h1.trans h3
    · rename_i tx2 h4
      rw [h4] at h3
      have h5 : Store.Resets T S P Q tx2.store
          (stages.SaveStagePruneProgress env tx2 .TxLookup 0).1.store :=
        stages.SaveStagePruneProgress_resets env _ hQ tx2
      split
      · rename_i tx3 e h6
        rw [h6] at h5
        exact (h1.trans h3).trans h5
      · rename_i tx3 h6
        rw [h6] at h5
        exact (h1.trans h3).trans h5

theorem Env.GenesisKeeps.resets {env : Env} {T : List kv.Table} {S : List SyncStage}
    {P : kv.Table → Prop} {Q : SyncStage → Prop} (hW : env.GenesisKeeps T S)
    (gen : env.Genesis) (tx : Tx) (tmpDir : String) :
    Store.Resets T S P Q tx.store (env.WriteGenesisState gen tx tmpDir).1.store :=
  ⟨fun t ht => Or.inl ((hW gen tx tmpDir).1 t ht),
    fun s hs => ⟨Or.inl ((hW gen tx tmpDir).2 s hs).1, Or.inl ((hW gen tx tmpDir).2 s hs).2⟩⟩

theorem ResetExec.body_resets {T : List kv.Table} {S : List SyncStage} {P : kv.Table → Prop}
    {Q : SyncStage → Prop} (env : Env) (hW : env.GenesisKeeps T S)
    (historyV3 : Bool) (hist : List kv.Table) (chain tmpDir : String)
    (hP1 : ∀ t ∈ stateBuckets, P t) (hP2 : ∀ t ∈ hist, P t)
    (hQ : ∀ s ∈ [SyncStage.Execution, SyncStage.HashState, SyncStage.IntermediateHashes], Q s)
    (tx : Tx) :
    Store.Resets T S P Q tx.store
      (ResetExec.body env historyV3 hist chain tmpDir tx).1.store := by
  have h1 : Store.Resets T S P Q tx.store
      (clearStageProgress env tx [.Execution, .HashState, .IntermediateHashes]).1.store :=
    clearStageProgress_resets env _ hQ tx
  unfold ResetExec.body
  split
  · rename_i tx1 e h2
    rw [h2] at h1
    exact h1
  · rename_i tx1 h2
    rw [h2] at h1
    have h3 : Store.Resets T S P Q tx1.store
        (backup.ClearTables env tx1 stateBuckets).1.store :=
      backup.ClearTables_resets env _ hP1 tx1
    split
    · rename_i tx2 e h4
      rw [h4] at h3
      exact h1.trans h3
    · rename_i tx2 h4
      rw [h4] at h3
      have h5 : Store.Resets T S P Q tx2.store
          (ResetExec.clearLoop env tx2 stateBuckets).1.store := by
        rw [ResetExec.clearLoop_eq]
        exact backup.ClearTables_resets env _ hP1 tx2
      split
      · rename_i tx3 e h6
        rw [h6] at h5
        exact (h1.trans h3).trans h5
      · rename_i tx3 h6
        rw [h6] at h5
        have h7 : Store.Resets T S P Q tx3.store (backup.ClearTables env tx3 hist).1.store :=
          backup.ClearTables_resets env _ hP2 tx3
        split
        · rename_i tx4 e h8
          rw [h8] at h7
          exact ((h1.trans h3).trans h5).trans h7
        · rename_i tx4 h8
          rw [h8] at h7
          have h9 := hW.resets (P := P) (Q := Q)
            (env.GenesisBlockByChainName chain) tx4 tmpDir
          split
          · split
            · rename_i tx5 e h10
              rw [h10] at h9
              exact (((h1.trans h3).trans h5).trans h7).trans h9
            · rename_i tx5 h10
              rw [h10] at h9
              exact (((h1.trans h3).trans h5).trans h7).trans h9
          · exact ((h1.trans h3).trans h5).trans h7

/-- Whatever its outcome, `ResetExec` only empties tables of the state group
and of the history list it clears and only zeroes the watermarks of
`Execution`, `HashState` and `IntermediateHashes`, as far as tables and stages
that the genesis writer leaves alone are concerned. -/
theorem ResetExec_resets {T : List kv.Table} {S : List SyncStage} {P : kv.Table → Prop}
    {Q : SyncStage → Prop} (env : Env) (hW : env.GenesisKeeps T S)
    (g : Globals) (db : Store) (chain tmpDir : String)
    (hP1 : ∀ t ∈ stateBuckets, P t)
    (hP2 : ∀ t ∈ (ResetExec.appendHistory g (kvcfg.FromDB .HistoryV3 db)).stateHistoryBuckets,
      P t)
    (hQ : ∀ s ∈ [SyncStage.Execution, SyncStage.HashState, SyncStage.IntermediateHashes], Q s) :
    Store.Resets T S P Q db (ResetExec env g db chain tmpDir).2.1 := by
  unfold ResetExec
  exact kv.Update_resets env db _
    (fun tx => ResetExec.body_resets env hW _ _ chain tmpDir hP1 hP2 hQ tx)

theorem ResetExec.mem_appendHistory (g : Globals) (b : Bool) (t : kv.Table)
    (h : t ∈ (ResetExec.appendHistory g b).stateHistoryBuckets) :
    t ∈ g.stateHistoryBuckets ∨ t ∈ stateHistoryV3Buckets ∨ t ∈ stateHistoryV4Buckets := by
  cases b with
  | false => exact Or.inl h
  | true =>
    simp only [ResetExec.appendHistory, if_true, List.mem_append] at h
    rcases h with (h | h) | h
    · exact Or.inl h
    · exact Or.inr (Or.inl h)
    · exact Or.inr (Or.inr h)

/-- Whatever its outcome, `ResetState` only empties tables and zeroes
watermarks, as far as tables and stages that the genesis writer leaves alone
are concerned. -/
theorem ResetState_resets {T : List kv.Table} {S : List SyncStage} {P : kv.Table → Prop}
    {Q : SyncStage → Prop} (env : Nat → Env) (hW : (env 7).GenesisKeeps T S)
    (g : Globals) (db : Store) (chain tmpDir : String)
    (hP : ∀ s t, t ∈ Tables.index s → P t) (hPL : P .TxLookup)
    (hP1 : ∀ t ∈ stateBuckets, P t)
    (hPg : ∀ t ∈ g.stateHistoryBuckets, P t)
    (hP3 : ∀ t ∈ stateHistoryV3Buckets, P t) (hP4 : ∀ t ∈ stateHistoryV4Buckets, P t)
    (hQ : ∀ s, s ≠ SyncStage.Senders → Q s) :
    Store.Resets T S P Q db (ResetState env g db chain tmpDir).2.1 := by
  have hreset : ∀ (e : Env) (d : Store) (l : List SyncStage), SyncStage.Senders ∉ l →
      Store.Resets T S P Q d (Reset e d l).1 := by
    intro e d l hl
    exact Reset_resets e d l (fun s _ t ht => hP s t ht)
      (fun s hs => hQ s (fun h => hl (h ▸ hs)))
  unfold ResetState
  have r0 := hreset (env 0) db [.HashState] (by decide)
  split
  · rename_i db1 e h0
    rw [h0] at r0
    exact r0
  · rename_i db1 h0
    rw [h0] at r0
    have r1 := r0.trans (hreset (env 1) db1 [.IntermediateHashes] (by decide))
    split
    · rename_i db2 e h1
      rw [h1] at r1
      exact r1
    · rename_i db2 h1
      rw [h1] at r1
      have r2 := r1.trans
        (hreset (env 2) db2 [.AccountHistoryIndex, .StorageHistoryIndex] (by decide))
      split
      · rename_i db3 e h2
        rw [h2] at r2
        exact r2
      · rename_i db3 h2
        rw [h2] at r2
        have r3 := r2.trans (hreset (env 3) db3 [.LogIndex] (by decide))
        split
        · rename_i db4 e h3
          rw [h3] at r3
          exact r3
        · rename_i db4 h3
          rw [h3] at r3
          have r4 := r3.trans (hreset (env 4) db4 [.CallTraces] (by decide))
          split
          · rename_i db5 e h4
            rw [h4] at r4
            exact r4
          · rename_i db5 h4
            rw [h4] at r4
            have r5 := r4.trans (kv.Update_resets (env 5) db5 (ResetTxLookup (env 5))
              (fun tx => ResetTxLookup_resets (env 5) hPL (hQ _ (by decide)) tx))
            split
            · rename_i db6 e h5
              rw [h5] at r5
              exact r5
            · rename_i db6 h5
              rw [h5] at r5
              have r6 := r5.trans (hreset (env 6) db6 [.Finish] (by decide))
              split
              · rename_i db7 e h6
                rw [h6] at r6
                exact r6
              · rename_i db7 h6
                rw [h6] at r6
                have r7 := r6.trans (ResetExec_resets (env 7) hW g db7 chain tmpDir hP1
                  (fun t ht => by
                    rcases ResetExec.mem_appendHistory _ _ t ht with h | h | h
                    · exact hPg t h
                    · exact hP3 t h
                    · exact hP4 t h)
                  (fun s hs => hQ s (by
                    intro h
                    subst h
                    simp at hs)))
                split
                · rename_i g1 db8 e h7
                  rw [h7] at r7
                  exact r7
                · rename_i g1 db8 h7
                  rw [h7] at r7
                  exact r7

/-- A `ResetState` that returns nil has run its eight transactions, each of
which returned nil on the store its predecessor left. -/
theorem ResetState_none {env : Nat → Env} {g g1 : Globals} {db db8 : Store}
    {chain tmpDir : String}
    (h : ResetState env g db chain tmpDir = (g1, db8, none)) :
    ∃ db1 db2 db3 db4 db5 db6 db7 : Store,
      Reset (env 0) db [.HashState] = (db1, none) ∧
      Reset (env 1) db1 [.IntermediateHashes] = (db2, none) ∧
      Reset (env 2) db2 [.AccountHistoryIndex, .StorageHistoryIndex] = (db3, none) ∧
      Reset (env 3) db3 [.LogIndex] = (db4, none) ∧
      Reset (env 4) db4 [.CallTraces] = (db5, none) ∧
      kv.Update (env 5) db5 (ResetTxLookup (env 5)) = (db6, none) ∧
      Reset (env 6) db6 [.Finish] = (db7, none) ∧
      ResetExec (env 7) g db7 chain tmpDir = (g1, db8, none) := by
  unfold ResetState at h
  split at h
  · simp at h
  · rename_i db1 h0
    split at h
    · simp at h
    · rename_i db2 h1
      split at h
      · simp at h
      · rename_i db3 h2
        split at h
        · simp at h
        · rename_i db4 h3
          split at h
          · simp at h
          · rename_i db5 h4
            split at h
            · simp at h
            · rename_i db6 h5
              split at h
              · simp at h
              · rename_i db7 h6
                split at h
                · simp at h
                · rename_i g2 db9 h7
                  simp only [Prod.mk.injEq, and_true] at h
                  obtain ⟨hg, hd⟩ := h
                  subst hg
                  subst hd
                  exact ⟨db1, db2, db3, db4, db5, db6, db7, h0, h1, h2, h3, h4, h5, h6, h7⟩

theorem ResetTxLookup_none {env : Env} {tx tx1 : Tx}
    (h : ResetTxLookup env tx = (tx1, none)) :
    tx1.store = ((tx.store.clear .TxLookup).setProgress .TxLookup 0).setPruneProgress
      .TxLookup 0 ∧ tx1.faults = tx.faults := by
  unfold ResetTxLookup at h
  split at h
  · simp at h
  · rename_i tx2 h2
    obtain ⟨hs2, hf2, _⟩ := Tx.exec_none h2
    split at h
    · simp at h
    · rename_i tx3 h3
      obtain ⟨hs3, hf3, _⟩ := Tx.exec_none h3
      split at h
      · simp at h
      · rename_i tx4 h4
        obtain ⟨hs4, hf4, _⟩ := Tx.exec_none h4
        simp only [Prod.mk.injEq, and_true] at h
        subst h
        rw [hs4, hs3, hs2, hf4, hf3, hf2]
        exact ⟨rfl, rfl⟩

theorem Store.Resets.cleared {T : List kv.Table} {S : List SyncStage} {P : kv.Table → Prop}
    {Q : SyncStage → Prop} {a b : Store} (h : Store.Resets T S P Q a b) :
    (∀ t ∈ T, a.tables t = [] → b.tables t = []) ∧
    (∀ s ∈ S, a.progress s = 0 → b.progress s = 0) ∧
    (∀ s ∈ S, a.pruneProgress s = 0 → b.pruneProgress s = 0) := by
  refine ⟨fun t ht h0 => ?_, fun s hs h0 => ?_, fun s hs h0 => ?_⟩
  · rcases h.1 t ht with h1 | ⟨_, h1⟩
    · exact h1.trans h0
    · exact h1
  · rcases (h.2 s hs).1 with h1 | ⟨_, h1⟩
    · exact h1.trans h0
    · exact h1
  · rcases (h.2 s hs).2 with h1 | ⟨_, h1⟩
    · exact h1.trans h0
    · exact h1

/-- A `Reset` that returned nil has emptied the tables of its stages and
zeroed their watermarks. -/
theorem Reset_cleared {env : Env} {db db1 : Store} {l : List SyncStage}
    (h : Reset env db l = (db1, none)) :
    ∀ s ∈ l, (∀ t ∈ Tables.index s, db1.tables t = []) ∧ db1.progress s = 0 ∧
      db1.pruneProgress s = 0 := by
  intro s hs
  rw [Reset_none h]
  refine ⟨fun t ht => ?_, ?_, ?_⟩
  · have : t ∈ ownedTables l := (mem_ownedTables t l).2 ⟨s, hs, ht⟩
    simp [Store.zeroProgress, Store.clearTables, this]
  · simp [Store.zeroProgress, hs]
  · simp [Store.zeroProgress, hs]

/-- A committed `db.Update(ctx, ResetTxLookup)` has emptied `TxLookup` and
zeroed its watermarks. -/
theorem ResetTxLookup_cleared {env : Env} {db db1 : Store}
    (h : kv.Update env db (ResetTxLookup env) = (db1, none)) :
    db1.tables .TxLookup = [] ∧ db1.progress .TxLookup = 0 ∧
    db1.pruneProgress .TxLookup = 0 := by
  obtain ⟨tx1, hb, e⟩ := kv.Update_none h
  rw [e, (ResetTxLookup_none hb).1]
  simp [Store.clear, Store.setProgress, Store.setPruneProgress]

theorem ResetState.stages_eq :
    ResetState.stages = [.HashState, .IntermediateHashes, .CallTraces, .LogIndex,
      .AccountHistoryIndex, .StorageHistoryIndex, .Finish, .TxLookup] := rfl

/-- After a `ResetState` that returned nil, the tables of the catalog stages
and `TxLookup` are empty and the watermarks of these stages are zero, as far as
the genesis writer leaves them alone. -/
theorem ResetState_cleared {T : List kv.Table} {S : List SyncStage} {env : Nat → Env}
    {g g1 : Globals} {db db8 : Store} {chain tmpDir : String}
    (hW : (env 7).GenesisKeeps T S)
    (h : ResetState env g db chain tmpDir = (g1, db8, none)) :
    (∀ s ∈ ResetState.stages, (∀ t ∈ Tables.index s, t ∈ T → db8.tables t = []) ∧
      (s ∈ S → db8.progress s = 0 ∧ db8.pruneProgress s = 0)) ∧
    (kv.Table.TxLookup ∈ T → db8.tables .TxLookup = []) := by
  obtain ⟨db1, db2, db3, db4, db5, db6, db7, h0, h1, h2, h3, h4, h5, h6, h7⟩ :=
    ResetState_none h
  have hreset : ∀ (e : Env) (d : Store) (l : List SyncStage),
      Store.Resets T S (fun _ => True) (fun _ => True) d (Reset e d l).1 :=
    fun e d l => Reset_resets e d l (fun _ _ _ _ => trivial) (fun _ _ => trivial)
  have r7 : Store.Resets T S (fun _ => True) (fun _ => True) db7 db8 := by
    have := ResetExec_resets (P := fun _ => True) (Q := fun _ => True) (env 7) hW g db7
      chain tmpDir (fun _ _ => trivial) (fun _ _ => trivial) (fun _ _ => trivial)
    rw [h7] at this
    exact this
  have r6 : Store.Resets T S (fun _ => True) (fun _ => True) db6 db8 := by
    have := hreset (env 6) db6 [.Finish]
    rw [h6] at this
    exact this.trans r7
  have r5 : Store.Resets T S (fun _ => True) (fun _ => True) db5 db8 := by
    have := kv.Update_resets (T := T) (S := S) (P := fun _ => True) (Q := fun _ => True)
      (env 5) db5 (ResetTxLookup (env 5))
      (fun tx => ResetTxLookup_resets (env 5) trivial trivial tx)
    rw [h5] at this
    exact this.trans r6
  have r4 : Store.Resets T S (fun _ => True) (fun _ => True) db4 db8 := by
    have := hreset (env 4) db4 [.CallTraces]
    rw [h4] at this
    exact this.trans r5
  have r3 : Store.Resets T S (fun _ => True) (fun _ => True) db3 db8 := by
    have := hreset (env 3) db3 [.LogIndex]
    rw [h3] at this
    exact this.trans r4
  have r2 : Store.Resets T S (fun _ => True) (fun _ => True) db2 db8 := by
    have := hreset (env 2) db2 [.AccountHistoryIndex, .StorageHistoryIndex]
    rw [h2] at this
    exact this.trans r3
  have r1 : Store.Resets T S (fun _ => True) (fun _ => True) db1 db8 := by
    have := hreset (env 1) db1 [.IntermediateHashes]
    rw [h1] at this
    exact this.trans r2
  have lift : ∀ {a : Store} {l : List SyncStage} (s : SyncStage),
      Store.Resets T S (fun _ => True) (fun _ => True) a db8 → s ∈ l →
      (∀ s ∈ l, (∀ t ∈ Tables.index s, a.tables t = []) ∧ a.progress s = 0 ∧
        a.pruneProgress s = 0) →
      (∀ t ∈ Tables.index s, t ∈ T → db8.tables t = []) ∧
      (s ∈ S → db8.progress s = 0 ∧ db8.pruneProgress s = 0) := by
    intro a l s r hs hc
    obtain ⟨ht, hp, hq⟩ := hc s hs
    exact ⟨fun t htm hT => r.cleared.1 t hT (ht t htm),
      fun hS => ⟨r.cleared.2.1 s hS hp, r.cleared.2.2 s hS hq⟩⟩
  have c6 := ResetTxLookup_cleared h5
  constructor
  · intro s hs
    rw [ResetState.stages_eq] at hs
    simp only [List.mem_cons, List.mem_singleton, List.not_mem_nil, or_false] at hs
    rcases hs with h | h | h | h | h | h | h | h <;> subst h
    · exact lift _ r1 (by simp) (Reset_cleared h0)
    · exact lift _ r2 (by simp) (Reset_cleared h1)
    · exact lift _ r5 (by simp) (Reset_cleared h4)
    · exact lift _ r4 (by simp) (Reset_cleared h3)
    · exact lift _ r3 (by simp) (Reset_cleared h2)
    · exact lift _ r3 (by simp) (Reset_cleared h2)
    · exact lift _ r7 (by simp) (Reset_cleared h6)
    · refine ⟨fun t ht => ?_, fun hS => ?_⟩
      · have he : Tables.index SyncStage.TxLookup = [] := rfl
        rw [he] at ht
        exact absurd ht (List.not_mem_nil _)
      · exact ⟨r6.cleared.2.1 _ hS c6.2.1, r6.cleared.2.2 _ hS c6.2.2⟩
  · intro hT
    exact r6.cleared.1 _ hT c6.1

theorem ResetState_eq_runTxns (env : Nat → Env) (g : Globals) (db : Store)
    (chain tmpDir : String) :
    ResetState env g db chain tmpDir =
      match runTxns (ResetState.txns env) db with
      | (db7, some err) => (g, db7, some err)
      | (db7, none) => ResetExec (env 7) g db7 chain tmpDir := by
  unfold ResetState ResetState.txns
  simp only [runTxns]
  cases h0 : Reset (env 0) db [.HashState] with
  | mk db1 e0 =>
  cases e0 with
  | some e => rfl
  | none =>
  simp only
  cases h1 : Reset (env 1) db1 [.IntermediateHashes] with
  | mk db2 e1 =>
  cases e1 with
  | some e => rfl
  | none =>
  simp only
  cases h2 : Reset (env 2) db2 [.AccountHistoryIndex, .StorageHistoryIndex] with
  | mk db3 e2 =>
  cases e2 with
  | some e => rfl
  | none =>
  simp only
  cases h3 : Reset (env 3) db3 [.LogIndex] with
  | mk db4 e3 =>
  cases e3 with
  | some e => rfl
  | none =>
  simp only
  cases h4 : Reset (env 4) db4 [.CallTraces] with
  | mk db5 e4 =>
  cases e4 with
  | some e => rfl
  | none =>
  simp only
  cases h5 : kv.Update (env 5) db5 (ResetTxLookup (env 5)) with
  | mk db6 e5 =>
  cases e5 with
  | some e => rfl
  | none =>
  simp only
  cases h6 : Reset (env 6) db6 [.Finish] with
  | mk db7 e6 =>
  cases e6 with
  | some e => rfl
  | none =>
  simp only
  cases h7 : ResetExec (env 7) g db7 chain tmpDir with
  | mk g1 r =>
  cases r with
  | mk db8 e7 =>
  cases e7 <;> rfl

/-- A sequence of transactions, each of which leaves the store alone when it
returns an error, ends at its first error with the store that the transactions
before it left; those all returned nil. -/
theorem runTxns_error :
    ∀ (fs : List (Store → Store × Option Err)),
      (∀ f ∈ fs, ∀ d, (f d).2 ≠ none → (f d).1 = d) →
      ∀ db, (runTxns fs db).2 ≠ none →
      ∃ k, k < fs.length ∧
        (runTxns fs db).1 = (fs.take k).foldl (fun s f => (f s).1) db ∧
        (∀ j, j < k → ∃ f, fs[j]? = some f ∧
          (f ((fs.take j).foldl (fun s f => (f s).1) db)).2 = none) := by
  intro fs
  induction fs with
  | nil =>
    intro _ db h
    simp [runTxns] at h
  | cons f fs ih =>
    intro hat db h
    cases hf : f db with
    | mk db1 e =>
      cases e with
      | some e =>
        refine ⟨0, by simp, ?_, fun j hj => absurd hj (Nat.not_lt_zero j)⟩
        have h1 := hat f (List.mem_cons_self _ _) db (by rw [hf]; simp)
        simp only [runTxns, hf, List.take_zero, List.foldl_nil]
        rw [hf] at h1
        exact h1
      | none =>
        have h2 : (runTxns fs db1).2 ≠ none := by
          simpa [runTxns, hf] using h
        obtain ⟨k, hk, hs, hp⟩ :=
          ih (fun f1 hf1 => hat f1 (List.mem_cons_of_mem _ hf1)) db1 h2
        refine ⟨k + 1, by simpa using hk, ?_, ?_⟩
        · simp only [runTxns, hf, List.take_succ_cons, List.foldl_cons]
          exact hs
        · intro j hj
          cases j with
          | zero => exact ⟨f, by simp, by simp [hf]⟩
          | succ j =>
            obtain ⟨f1, hf1, hn⟩ := hp j (by omega)
            refine ⟨f1, by simpa using hf1, ?_⟩
            simp only [List.take_succ_cons, List.foldl_cons, hf]
            exact hn

/-- A sequence of transactions that returns nil has run them all, each
returning nil. -/
theorem runTxns_ok :
    ∀ (fs : List (Store → Store × Option Err)) (db : Store),
      (runTxns fs db).2 = none →
      (runTxns fs db).1 = (fs.take fs.length).foldl (fun s f => (f s).1) db ∧
      (∀ j, j < fs.length → ∃ f, fs[j]? = some f ∧
        (f ((fs.take j).foldl (fun s f => (f s).1) db)).2 = none) := by
  intro fs
  induction fs with
  | nil =>
    intro db _
    exact ⟨rfl, fun j hj => absurd hj (Nat.not_lt_zero j)⟩
  | cons f fs ih =>
    intro db h
    cases hf : f db with
    | mk db1 e =>
      cases e with
      | some e => simp [runTxns, hf] at h
      | none =>
        have h2 : (runTxns fs db1).2 = none := by
          simpa [runTxns, hf] using h
        obtain ⟨hs, hp⟩ := ih db1 h2
        refine ⟨?_, ?_⟩
        · simp only [runTxns, hf, List.length_cons, List.take_succ_cons, List.foldl_cons]
          exact hs
        · intro j hj
          cases j with
          | zero => exact ⟨f, by simp, by simp [hf]⟩
          | succ j =>
            obtain ⟨f1, hf1, hn⟩ := hp j (by simpa using hj)
            refine ⟨f1, by simpa using hf1, ?_⟩
            simp only [List.take_succ_cons, List.foldl_cons, hf]
            exact hn

theorem ResetState.txns_atomic (env : Nat → Env) :
    ∀ f ∈ ResetState.txns env, ∀ d, (f d).2 ≠ none → (f d).1 = d := by
  intro f hf d h
  simp only [ResetState.txns, List.mem_cons, List.mem_singleton, List.not_mem_nil,
    or_false] at hf
  rcases hf with h1 | h1 | h1 | h1 | h1 | h1 | h1 <;> subst h1 <;> exact kv.Update_some h

theorem ResetState.mem_tables (s : SyncStage) (hs : s ∈ ResetState.stages) (t : kv.Table)
    (ht : t ∈ Tables.index s) : t ∈ ResetState.tables := by
  unfold ResetState.tables
  unfold ResetState.stages at hs
  rcases List.mem_append.1 hs with h | h
  · exact List.mem_append_left _ ((mem_ownedTables t _).2 ⟨s, h, ht⟩)
  · simp only [List.mem_singleton] at h
    subst h
    have he : Tables.index SyncStage.TxLookup = [] := rfl
    rw [he] at ht
    exact absurd ht (List.not_mem_nil _)

theorem Env.seeding_keeps (f : Nat → Op → Bool) (alloc : List (Bytes × Bytes))
    (T : List kv.Table) (S : List SyncStage) (hT : kv.Table.PlainState ∉ T) :
    (Env.seeding f alloc).GenesisKeeps T S := by
  intro gen tx tmpDir
  simp only [Env.seeding]
  split
  · exact ⟨fun _ _ => rfl, fun _ _ => ⟨rfl, rfl⟩⟩
  · refine ⟨fun t ht => ?_, fun _ _ => ⟨rfl, rfl⟩⟩
    have hne : t ≠ kv.Table.PlainState := fun h => hT (h ▸ ht)
    simp [hne]

/-- A sequence of atomic transactions that returns an error stopped at its
first failing transaction, number `k`: the ones before it returned nil, it
returned the error, and the store is the one its predecessors left. -/
theorem runTxns_first_error :
    ∀ (fs : List (Store → Store × Option Err)),
      (∀ f ∈ fs, ∀ d, (f d).2 ≠ none → (f d).1 = d) →
      ∀ db, (runTxns fs db).2 ≠ none →
      ∃ k, (runTxns fs db).1 = (fs.take k).foldl (fun s f => (f s).1) db ∧
        (∀ j, j < k → ∃ f, fs[j]? = some f ∧
          (f ((fs.take j).foldl (fun s f => (f s).1) db)).2 = none) ∧
        (∃ f, fs[k]? = some f ∧
          (f ((fs.take k).foldl (fun s f => (f s).1) db)).2 = (runTxns fs db).2) := by
  intro fs
  induction fs with
  | nil =>
    intro _ db h
    simp [runTxns] at h
  | cons f fs ih =>
    intro hat db h
    cases hf : f db with
    | mk db1 e =>
      cases e with
      | some e =>
        refine ⟨0, ?_, fun j hj => absurd hj (Nat.not_lt_zero j), f, by simp, ?_⟩
        · have h1 := hat f (List.mem_cons_self _ _) db (by rw [hf]; simp)
          simp only [runTxns, hf, List.take_zero, List.foldl_nil]
          rw [hf] at h1
          exact h1
        · simp [runTxns, hf]
      | none =>
        have h2 : (runTxns fs db1).2 ≠ none := by
          simpa [runTxns, hf] using h
        obtain ⟨k, hs, hp, f1, hf1, he⟩ :=
          ih (fun f1 hf1 => hat f1 (List.mem_cons_of_mem _ hf1)) db1 h2
        refine ⟨k + 1, ?_, ?_, f1, by simpa using hf1, ?_⟩
        · simp only [runTxns, hf, List.take_succ_cons, List.foldl_cons]
          exact hs
        · intro j hj
          cases j with
          | zero => exact ⟨f, by simp, by simp [hf]⟩
          | succ j =>
            obtain ⟨f2, hf2, hn⟩ := hp j (by omega)
            refine ⟨f2, by simpa using hf2, ?_⟩
            simp only [List.take_succ_cons, List.foldl_cons, hf]
            exact hn
        · simp only [runTxns, hf, List.take_succ_cons, List.foldl_cons]
          exact he

theorem Store.clearTables_zeroProgress_singleton (s : Store) :
    ((s.clear .TxLookup).setProgress .TxLookup 0).setPruneProgress .TxLookup 0
      = (s.clearTables (ResetState.txnTables [.TxLookup])).zeroProgress [.TxLookup] := by
  apply Store.ext
  · funext u
    simp only [Store.clear, Store.setProgress, Store.setPruneProgress, Store.clearTables,
      Store.zeroProgress]
    have he : ResetState.txnTables [.TxLookup] = [kv.Table.TxLookup] := rfl
    rw [he]
    simp only [List.mem_singleton]
  · funext u
    simp only [Store.clear, Store.setProgress, Store.setPruneProgress, Store.clearTables,
      Store.zeroProgress, List.mem_singleton]
  · funext u
    simp only [Store.clear, Store.setProgress, Store.setPruneProgress, Store.clearTables,
      Store.zeroProgress, List.mem_singleton]
  · rfl

/-- Each of the first seven transactions of `ResetState`, when it returns nil,
leaves its store with the tables of its stages emptied and their watermarks
zeroed. -/
theorem ResetState.txns_reset (env : Nat → Env) (j : Nat) (f : Store → Store × Option Err)
    (l : List SyncStage) (hf : (ResetState.txns env)[j]? = some f)
    (hl : ResetState.txnStages[j]? = some l) (d : Store) (h : (f d).2 = none) :
    (f d).1 = (d.clearTables (ResetState.txnTables l)).zeroProgress l := by
  have hreset : ∀ (e : Env) (l : List SyncStage), SyncStage.TxLookup ∉ l →
      (Reset e d l).2 = none →
      (Reset e d l).1 = (d.clearTables (ResetState.txnTables l)).zeroProgress l := by
    intro e l hn h1
    have h2 : Reset e d l = ((Reset e d l).1, none) := by rw [← h1]
    rw [Reset_none h2]
    simp [ResetState.txnTables, hn]
  have hj : j < 7 := by
    by_contra hc
    have : (ResetState.txns env)[j]? = none := by
      apply List.getElem?_eq_none
      have : (ResetState.txns env).length = 7 := rfl
      omega
    rw [this] at hf
    exact absurd hf (by simp)
  interval_cases j <;>
    simp only [ResetState.txns, ResetState.txnStages, List.getElem?_cons_zero,
      List.getElem?_cons_succ, Option.some.injEq] at hf hl <;>
    subst hf <;> subst hl
  · exact hreset _ _ (by decide) h
  · exact hreset _ _ (by decide) h
  · exact hreset _ _ (by decide) h
  · exact hreset _ _ (by decide) h
  · exact hreset _ _ (by decide) h
  · have h2 : kv.Update (env 5) d (ResetTxLookup (env 5))
        = ((kv.Update (env 5) d (ResetTxLookup (env 5))).1, none) := by rw [← h]
    obtain ⟨tx1, hb, e⟩ := kv.Update_none h2
    simp only
    rw [e, (ResetTxLookup_none hb).1]
    exact Store.clearTables_zeroProgress_singleton _
  · exact hreset _ _ (by decide) h

/-- When the first `k` transactions of `ResetState` returned nil, the store
they left is `db` with exactly their resets applied. -/
theorem ResetState.after_eq_committed (env : Nat → Env) (db : Store) :
    ∀ k, k ≤ 7 →
      (∀ j, j < k → ∃ f, (ResetState.txns env)[j]? = some f ∧
        (f (ResetState.after env db j)).2 = none) →
      ResetState.after env db k = ResetState.committed db k := by
  intro k
  induction k with
  | zero => intro _ _; rfl
  | succ k ih =>
    intro hk hp
    have ih1 := ih (by omega) (fun j hj => hp j (by omega))
    obtain ⟨f, hf, hn⟩ := hp k (by omega)
    have hlen : ResetState.txnStages.length = 7 := rfl
    have hk7 : k < ResetState.txnStages.length := by omega
    have hl : ResetState.txnStages[k]? = some (ResetState.txnStages[k]) :=
      List.getElem?_eq_getElem hk7
    have hstep := ResetState.txns_reset env k f _ hf hl _ hn
    have ha : ResetState.after env db (k + 1) = (f (ResetState.after env db k)).1 := by
      unfold ResetState.after
      rw [List.take_succ, hf]
      simp
    have hc : ResetState.committed db (k + 1)
        = ((ResetState.committed db k).clearTables
            (ResetState.txnTables ResetState.txnStages[k])).zeroProgress
            ResetState.txnStages[k] := by
      unfold ResetState.committed
      rw [List.take_succ, hl, List.foldl_append]
      rfl
    rw [ha, hstep, hc, ih1]

theorem runTxns_resets {T : List kv.Table} {S : List SyncStage} {P : kv.Table → Prop}
    {Q : SyncStage → Prop} :
    ∀ (fs : List (Store → Store × Option Err)),
      (∀ f ∈ fs, ∀ d, Store.Resets T S P Q d (f d).1) →
      ∀ db, Store.Resets T S P Q db (runTxns fs db).1 := by
  intro fs
  induction fs with
  | nil => intro _ db; exact Store.Resets.refl _
  | cons f fs ih =>
    intro hf db
    have h1 := hf f (List.mem_cons_self _ _) db
    cases hd : f db with
    | mk db1 e =>
      rw [hd] at h1
      cases e with
      | some e => simpa [runTxns, hd] using h1
      | none =>
        have h2 := ih (fun f1 hf1 => hf f1 (List.mem_cons_of_mem _ hf1)) db1
        simp only [runTxns, hd]
        exact h1.trans h2

/-- Neither of the first seven transactions of `ResetState` does anything but
empty tables of the catalog and `TxLookup` and zero watermarks of stages other
than `Senders`. -/
theorem ResetState.txns_resets {T : List kv.Table} {S : List SyncStage}
    {P : kv.Table → Prop} {Q : SyncStage → Prop} (env : Nat → Env)
    (hP : ∀ s t, t ∈ Tables.index s → P t) (hPL : P .TxLookup)
    (hQ : ∀ s, s ≠ SyncStage.Senders → Q s) :
    ∀ f ∈ ResetState.txns env, ∀ d, Store.Resets T S P Q d (f d).1 := by
  have hreset : ∀ (e : Env) (d : Store) (l : List SyncStage), SyncStage.Senders ∉ l →
      Store.Resets T S P Q d (Reset e d l).1 := by
    intro e d l hl
    exact Reset_resets e d l (fun s _ t ht => hP s t ht)
      (fun s hs => hQ s (fun h => hl (h ▸ hs)))
  intro f hf d
  simp only [ResetState.txns, List.mem_cons, List.mem_singleton, List.not_mem_nil,
    or_false] at hf
  rcases hf with h1 | h1 | h1 | h1 | h1 | h1 | h1 <;> subst h1
  · exact hreset _ _ _ (by decide)
  · exact hreset _ _ _ (by decide)
  · exact hreset _ _ _ (by decide)
  · exact hreset _ _ _ (by decide)
  · exact hreset _ _ _ (by decide)
  · exact kv.Update_resets (env 5) d (ResetTxLookup (env 5))
      (fun tx => ResetTxLookup_resets (env 5) hPL (hQ _ (by decide)) tx)
  · exact hreset _ _ _ (by decide)

/-- The callback of `ResetExec` only resets, up to the transaction `pre` it
has reached when it returns or, on a Legacy store, when it calls the genesis
writer, whose result it then returns. -/
theorem ResetExec.body_pre {T : List kv.Table} {S : List SyncStage} {P : kv.Table → Prop}
    {Q : SyncStage → Prop} (env : Env)
    (historyV3 : Bool) (hist : List kv.Table) (chain tmpDir : String)
    (hP1 : ∀ t ∈ stateBuckets, P t) (hP2 : ∀ t ∈ hist, P t)
    (hQ : ∀ s ∈ [SyncStage.Execution, SyncStage.HashState, SyncStage.IntermediateHashes], Q s)
    (tx : Tx) :
    ∃ pre : Tx, Store.Resets T S P Q tx.store pre.store ∧
      ((ResetExec.body env historyV3 hist chain tmpDir tx).1 = pre ∨
        (historyV3 = false ∧
          ResetExec.body env historyV3 hist chain tmpDir tx
            = env.WriteGenesisState (env.GenesisBlockByChainName chain) pre tmpDir)) := by
  have h1 : Store.Resets T S P Q tx.store
      (clearStageProgress env tx [.Execution, .HashState, .IntermediateHashes]).1.store :=
    clearStageProgress_resets env _ hQ tx
  unfold ResetExec.body
  split
  · rename_i tx1 e h2
    rw [h2] at h1
    exact ⟨tx1, h1, Or.inl rfl⟩
  · rename_i tx1 h2
    rw [h2] at h1
    have h3 : Store.Resets T S P Q tx1.store
        (backup.ClearTables env tx1 stateBuckets).1.store :=
      backup.ClearTables_resets env _ hP1 tx1
    split
    · rename_i tx2 e h4
      rw [h4] at h3
      exact ⟨tx2, h1.trans h3, Or.inl rfl⟩
    · rename_i tx2 h4
      rw [h4] at h3
      have h5 : Store.Resets T S P Q tx2.store
          (ResetExec.clearLoop env tx2 stateBuckets).1.store := by
        rw [ResetExec.clearLoop_eq]
        exact backup.ClearTables_resets env _ hP1 tx2
      split
      · rename_i tx3 e h6
        rw [h6] at h5
        exact ⟨tx3, (h1.trans h3).trans h5, Or.inl rfl⟩
      · rename_i tx3 h6
        rw [h6] at h5
        have h7 : Store.Resets T S P Q tx3.store (backup.ClearTables env tx3 hist).1.store :=
          backup.ClearTables_resets env _ hP2 tx3
        split
        · rename_i tx4 e h8
          rw [h8] at h7
          exact ⟨tx4, ((h1.trans h3).trans h5).trans h7, Or.inl rfl⟩
        · rename_i tx4 h8
          rw [h8] at h7
          split
          · rename_i hv
            have hv3 : historyV3 = false := by simpa using hv
            refine ⟨tx4, ((h1.trans h3).trans h5).trans h7, Or.inr ⟨hv3, ?_⟩⟩
            split
            · rename_i tx5 e h10
              exact h10.symm
            · rename_i tx5 h10
              exact h10.symm
          · exact ⟨tx4, ((h1.trans h3).trans h5).trans h7, Or.inl rfl⟩

/-- Whatever its outcome, `ResetExec` leaves the store that resets alone made
of `db`, or, on a Legacy store and when it returns nil, what the genesis writer
made of such a store. -/
theorem ResetExec_pre {T : List kv.Table} {S : List SyncStage} {P : kv.Table → Prop}
    {Q : SyncStage → Prop} (env : Env) (g : Globals) (db : Store) (chain tmpDir : String)
    (hP1 : ∀ t ∈ stateBuckets, P t)
    (hP2 : ∀ t ∈ (ResetExec.appendHistory g (kvcfg.FromDB .HistoryV3 db)).stateHistoryBuckets,
      P t)
    (hQ : ∀ s ∈ [SyncStage.Execution, SyncStage.HashState, SyncStage.IntermediateHashes], Q s) :
    ∃ pre : Tx, Store.Resets T S P Q db pre.store ∧
      ((ResetExec env g db chain tmpDir).2.1 = pre.store ∨
        (kvcfg.FromDB .HistoryV3 db = false ∧
          (ResetExec env g db chain tmpDir).2.2 = none ∧
          (env.WriteGenesisState (env.GenesisBlockByChainName chain) pre tmpDir).2 = none ∧
          (ResetExec env g db chain tmpDir).2.1
            = (env.WriteGenesisState (env.GenesisBlockByChainName chain) pre tmpDir).1.store))
    := by
  unfold ResetExec
  simp only
  cases hu : kv.Update env db (ResetExec.body env (kvcfg.FromDB .HistoryV3 db)
      (ResetExec.appendHistory g (kvcfg.FromDB .HistoryV3 db)).stateHistoryBuckets
      chain tmpDir) with
  | mk d e =>
    cases e with
    | some e =>
      have hd : d = db := by
        have := @kv.Update_some env db
          (ResetExec.body env (kvcfg.FromDB .HistoryV3 db)
            (ResetExec.appendHistory g (kvcfg.FromDB .HistoryV3 db)).stateHistoryBuckets
            chain tmpDir) (by rw [hu]; simp)
        rw [hu] at this
        exact this
      exact ⟨kv.beginRw db, Store.Resets.refl _, Or.inl hd⟩
    | none =>
      obtain ⟨tx1, hb, hd⟩ := kv.Update_none hu
      obtain ⟨pre, hr, hc⟩ := ResetExec.body_pre (T := T) (S := S) (P := P) (Q := Q) env
        (kvcfg.FromDB .HistoryV3 db)
        (ResetExec.appendHistory g (kvcfg.FromDB .HistoryV3 db)).stateHistoryBuckets
        chain tmpDir hP1 hP2 hQ (kv.beginRw db)
      refine ⟨pre, hr, ?_⟩
      rcases hc with hc | ⟨hv, hc⟩
      · left
        rw [hb] at hc
        simp only at hc ⊢
        rw [hd, hc]
      · right
        rw [hb] at hc
        refine ⟨hv, rfl, ?_, ?_⟩
        · rw [← hc]
        · rw [← hc]
          exact hd

/-- The store `db` with the resets of all seven transactions applied has the
tables of the catalog stages and `TxLookup` empty, the watermarks of these
stages zero, and the feature flags of `db`. -/
theorem ResetState.committed_cleared (db : Store) :
    (∀ s ∈ ResetState.stages,
      (∀ t ∈ Tables.index s, (ResetState.committed db 7).tables t = []) ∧
      (ResetState.committed db 7).progress s = 0 ∧
      (ResetState.committed db 7).pruneProgress s = 0) ∧
    (ResetState.committed db 7).tables .TxLookup = [] ∧
    (ResetState.committed db 7).config = db.config := by
  refine ⟨fun s hs => ⟨fun t ht => ?_, ?_, ?_⟩, rfl, rfl⟩
  · have hm := ResetState.mem_tables s hs t ht
    revert hm
    cases t <;> first | (intro _; rfl) | (intro hm; exact absurd hm (by decide))
  · rw [ResetState.stages_eq] at hs
    simp only [List.mem_cons, List.mem_singleton, List.not_mem_nil, or_false] at hs
    rcases hs with h | h | h | h | h | h | h | h <;> subst h <;> rfl
  · rw [ResetState.stages_eq] at hs
    simp only [List.mem_cons, List.mem_singleton, List.not_mem_nil, or_false] at hs
    rcases hs with h | h | h | h | h | h | h | h <;> subst h <;> rfl

/-! ## ResetState -/

/-- With a genesis writer that leaves the `Senders` and catalog tables and
watermarks alone, and a package variable `stateHistoryBuckets` that does not
list `Senders`, `ResetState` never changes the `Senders` table nor the
watermarks of the `Senders` stage, and a `ResetState` that returns nil leaves
empty the tables of every stage of the catalog `Tables` and the `TxLookup`
table, with the watermarks of these stages and of `TxLookup` at zero. -/
theorem ResetState_keeping_writer (env : Nat → Env) (g : Globals) (db : Store)
    (chain tmpDir : String)
    (hg : kv.Table.Senders ∉ g.stateHistoryBuckets)
    (hW : (env 7).GenesisKeeps (.Senders :: ResetState.tables)
      (.Senders :: ResetState.stages)) :
    ((ResetState env g db chain tmpDir).2.1.tables .Senders = db.tables .Senders ∧
     (ResetState env g db chain tmpDir).2.1.progress .Senders = db.progress .Senders ∧
     (ResetState env g db chain tmpDir).2.1.pruneProgress .Senders
       = db.pruneProgress .Senders) ∧
    ((ResetState env g db chain tmpDir).2.2 = none →
      (∀ s ∈ ResetState.stages,
        (∀ t ∈ Tables.index s, (ResetState env g db chain tmpDir).2.1.tables t = []) ∧
        (ResetState env g db chain tmpDir).2.1.progress s = 0 ∧
        (ResetState env g db chain tmpDir).2.1.pruneProgress s = 0) ∧
      (ResetState env g db chain tmpDir).2.1.tables .TxLookup = []) := by
  constructor
  · have r := ResetState_resets (P := fun t => t ≠ kv.Table.Senders)
      (Q := fun s => s ≠ SyncStage.Senders) env hW g db chain tmpDir
      (by
        intro s t ht h
        subst h
        revert ht
        cases s <;> decide)
      (by decide) (by decide)
      (fun t ht h => hg (h ▸ ht))
      (by decide) (by decide) (fun _ h => h)
    refine ⟨?_, ?_, ?_⟩
    · rcases r.1 .Senders (List.mem_cons_self _ _) with h | ⟨h, _⟩
      · exact h
      · exact absurd rfl h
    · rcases (r.2 .Senders (List.mem_cons_self _ _)).1 with h | ⟨h, _⟩
      · exact h
      · exact absurd rfl h
    · rcases (r.2 .Senders (List.mem_cons_self _ _)).2 with h | ⟨h, _⟩
      · exact h
      · exact absurd rfl h
  · intro h
    have h1 : ResetState env g db chain tmpDir
        = ((ResetState env g db chain tmpDir).1, (ResetState env g db chain tmpDir).2.1,
            none) := by rw [← h]
    obtain ⟨hc, hl⟩ := ResetState_cleared hW h1
    refine ⟨fun s hs => ⟨fun t ht => ?_, ?_⟩, ?_⟩
    · exact (hc s hs).1 t ht
        (List.mem_cons_of_mem _ (ResetState.mem_tables s hs t ht))
    · exact (hc s hs).2 (List.mem_cons_of_mem _ hs)
    · exact hl (List.mem_cons_of_mem _ (by decide))

/-- C17, as stated, fails on a Legacy store: with a genesis writer that
re-seeds the state tables, plain and hashed, `ResetState` returns nil and
leaves the genesis record in `HashedAccounts`, a table of the catalog stage
`HashState`; the `Senders` table is as before. -/
theorem ResetState_reseed_counterexample :
    kvcfg.FromDB .HistoryV3 lookupStore = false ∧
    kv.Table.HashedAccounts ∈ Tables.index .HashState ∧
    SyncStage.HashState ∈ ResetState.stages ∧
    (ResetState (fun _ => Env.seedingState [([9], [90])]) Globals.init lookupStore
      "mainnet" "tmp").2.2 = none ∧
    (ResetState (fun _ => Env.seedingState [([9], [90])]) Globals.init lookupStore
      "mainnet" "tmp").2.1.tables .HashedAccounts = [([9], [90])] ∧
    (ResetState (fun _ => Env.seedingState [([9], [90])]) Globals.init lookupStore
      "mainnet" "tmp").2.1.tables .HashedAccounts ≠ [] ∧
    (ResetState (fun _ => Env.seedingState [([9], [90])]) Globals.init lookupStore
      "mainnet" "tmp").2.1.tables .Senders = lookupStore.tables .Senders :=
  ⟨rfl, by decide, by decide, rfl, rfl, by decide, rfl⟩

/-- C17, amended: whatever its outcome, `ResetState` leaves the store `pre`
that its own operations made, or, on a Legacy store and when it returns nil,
the store that the genesis writer made of `pre`; under `HistoryV3`, and
whenever it returns an error, it leaves `pre` itself.  In `pre` the `Senders` table
and both watermarks of the `Senders` stage are as before the call, and when
`ResetState` returns nil the tables of every stage of the catalog `Tables` and
the `TxLookup` table are empty in `pre` and the watermarks of these stages and
of `TxLookup` are zero.  The package variable `stateHistoryBuckets` does not
list `Senders` (true at program start and kept by `ResetExec`). -/
theorem ResetState_senders_and_catalog (env : Nat → Env) (g : Globals) (db : Store)
    (chain tmpDir : String)
    (hg : kv.Table.Senders ∉ g.stateHistoryBuckets) :
    ∃ pre : Tx,
      (pre.store.tables .Senders = db.tables .Senders ∧
        pre.store.progress .Senders = db.progress .Senders ∧
        pre.store.pruneProgress .Senders = db.pruneProgress .Senders) ∧
      ((ResetState env g db chain tmpDir).2.2 = none →
        (∀ s ∈ ResetState.stages,
          (∀ t ∈ Tables.index s, pre.store.tables t = []) ∧
          pre.store.progress s = 0 ∧ pre.store.pruneProgress s = 0) ∧
        pre.store.tables .TxLookup = []) ∧
      ((ResetState env g db chain tmpDir).2.1 = pre.store ∨
        (kvcfg.FromDB .HistoryV3 db = false ∧
          (ResetState env g db chain tmpDir).2.2 = none ∧
          ((env 7).WriteGenesisState ((env 7).GenesisBlockByChainName chain) pre tmpDir).2
            = none ∧
          (ResetState env g db chain tmpDir).2.1
            = ((env 7).WriteGenesisState ((env 7).GenesisBlockByChainName chain) pre
                tmpDir).1.store)) ∧
      (kvcfg.FromDB .HistoryV3 db = true ∨ (ResetState env g db chain tmpDir).2.2 ≠ none →
        (ResetState env g db chain tmpDir).2.1 = pre.store) := by
  have hPt : ∀ s t, t ∈ Tables.index s → t ≠ kv.Table.Senders := by
    intro s t ht h
    subst h
    revert ht
    cases s <;> decide
  have r0 : Store.Resets (.Senders :: ResetState.tables) (.Senders :: ResetState.stages)
      (fun t => t ≠ kv.Table.Senders) (fun s => s ≠ SyncStage.Senders) db
      (runTxns (ResetState.txns env) db).1 :=
    runTxns_resets _ (ResetState.txns_resets env hPt (by decide) (fun _ h => h)) db
  have senders : ∀ {a : Store},
      Store.Resets (.Senders :: ResetState.tables) (.Senders :: ResetState.stages)
        (fun t => t ≠ kv.Table.Senders) (fun s => s ≠ SyncStage.Senders) db a →
      a.tables .Senders = db.tables .Senders ∧ a.progress .Senders = db.progress .Senders ∧
        a.pruneProgress .Senders = db.pruneProgress .Senders := by
    intro a r
    refine ⟨?_, ?_, ?_⟩
    · rcases r.1 .Senders (List.mem_cons_self _ _) with h | ⟨h, _⟩
      · exact h
      · exact absurd rfl h
    · rcases (r.2 .Senders (List.mem_cons_self _ _)).1 with h | ⟨h, _⟩
      · exact h
      · exact absurd rfl h
    · rcases (r.2 .Senders (List.mem_cons_self _ _)).2 with h | ⟨h, _⟩
      · exact h
      · exact absurd rfl h
  rw [ResetState_eq_runTxns]
  cases hr : runTxns (ResetState.txns env) db with
  | mk db7 e =>
    rw [hr] at r0
    cases e with
    | some e =>
      exact ⟨kv.beginRw db7, senders r0, fun h => absurd h (by simp), Or.inl rfl,
        fun _ => rfl⟩
    | none =>
      have hok : (runTxns (ResetState.txns env) db).2 = none := by rw [hr]
      obtain ⟨hs, hp⟩ := runTxns_ok (ResetState.txns env) db hok
      rw [hr] at hs
      have h7 : db7 = ResetState.committed db 7 :=
        hs.trans (ResetState.after_eq_committed env db 7 (le_refl 7) hp)
      obtain ⟨hc, hl, hcfg⟩ := ResetState.committed_cleared db
      rw [← h7] at hc hl hcfg
      have hflag : kvcfg.FromDB .HistoryV3 db7 = kvcfg.FromDB .HistoryV3 db := by
        unfold kvcfg.FromDB
        rw [hcfg]
      obtain ⟨pre, r7, hfin⟩ := ResetExec_pre
        (T := .Senders :: ResetState.tables) (S := .Senders :: ResetState.stages)
        (P := fun t => t ≠ kv.Table.Senders) (Q := fun s => s ≠ SyncStage.Senders)
        (env 7) g db7 chain tmpDir (by decide)
        (fun t ht => by
          rcases ResetExec.mem_appendHistory _ _ t ht with h | h | h
          · exact fun e => hg (e ▸ h)
          · exact fun e => absurd (e ▸ h) (by decide)
          · exact fun e => absurd (e ▸ h) (by decide))
        (by decide)
      rw [hflag] at hfin
      simp only
      refine ⟨pre, senders (r0.trans r7), fun _ => ⟨fun s hs1 => ⟨fun t ht => ?_, ?_, ?_⟩, ?_⟩,
        hfin, ?_⟩
      · exact r7.cleared.1 t (List.mem_cons_of_mem _ (ResetState.mem_tables s hs1 t ht))
          ((hc s hs1).1 t ht)
      · exact r7.cleared.2.1 s (List.mem_cons_of_mem _ hs1) (hc s hs1).2.1
      · exact r7.cleared.2.2 s (List.mem_cons_of_mem _ hs1) (hc s hs1).2.2
      · exact r7.cleared.1 .TxLookup (List.mem_cons_of_mem _ (by decide)) hl
      · intro hor
        rcases hfin with hfin | ⟨hv, hn, _, _⟩
        · exact hfin
        · rcases hor with ht | he
          · rw [hv] at ht
            exact absurd ht (by decide)
          · exact absurd hn he

/-- C17, amended, on the Legacy sample store with a genesis writer that
re-seeds `PlainState` and `HashedAccounts`: `ResetState` returns nil and its
result is the genesis writer applied to a store in which `Senders` is as
before and the catalog tables and `TxLookup` are empty. -/
theorem ResetState_senders_and_catalog_witness :
    kv.Table.Senders ∉ Globals.init.stateHistoryBuckets ∧
    (ResetState (fun _ => Env.seedingState [([9], [90])]) Globals.init lookupStore
      "mainnet" "tmp").2.2 = none ∧
    ∃ pre : Tx,
      (pre.store.tables .Senders = lookupStore.tables .Senders ∧
        pre.store.progress .Senders = lookupStore.progress .Senders ∧
        pre.store.pruneProgress .Senders = lookupStore.pruneProgress .Senders) ∧
      ((ResetState (fun _ => Env.seedingState [([9], [90])]) Globals.init lookupStore
          "mainnet" "tmp").2.2 = none →
        (∀ s ∈ ResetState.stages,
          (∀ t ∈ Tables.index s, pre.store.tables t = []) ∧
          pre.store.progress s = 0 ∧ pre.store.pruneProgress s = 0) ∧
        pre.store.tables .TxLookup = []) ∧
      ((ResetState (fun _ => Env.seedingState [([9], [90])]) Globals.init lookupStore
          "mainnet" "tmp").2.1 = pre.store ∨
        (kvcfg.FromDB .HistoryV3 lookupStore = false ∧
          (ResetState (fun _ => Env.seedingState [([9], [90])]) Globals.init lookupStore
            "mainnet" "tmp").2.2 = none ∧
          ((Env.seedingState [([9], [90])]).WriteGenesisState
            ((Env.seedingState [([9], [90])]).GenesisBlockByChainName "mainnet") pre
            "tmp").2 = none ∧
          (ResetState (fun _ => Env.seedingState [([9], [90])]) Globals.init lookupStore
            "mainnet" "tmp").2.1
            = ((Env.seedingState [([9], [90])]).WriteGenesisState
                ((Env.seedingState [([9], [90])]).GenesisBlockByChainName "mainnet") pre
                "tmp").1.store)) ∧
      (kvcfg.FromDB .HistoryV3 lookupStore = true ∨
          (ResetState (fun _ => Env.seedingState [([9], [90])]) Globals.init lookupStore
            "mainnet" "tmp").2.2 ≠ none →
        (ResetState (fun _ => Env.seedingState [([9], [90])]) Globals.init lookupStore
          "mainnet" "tmp").2.1 = pre.store) :=
  ⟨by decide, rfl,
    ResetState_senders_and_catalog (fun _ => Env.seedingState [([9], [90])]) Globals.init
      lookupStore "mainnet" "tmp" (by decide)⟩

/-- C18, as stated, fails: when clearing `TxLookup` fails in the sixth
transaction, `ResetState` returns that error, yet the resets committed before
it are visible: `HashedAccounts` and the `HashState` watermark were reset and
the store differs from the store before the call. -/
theorem ResetState_not_atomic_counterexample :
    (ResetState (fun _ => Env.ofFaults failTxLookupClear) Globals.init lookupStore
      "mainnet" "tmp").2.2 = some (Err.storage (Op.ClearBucket .TxLookup)) ∧
    lookupStore.tables .HashedAccounts = [([1], [10])] ∧
    (ResetState (fun _ => Env.ofFaults failTxLookupClear) Globals.init lookupStore
      "mainnet" "tmp").2.1.tables .HashedAccounts = [] ∧
    lookupStore.progress .HashState = 12345 ∧
    (ResetState (fun _ => Env.ofFaults failTxLookupClear) Globals.init lookupStore
      "mainnet" "tmp").2.1.progress .HashState = 0 ∧
    (ResetState (fun _ => Env.ofFaults failTxLookupClear) Globals.init lookupStore
      "mainnet" "tmp").2.1 ≠ lookupStore :=
  ⟨rfl, rfl, rfl, rfl, rfl,
    fun h => absurd (congrArg (fun s => s.progress .HashState) h) (by decide)⟩

/-- C18, amended: `ResetState` is a sequence of eight transactions, each
atomic on its own.  If it returns an error, there is a `k ≤ 7` such that the
first `k` transactions each returned nil on the store their predecessor left,
the transaction number `k` (the `ResetExec` transaction when `k = 7`) returned
the error that `ResetState` returns and left no change, and the store after
the call is the store the first `k` transactions left, which is the store
before the call with their resets applied: the tables of their stages emptied
and the watermarks of their stages zeroed. -/
theorem ResetState_stepwise_atomic (env : Nat → Env) (g : Globals) (db : Store)
    (chain tmpDir : String)
    (h : (ResetState env g db chain tmpDir).2.2 ≠ none) :
    ∃ k, k ≤ 7 ∧
      (∀ j, j < k → ∃ f, (ResetState.txns env)[j]? = some f ∧
        (f (ResetState.after env db j)).2 = none) ∧
      ((∃ f, (ResetState.txns env)[k]? = some f ∧
          (f (ResetState.after env db k)).2 = (ResetState env g db chain tmpDir).2.2) ∨
        (k = 7 ∧ (ResetExec (env 7) g (ResetState.after env db 7) chain tmpDir).2.2
          = (ResetState env g db chain tmpDir).2.2)) ∧
      (ResetState env g db chain tmpDir).2.1 = ResetState.after env db k ∧
      (ResetState env g db chain tmpDir).2.1 = ResetState.committed db k := by
  rw [ResetState_eq_runTxns] at h ⊢
  cases hr : runTxns (ResetState.txns env) db with
  | mk db7 e =>
    cases e with
    | some e =>
      have hne : (runTxns (ResetState.txns env) db).2 ≠ none := by rw [hr]; simp
      obtain ⟨k, hs, hp, f, hf, he⟩ :=
        runTxns_first_error (ResetState.txns env) (ResetState.txns_atomic env) db hne
      have hk : k < 7 := by
        by_contra hc
        have : (ResetState.txns env)[k]? = none := by
          apply List.getElem?_eq_none
          have : (ResetState.txns env).length = 7 := rfl
          omega
        rw [this] at hf
        exact absurd hf (by simp)
      rw [hr] at hs he
      have ha : db7 = ResetState.after env db k := hs
      refine ⟨k, by omega, hp, Or.inl ⟨f, hf, he⟩, ha, ?_⟩
      simp only
      rw [ha]
      exact ResetState.after_eq_committed env db k (by omega) hp
    | none =>
      have hok : (runTxns (ResetState.txns env) db).2 = none := by rw [hr]
      obtain ⟨hs, hp⟩ := runTxns_ok (ResetState.txns env) db hok
      rw [hr] at h hs
      simp only at h hs ⊢
      have h7 : db7 = ResetState.after env db 7 := hs
      have h2 : (ResetExec (env 7) g db7 chain tmpDir).2.1 = db7 := by
        unfold ResetExec at h ⊢
        exact kv.Update_some h
      refine ⟨7, le_refl 7, hp, Or.inr ⟨rfl, by rw [← h7]⟩, by rw [h2, h7], ?_⟩
      rw [h2, h7]
      exact ResetState.after_eq_committed env db 7 (le_refl 7) hp

/-- C18, amended, at the failure of the sixth transaction: the call returns
the error of clearing `TxLookup`, and the store after it is the store before
it with the resets of the first five transactions applied, among them
`HashedAccounts` emptied and the `HashState` watermark zeroed. -/
theorem ResetState_stepwise_atomic_witness :
    (ResetState (fun _ => Env.ofFaults failTxLookupClear) Globals.init lookupStore
      "mainnet" "tmp").2.2 ≠ none ∧
    (ResetState (fun _ => Env.ofFaults failTxLookupClear) Globals.init lookupStore
      "mainnet" "tmp").2.1 = ResetState.committed lookupStore 5 ∧
    (ResetState.committed lookupStore 5).tables .HashedAccounts = [] ∧
    (ResetState.committed lookupStore 5).progress .HashState = 0 ∧
    ∃ k, k ≤ 7 ∧
      (∀ j, j < k → ∃ f,
        (ResetState.txns (fun _ => Env.ofFaults failTxLookupClear))[j]? = some f ∧
        (f (ResetState.after (fun _ => Env.ofFaults failTxLookupClear) lookupStore j)).2
          = none) ∧
      ((∃ f, (ResetState.txns (fun _ => Env.ofFaults failTxLookupClear))[k]? = some f ∧
          (f (ResetState.after (fun _ => Env.ofFaults failTxLookupClear) lookupStore k)).2
            = (ResetState (fun _ => Env.ofFaults failTxLookupClear) Globals.init lookupStore
                "mainnet" "tmp").2.2) ∨
        (k = 7 ∧ (ResetExec (Env.ofFaults failTxLookupClear) Globals.init
            (ResetState.after (fun _ => Env.ofFaults failTxLookupClear) lookupStore 7)
            "mainnet" "tmp").2.2
          = (ResetState (fun _ => Env.ofFaults failTxLookupClear) Globals.init lookupStore
              "mainnet" "tmp").2.2)) ∧
      (ResetState (fun _ => Env.ofFaults failTxLookupClear) Globals.init lookupStore
        "mainnet" "tmp").2.1
        = ResetState.after (fun _ => Env.ofFaults failTxLookupClear) lookupStore k ∧
      (ResetState (fun _ => Env.ofFaults failTxLookupClear) Globals.init lookupStore
        "mainnet" "tmp").2.1 = ResetState.committed lookupStore k :=
  ⟨by decide, by
    apply Store.ext
    · funext u; cases u <;> rfl
    · funext u; cases u <;> rfl
    · funext u; cases u <;> rfl
    · rfl, rfl, rfl,
    ResetState_stepwise_atomic (fun _ => Env.ofFaults failTxLookupClear) Globals.init
      lookupStore "mainnet" "tmp" (by decide)⟩

/-! ## Error propagation in the reset family -/

theorem ssz.Uint64SSZ_length (i : Nat) : (ssz.Uint64SSZ i).length = 8 := rfl

theorem ssz.UnmarshalUint64SSZ_append (i : Nat) (rest : Bytes) (h : i < 2 ^ 64) :
    ssz.UnmarshalUint64SSZ (ssz.Uint64SSZ i ++ rest) = i := by
  simp only [ssz.UnmarshalUint64SSZ, ssz.Uint64SSZ, List.cons_append, List.getD_cons_zero,
    List.getD_cons_succ]
  omega

theorem Go.copy_prefix (dst src rest : Bytes) (h : dst.length = src.length) :
    Go.copy dst (src ++ rest) = src := by
  unfold Go.copy
  rw [h, List.take_left]
  have : dst.length ≤ (src ++ rest).length := by
    rw [List.length_append, h]
    omega
  rw [List.drop_eq_nil_of_le this]
  simp

/-- C21: for every `BLSToExecutionChange` `b`, `EncodeSSZ(nil)` returns no
error and exactly 76 bytes, namely the 8-byte little-endian `ValidatorIndex`,
then the 48 bytes of `From`, then the 20 bytes of `To`; `DecodeSSZ` of those
bytes returns no error and leaves the receiver equal to `b`; and `DecodeSSZ`
returns an error exactly when the buffer is shorter than 76 bytes. -/
theorem BLSToExecutionChange_ssz_round_trip (b b0 : cltypes.BLSToExecutionChange)
    (hb : b.WellFormed) (h0 : b0.WellFormed) (version : Int) :
    (b.EncodeSSZ []).2 = none ∧
    (b.EncodeSSZ []).1.length = 76 ∧
    (b.EncodeSSZ []).1 = ssz.Uint64SSZ b.ValidatorIndex ++ b.From ++ b.To ∧
    (ssz.Uint64SSZ b.ValidatorIndex).length = 8 ∧
    ssz.UnmarshalUint64SSZ (ssz.Uint64SSZ b.ValidatorIndex) = b.ValidatorIndex ∧
    b0.DecodeSSZ (b.EncodeSSZ []).1 version = (b, none) ∧
    (∀ buf : Bytes, (b0.DecodeSSZ buf version).2 ≠ none ↔ buf.length < 76) := by
  obtain ⟨hv, hf, ht⟩ := hb
  obtain ⟨_, hf0, ht0⟩ := h0
  have henc : (b.EncodeSSZ []).1 = ssz.Uint64SSZ b.ValidatorIndex ++ b.From ++ b.To := by
    simp [cltypes.BLSToExecutionChange.EncodeSSZ]
  have hlen : (b.EncodeSSZ []).1.length = 76 := by
    rw [henc, List.length_append, List.length_append, ssz.Uint64SSZ_length, hf, ht]
  refine ⟨rfl, hlen, henc, rfl, ?_, ?_, ?_⟩
  · have := ssz.UnmarshalUint64SSZ_append b.ValidatorIndex [] hv
    simpa using this
  · unfold cltypes.BLSToExecutionChange.DecodeSSZ
    rw [if_neg (by rw [hlen]; decide), henc]
    have h8 : (ssz.Uint64SSZ b.ValidatorIndex ++ b.From ++ b.To).drop 8 = b.From ++ b.To := by
      rw [List.append_assoc, ← ssz.Uint64SSZ_length b.ValidatorIndex, List.drop_left]
    have h56 : (ssz.Uint64SSZ b.ValidatorIndex ++ b.From ++ b.To).drop 56 = b.To := by
      have : (ssz.Uint64SSZ b.ValidatorIndex ++ b.From).length = 56 := by
        rw [List.length_append, ssz.Uint64SSZ_length, hf]
      rw [← this, List.drop_left]
    rw [h8, h56, List.append_assoc, ssz.UnmarshalUint64SSZ_append _ _ hv,
      Go.copy_prefix _ _ _ (hf0.trans hf.symm)]
    have hto : Go.copy b0.To b.To = b.To := by
      have := Go.copy_prefix b0.To b.To [] (ht0.trans ht.symm)
      simpa using this
    rw [hto]
  · intro buf
    unfold cltypes.BLSToExecutionChange.DecodeSSZ cltypes.BLSToExecutionChange.EncodingSizeSSZ
    split_ifs with h <;> simp [h]

theorem BLSToExecutionChange_ssz_round_trip_witness :
    sampleChange.WellFormed ∧ zeroChange.WellFormed ∧
    (sampleChange.EncodeSSZ []).1.length = 76 ∧
    (sampleChange.EncodeSSZ []).1.take 8 = [7, 0, 0, 0, 0, 1, 0, 0] ∧
    zeroChange.DecodeSSZ (sampleChange.EncodeSSZ []).1 0 = (sampleChange, none) ∧
    (zeroChange.DecodeSSZ ((sampleChange.EncodeSSZ []).1.take 75) 0).2 ≠ none :=
  have h := BLSToExecutionChange_ssz_round_trip sampleChange zeroChange (by decide) (by decide) 0
  ⟨by decide, by decide, h.2.1, by decide, h.2.2.2.2.2.1,
    (h.2.2.2.2.2.2 _).2 (by decide)⟩

/-! ## DynamicFeeTransaction JSON -/

end Erigon
